import Mathlib

/-!
# Celix dynamic type descriptors (`dyn_type.c`)

A shallow embedding of the descriptor parser, of the accessors and of the
printer of `remote_services/dynamic_function_interface/dyn_type.c`, and of the
version check of the pubsub admins (`pubsub_zmq_common.c`,
`topic_subscription.c`).

* A `FILE *` opened for reading is the list of characters still to be read;
  `fgetc` yields `none` for `EOF`.
* Every `dyn_type` record lives in a `Heap`, a list of records; a pointer is an
  index into it and `NULL` is `none`.  The records embedded in a
  `complex_type_entry` or a `nested_entry` are heap cells as well; the tail
  queues are the lists of their addresses, in queue order.
* In the parser `calloc`, `strdup` and `fmemopen` never fail (`calloc` always
  returns a fresh cell); the branches taken on a `NULL` cell are kept where the
  source has them.  `free` is not modelled: a destroyed subtree stays behind,
  unreachable.  The allocations of the accessors on values may fail.
* A function that recurses gets a fuel argument and returns `none` when the
  fuel runs out; `none` is also the result of a call that dereferences `NULL`,
  divides by zero or fails an assertion.  The printer tells the two apart: its
  runs end in a `PrintRun`.
* The layout of a simple type is that of an LP64 target.  The layout of an
  aggregate is what `ffi_prep_cif` of libffi leaves in it
  (`initialize_aggregate`, whose status `dynType_prepCif` drops); the packing
  rule of the specification is stated next to it, as `ffi_prep_struct`.
* The `int` counter of the sequence loop wraps past `INT_MAX`;
  `locForIndex_loop_strict` is the same loop read without wrapping.
-/

namespace Celix

/-- Status codes `OK`, `ERROR`, `MEM_ERROR`, `PARSE_ERROR` of `dyn_type.c`. -/
inductive Status where
  | OK
  | ERROR
  | MEM_ERROR
  | PARSE_ERROR
deriving DecidableEq

/-- Modelled from the spec: the node kinds `DYN_TYPE_*` of the absent header
`dyn_type.h` (Simple, Text, Complex, Sequence, TypedPointer, Reference, and the
invalid kind of a node that has not been parsed). -/
inductive DynKind where
  | INVALID
  | SIMPLE
  | COMPLEX
  | SEQUENCE
  | TYPED_POINTER
  | TEXT
  | REF
deriving DecidableEq

/-- An address of a `dyn_type` record in the heap. -/
abbrev Ptr := Nat

/-- A read stream: the characters that are still to be read. -/
abbrev FILE := List Char

/-- The C library call `fgetc`: the next character, or `none` at end of input. -/
def fgetc : FILE → Option Char × FILE
  | [] => (none, [])
  | c :: cs => (some c, cs)

/-- The C library call `ungetc`: pushes a character back; pushing `EOF` back
does nothing. -/
def ungetc : Option Char → FILE → FILE
  | none, s => s
  | some c, s => c :: s

/-- Modelled from the spec: the layout record the ABI oracle hands out (libffi's
`ffi_type`), reduced to the two members the engine reads. -/
structure ffi_type where
  size : Nat
  alignment : Nat
deriving DecidableEq

/-- An entry of the field queue of a Complex: the address of the embedded
`dyn_type` and the field name (`NULL` until the name is parsed). -/
structure complex_type_entry where
  type : Ptr
  name : Option (List Char)
deriving DecidableEq

/-- Modelled from the spec: the record `struct _dyn_type` of the absent header
`dyn_type.h` (name, descriptor character, kind, layout handle, parent
back-pointer, external reference scope, nested declarations, and the payload of
each kind).  The members of the C union are separate fields; `ffiType` holds the
layout record it points to. -/
structure dyn_type where
  name : Option (List Char)
  descriptor : Option Char
  type : DynKind
  ffiType : Option ffi_type
  parent : Option Ptr
  referenceTypes : Option (List Ptr)
  nestedTypesHead : List Ptr
  complex_entriesHead : List complex_type_entry
  complex_elements : Option (List (Option ffi_type))
  complex_types : Option (List Ptr)
  sequence_itemType : Option Ptr
  typedPointer_typedType : Option Ptr
  ref_ref : Option Ptr
deriving DecidableEq

/-- A record as `calloc` returns it: all members zero. -/
def dyn_type.zero : dyn_type :=
  { name := none, descriptor := none, type := DynKind.INVALID, ffiType := none,
    parent := none, referenceTypes := none, nestedTypesHead := [],
    complex_entriesHead := [], complex_elements := none, complex_types := none,
    sequence_itemType := none, typedPointer_typedType := none, ref_ref := none }

/-- The heap of `dyn_type` records. -/
abbrev Heap := List dyn_type

/-- Reads the record at an address (the zero record outside the heap). -/
def Heap.at (h : Heap) (p : Ptr) : dyn_type := h.getD p dyn_type.zero

/-- Rewrites the record at an address. -/
def Heap.upd (h : Heap) (p : Ptr) (f : dyn_type → dyn_type) : Heap :=
  h.set p (f (h.at p))

/-- The call `calloc(1, sizeof(dyn_type))`: a fresh zeroed record at the end of
the heap. -/
def calloc (h : Heap) : Option Ptr × Heap := (some h.length, h ++ [dyn_type.zero])

/-! ## The ABI layout oracle -/

/-- Modelled from the spec: ABI size and alignment of `f32`. -/
def ffi_type_float : ffi_type := ⟨4, 4⟩
/-- Modelled from the spec: ABI size and alignment of `f64`. -/
def ffi_type_double : ffi_type := ⟨8, 8⟩
/-- Modelled from the spec: ABI size and alignment of `i8`. -/
def ffi_type_sint8 : ffi_type := ⟨1, 1⟩
/-- Modelled from the spec: ABI size and alignment of `u8`. -/
def ffi_type_uint8 : ffi_type := ⟨1, 1⟩
/-- Modelled from the spec: ABI size and alignment of `i16`. -/
def ffi_type_sint16 : ffi_type := ⟨2, 2⟩
/-- Modelled from the spec: ABI size and alignment of `u16`. -/
def ffi_type_uint16 : ffi_type := ⟨2, 2⟩
/-- Modelled from the spec: ABI size and alignment of `i32`. -/
def ffi_type_sint32 : ffi_type := ⟨4, 4⟩
/-- Modelled from the spec: ABI size and alignment of `u32`. -/
def ffi_type_uint32 : ffi_type := ⟨4, 4⟩
/-- Modelled from the spec: ABI size and alignment of the 64-bit signed integer. -/
def ffi_type_sint64 : ffi_type := ⟨8, 8⟩
/-- Modelled from the spec: ABI size and alignment of the native signed int. -/
def ffi_type_sint : ffi_type := ⟨4, 4⟩
/-- Modelled from the spec: ABI size and alignment of a pointer (LP64 target). -/
def ffi_type_pointer : ffi_type := ⟨8, 8⟩

/-- Stated from the specification: the cursor of the struct packing rule of
§4.5 after the given members, starting from `cursor`: advance to the next
multiple of the member alignment, then add the member size.  The member array
ends at its first `NULL`. -/
def ffi_struct_cursor : List (Option ffi_type) → Nat → Nat
  | [], cursor => cursor
  | none :: _, cursor => cursor
  | some t :: ts, cursor =>
    ffi_struct_cursor ts ((cursor + t.alignment - 1) / t.alignment * t.alignment + t.size)

/-- Stated from the specification: the alignment of an aggregate by §4.5, the
maximum of the member alignments and at least 1. -/
def ffi_struct_alignment : List (Option ffi_type) → Nat
  | [] => 1
  | none :: _ => 1
  | some t :: ts => max t.alignment (ffi_struct_alignment ts)

/-- Stated from the specification: the layout of an aggregate by the packing
rule of §4.5 (`compose_struct`): alignment is the maximum member alignment, at
least 1, and size is the cursor after the last member rounded up to that
alignment.  It is the rule the program is compared with; what the program
computes is `dynType_prepCif`, and the two agree on a member array that is not
empty and whose members have a positive size. -/
def ffi_prep_struct (elements : List (Option ffi_type)) : ffi_type :=
  let a := ffi_struct_alignment elements
  { size := (ffi_struct_cursor elements 0 + a - 1) / a * a, alignment := a }

/-- The macro `FFI_ALIGN (v, a)` of libffi, `(((v) - 1) | ((a) - 1)) + 1` on
`size_t`: for an alignment that is a power of two, as those of the ABI are, the
next multiple of `a` from `v` on; for the alignment 0 it is 0. -/
def FFI_ALIGN (v a : Nat) : Nat :=
  if a = 0 then 0 else (v + a - 1) / a * a

/-- The function `initialize_aggregate` of libffi, which `ffi_prep_cif` runs on
an aggregate whose size is still zero: `arg` holds the size and the alignment
reached so far, both zero at the start, and the value is the size and the
alignment left in the aggregate.  Each member up to the first `NULL` advances
the size to the next multiple of its alignment, adds its size and raises the
alignment to its own; at the end the size is rounded up to the alignment.  A
member of size zero is an aggregate that has no layout: the function returns
`FFI_BAD_TYPEDEF` at once and leaves the aggregate as it is at that point.  It
returns `FFI_BAD_TYPEDEF` as well when the final size is zero.  The status is
no part of the value, see `dynType_prepCif`. -/
def initialize_aggregate : List (Option ffi_type) → ffi_type → ffi_type
  | [], arg => { arg with size := FFI_ALIGN arg.size arg.alignment }
  | none :: _, arg => { arg with size := FFI_ALIGN arg.size arg.alignment }
  | some t :: ts, arg =>
    if t.size = 0 then arg
    else
      initialize_aggregate ts
        { size := FFI_ALIGN arg.size t.alignment + t.size,
          alignment := max arg.alignment t.alignment }

/-- The function `dynType_prepCif`: it hands the aggregate, fresh from `calloc`,
to `ffi_prep_cif` as the one argument of a call and drops the status; the value
is the layout left in the aggregate, `elements` being its member array. -/
def dynType_prepCif (elements : List (Option ffi_type)) : ffi_type :=
  initialize_aggregate elements ⟨0, 0⟩

/-- The member array `seq_types` of a sequence header: `{u32, u32, ptr}`. -/
def seq_types : List (Option ffi_type) :=
  [some ffi_type_uint32, some ffi_type_uint32, some ffi_type_pointer]

/-! ## The descriptor lexer -/

/-- Modelled from the spec: first character of an identifier, `[A-Za-z_]`. -/
def isNameStart (c : Char) : Bool :=
  ('A' ≤ c && c ≤ 'Z') || ('a' ≤ c && c ≤ 'z') || c = '_'

/-- Modelled from the spec: character of an identifier, `[A-Za-z0-9_]`. -/
def isNameChar (c : Char) : Bool :=
  isNameStart c || ('0' ≤ c && c ≤ '9')

/-- Modelled from the spec: `dynCommon_parseName` of the absent `dyn_common.c`,
the identifier reader of the descriptor lexer.  It reads the longest run of
identifier characters (the character that ends the run is pushed back) and
fails with a parse error, reading nothing, when no identifier starts here. -/
def dynCommon_parseName (stream : FILE) : Status × Option (List Char) × FILE :=
  match stream with
  | [] => (Status.PARSE_ERROR, none, stream)
  | c :: _ =>
    if isNameStart c then
      (Status.OK, some (stream.takeWhile isNameChar), stream.dropWhile isNameChar)
    else (Status.PARSE_ERROR, none, stream)

/-! ## Name resolution and the simple types -/

/-- The function `dynType_ffiTypeFor`: the layout of a simple letter, `NULL` for
any other character (the `switch` is a chain of comparisons). -/
def dynType_ffiTypeFor (c : Option Char) : Option ffi_type :=
  if c = some 'F' then some ffi_type_float
  else if c = some 'D' then some ffi_type_double
  else if c = some 'B' then some ffi_type_sint8
  else if c = some 'b' then some ffi_type_uint8
  else if c = some 'S' then some ffi_type_sint16
  else if c = some 's' then some ffi_type_uint16
  else if c = some 'I' then some ffi_type_sint32
  else if c = some 'i' then some ffi_type_uint32
  else if c = some 'J' then some ffi_type_sint64
  else if c = some 'j' then some ffi_type_sint64
  else if c = some 'N' then some ffi_type_sint
  else if c = some 'P' then some ffi_type_pointer
  else none

/-- One `TAILQ_FOREACH` of `dynType_findType` over a queue of types: the first
type whose name is `name`.  `strcmp` on a `NULL` name does not return. -/
def findType_scan (h : Heap) (name : List Char) : List Ptr → Option (Option Ptr)
  | [] => some none
  | p :: ps =>
    match (h.at p).name with
    | none => none
    | some n => if name = n then some (some p) else findType_scan h name ps

/-- The function `dynType_findType`: the external scope of the node, then its
nested declarations, then the same at the parent. -/
def dynType_findType : Nat → Heap → Ptr → List Char → Option (Option Ptr)
  | 0, _, _, _ => none
  | fuel + 1, h, type, name =>
    let result : Option (Option Ptr) :=
      match (h.at type).referenceTypes with
      | some refs => findType_scan h name refs
      | none => some none
    match result with
    | none => none
    | some (some r) => some (some r)
    | some none =>
      match findType_scan h name (h.at type).nestedTypesHead with
      | none => none
      | some (some r) => some (some r)
      | some none =>
        match (h.at type).parent with
        | some parent => dynType_findType fuel h parent name
        | none => some none

/-- The function `dynType_parseText`. -/
def dynType_parseText (stream : FILE) (type : Ptr) (h : Heap) : Status × FILE × Heap :=
  (Status.OK, stream,
    h.upd type fun t =>
      { t with type := DynKind.TEXT, descriptor := some 't', ffiType := some ffi_type_pointer })

/-- The function `dynType_parseSimple`. -/
def dynType_parseSimple (c : Option Char) (type : Ptr) (h : Heap) : Status × Heap :=
  match dynType_ffiTypeFor c with
  | some ffiType =>
    (Status.OK,
      h.upd type fun t => { t with type := DynKind.SIMPLE, descriptor := c, ffiType := some ffiType })
  | none => (Status.PARSE_ERROR, h)

/-- The function `dynType_parseRefByValue`. -/
def dynType_parseRefByValue (fuel : Nat) (stream : FILE) (type : Ptr) (h : Heap) :
    Option (Status × FILE × Heap) :=
  let h := h.upd type fun t => { t with type := DynKind.REF, descriptor := some 'l' }
  match dynCommon_parseName stream with
  | (Status.OK, some name, stream) =>
    match dynType_findType fuel h type name with
    | none => none
    | some (some ref) =>
      let h := h.upd type fun t => { t with ref_ref := some ref }
      match fgetc stream with
      | (some ';', stream) => some (Status.OK, stream, h)
      | (_, stream) => some (Status.PARSE_ERROR, stream, h)
    | some none => some (Status.PARSE_ERROR, stream, h)
  | (status, _, stream) => some (status, stream, h)

/-- The function `dynType_parseReference`. -/
def dynType_parseReference (fuel : Nat) (stream : FILE) (type : Ptr) (h : Heap) :
    Option (Status × FILE × Heap) :=
  let h := h.upd type fun t =>
    { t with type := DynKind.TYPED_POINTER, descriptor := some '*',
             ffiType := some ffi_type_pointer, typedPointer_typedType := none }
  match calloc h with
  | (some subType, h) =>
    let h := h.upd type fun t => { t with typedPointer_typedType := some subType }
    let h := h.upd subType fun t =>
      { t with parent := some type, type := DynKind.INVALID, nestedTypesHead := [] }
    dynType_parseRefByValue fuel stream subType h
  | (none, h) => some (Status.MEM_ERROR, stream, h)

/-- The second loop of `dynType_parseComplex`: one name per entry, while the
character last read is a space and entries remain.  `es` are the entries not
yet named and `i` is the position of the first of them in the queue. -/
def parseComplex_names (type : Ptr) :
    List complex_type_entry → Nat → Option Char → FILE → Status → Heap →
      Option Char × FILE × Status × Heap
  | [], _, c, stream, status, h => (c, stream, status, h)
  | _ :: es, i, c, stream, status, h =>
    if c = some ' ' then
      match dynCommon_parseName stream with
      | (Status.OK, name, stream) =>
        let h := h.upd type fun t =>
          { t with complex_entriesHead :=
              t.complex_entriesHead.modify (fun e => { e with name := name }) i }
        let (c, stream) := fgetc stream
        parseComplex_names type es (i + 1) c stream Status.OK h
      | (status, _, stream) => (c, stream, status, h)
    else (c, stream, status, h)

/-- The tail of `dynType_parseComplex` after the two loops: the member array,
the `types` array and the layout, each only while the status is `OK`. -/
def parseComplex_finish (type : Ptr) (status : Status) (h : Heap) : Status × Heap :=
  if status = Status.OK then
    let entries := (h.at type).complex_entriesHead
    let elements := entries.map fun e => (h.at e.type).ffiType
    let h := h.upd type fun t => { t with complex_elements := some elements }
    let h := h.upd type fun t => { t with complex_types := some (entries.map fun e => e.type) }
    let h := h.upd type fun t => { t with ffiType := some (dynType_prepCif elements) }
    (Status.OK, h)
  else (status, h)

mutual

/-- The function `dynType_parseWithStream`; `result` is the content of the out
parameter before the call, the second component of the value its content after
the call. -/
def dynType_parseWithStream : Nat → FILE → Option (List Char) → Option Ptr →
    Option (List Ptr) → Option Ptr → Heap → Option (Status × Option Ptr × FILE × Heap)
  | 0, _, _, _, _, _, _ => none
  | fuel + 1, stream, name, parent, refTypes, result, h =>
    match calloc h with
    | (some type, h) =>
      let h := h.upd type fun t =>
        { t with parent := parent, type := DynKind.INVALID, referenceTypes := refTypes,
                 nestedTypesHead := [] }
      let h := match name with
        | some n => h.upd type fun t => { t with name := some n }
        | none => h
      match dynType_parseAny fuel stream type h with
      | none => none
      | some (status, stream, h) =>
        if status = Status.OK then some (Status.OK, some type, stream, h)
        else some (status, result, stream, h)
    | (none, h) => some (Status.MEM_ERROR, result, stream, h)
termination_by structural fuel => fuel

/-- The function `dynType_parseAny` (the `switch` is a chain of comparisons). -/
def dynType_parseAny : Nat → FILE → Ptr → Heap → Option (Status × FILE × Heap)
  | 0, _, _, _ => none
  | fuel + 1, stream, type, h =>
    let (c, stream) := fgetc stream
    if c = some 'T' then
      match dynType_parseNestedType fuel stream type h with
      | none => none
      | some (status, stream, h) =>
        if status = Status.OK then dynType_parseAny fuel stream type h
        else some (status, stream, h)
    else if c = some 'L' then dynType_parseReference fuel stream type h
    else if c = some 'l' then dynType_parseRefByValue fuel stream type h
    else if c = some '{' then dynType_parseComplex fuel stream type h
    else if c = some '[' then dynType_parseSequence fuel stream type h
    else if c = some '*' then dynType_parseTypedPointer fuel stream type h
    else if c = some 't' then some (dynType_parseText stream type h)
    else
      let (status, h) := dynType_parseSimple c type h
      some (status, stream, h)
termination_by structural fuel => fuel

/-- The first loop of `dynType_parseComplex`: one entry per field body, until
the character read after a body is a space or a closing brace. -/
def parseComplex_entries : Nat → Option Char → FILE → Ptr → Status → Heap →
    Option (Option Char × FILE × Status × Heap)
  | 0, _, _, _, _, _ => none
  | fuel + 1, c, stream, type, status, h =>
    if c ≠ some ' ' ∧ c ≠ some '}' then
      let stream := ungetc c stream
      match calloc h with
      | (some entry, h) =>
        let h := h.upd entry fun t =>
          { t with parent := some type, type := DynKind.INVALID, nestedTypesHead := [] }
        let h := h.upd type fun t =>
          { t with complex_entriesHead := t.complex_entriesHead ++ [⟨entry, none⟩] }
        match dynType_parseAny fuel stream entry h with
        | none => none
        | some (status, stream, h) =>
          let (c, stream) := fgetc stream
          parseComplex_entries fuel c stream type status h
      | (none, h) =>
        let (c, stream) := fgetc stream
        parseComplex_entries fuel c stream type Status.MEM_ERROR h
    else some (c, stream, status, h)
termination_by structural fuel => fuel

/-- The function `dynType_parseComplex`. -/
def dynType_parseComplex : Nat → FILE → Ptr → Heap → Option (Status × FILE × Heap)
  | 0, _, _, _ => none
  | fuel + 1, stream, type, h =>
    let h := h.upd type fun t =>
      { t with type := DynKind.COMPLEX, descriptor := some '{', ffiType := some ⟨0, 0⟩,
               complex_entriesHead := [] }
    let (c, stream) := fgetc stream
    match parseComplex_entries fuel c stream type Status.OK h with
    | none => none
    | some (c, stream, status, h) =>
      let (_, stream, status, h) :=
        parseComplex_names type (h.at type).complex_entriesHead 0 c stream status h
      let (status, h) := parseComplex_finish type status h
      some (status, stream, h)
termination_by structural fuel => fuel

/-- The function `dynType_parseNestedType`. -/
def dynType_parseNestedType : Nat → FILE → Ptr → Heap → Option (Status × FILE × Heap)
  | 0, _, _, _ => none
  | fuel + 1, stream, type, h =>
    match calloc h with
    | (some entry, h) =>
      let h := h.upd entry fun t =>
        { t with parent := some type, type := DynKind.INVALID, nestedTypesHead := [] }
      let h := h.upd type fun t => { t with nestedTypesHead := t.nestedTypesHead ++ [entry] }
      match dynCommon_parseName stream with
      | (Status.OK, name, stream) =>
        let h := h.upd entry fun t => { t with name := name }
        match fgetc stream with
        | (some '=', stream) =>
          match dynType_parseAny fuel stream entry h with
          | none => none
          | some (status, stream, h) =>
            match fgetc stream with
            | (some ';', stream) => some (status, stream, h)
            | (_, stream) => some (Status.PARSE_ERROR, stream, h)
        | (_, stream) => some (Status.PARSE_ERROR, stream, h)
      | (status, name, stream) =>
        let h := h.upd entry fun t => { t with name := name }
        some (status, stream, h)
    | (none, h) => some (Status.MEM_ERROR, stream, h)
termination_by structural fuel => fuel

/-- The function `dynType_parseSequence`. -/
def dynType_parseSequence : Nat → FILE → Ptr → Heap → Option (Status × FILE × Heap)
  | 0, _, _, _ => none
  | fuel + 1, stream, type, h =>
    let h := h.upd type fun t => { t with type := DynKind.SEQUENCE, descriptor := some '[' }
    match dynType_parseWithStream fuel stream none (some type) none
        (h.at type).sequence_itemType h with
    | none => none
    | some (status, itemType, stream, h) =>
      let h := h.upd type fun t => { t with sequence_itemType := itemType }
      if status = Status.OK then
        some (Status.OK, stream,
          h.upd type fun t => { t with ffiType := some (dynType_prepCif seq_types) })
      else some (status, stream, h)
termination_by structural fuel => fuel

/-- The function `dynType_parseTypedPointer`. -/
def dynType_parseTypedPointer : Nat → FILE → Ptr → Heap → Option (Status × FILE × Heap)
  | 0, _, _, _ => none
  | fuel + 1, stream, type, h =>
    let h := h.upd type fun t =>
      { t with type := DynKind.TYPED_POINTER, descriptor := some '*',
               ffiType := some ffi_type_pointer }
    match dynType_parseWithStream fuel stream none (some type) none
        (h.at type).typedPointer_typedType h with
    | none => none
    | some (status, typedType, stream, h) =>
      some (status, stream, h.upd type fun t => { t with typedPointer_typedType := typedType })
termination_by structural fuel => fuel

end

/-- The function `dynType_parseWithStr`: the stream holds the `strlen` bytes of
the descriptor before its first NUL.  `result` is the content of the out
parameter before the call, the second component of the value its content after
the call. -/
def dynType_parseWithStr (fuel : Nat) (descriptor : List Char) (name : Option (List Char))
    (refTypes : Option (List Ptr)) (result : Option Ptr) (h : Heap) :
    Option (Status × Option Ptr × Heap) :=
  let stream : FILE := descriptor.takeWhile fun c => c ≠ Char.ofNat 0
  match dynType_parseWithStream fuel stream name none refTypes result h with
  | none => none
  | some (status, result, stream, h) =>
    if status = Status.OK then
      match fgetc stream with
      | (none, _) => some (Status.OK, result, h)
      | (some c, _) =>
        if c ≠ Char.ofNat 0 then some (Status.PARSE_ERROR, result, h)
        else some (Status.OK, result, h)
    else some (status, result, h)

/-! ## Accessors

An accessor that asserts the kind of its node does not return on a node of
another kind. -/

/-- The loop of `dynType_complex_indexForName`: `i` counts the entries, `index`
is the position of the last entry seen so far whose name is `name`; the two
`int` variables are integers without a bound here.  `strcmp` on a `NULL` entry
name does not return. -/
def indexForName_loop (name : List Char) : List complex_type_entry → Int → Int → Option Int
  | [], _, index => some index
  | e :: es, i, index =>
    match e.name with
    | none => none
    | some n => indexForName_loop name es (i + 1) (if name = n then i else index)

/-- The function `dynType_complex_indexForName`. -/
def dynType_complex_indexForName (h : Heap) (type : Ptr) (name : List Char) : Option Int :=
  if (h.at type).type = DynKind.COMPLEX then
    indexForName_loop name (h.at type).complex_entriesHead 0 (-1)
  else none

/-- The function `dynType_complex_dynTypeAt`: the value stored in `*result`.
Reading `types[index]` outside the array, or through a `NULL` array, does not
return. -/
def dynType_complex_dynTypeAt (h : Heap) (type : Ptr) (index : Nat) : Option (Option Ptr) :=
  if (h.at type).type = DynKind.COMPLEX then
    match (h.at type).complex_types with
    | none => none
    | some types =>
      match types.get? index with
      | none => none
      | some sub =>
        if (h.at sub).type = DynKind.REF then some (h.at sub).ref_ref else some (some sub)
  else none

/-- The loop of `dynType_getOffset` from position `i` on: `elements` are the
members from `i` on, `offset` is the `unsigned short` accumulator.  A member of
alignment zero makes `offset % alignment` a division by zero. -/
def getOffset_loop (index : Nat) : List (Option ffi_type) → Nat → Nat → Option Nat
  | [], _, offset => some offset
  | none :: _, _, offset => some offset
  | some t :: ts, i, offset =>
    if i ≤ index then
      let alignment := t.alignment % 65536
      if alignment = 0 then none
      else
        let alignment_diff := offset % alignment
        let offset := if alignment_diff > 0 then (offset + (alignment - alignment_diff)) % 65536
          else offset
        let offset := if i < index then (offset + t.size) % 65536 else offset
        getOffset_loop index ts (i + 1) offset
    else some offset

/-- The function `dynType_getOffset`; a negative index never enters the loop. -/
def dynType_getOffset (h : Heap) (type : Ptr) (index : Int) : Option Nat :=
  if (h.at type).type = DynKind.COMPLEX then
    match (h.at type).complex_elements with
    | none => none
    | some elements =>
      if index < 0 then some 0 else getOffset_loop index.toNat elements 0 0
  else none

/-- The function `dynType_complex_valLocAt`: the address stored in `*result`,
`inst` being the address of the instance. -/
def dynType_complex_valLocAt (h : Heap) (type : Ptr) (index : Int) (inst : Nat) : Option Nat :=
  if (h.at type).type = DynKind.COMPLEX then
    (dynType_getOffset h type index).map fun offset => inst + offset
  else none

/-- The function `dynType_size`: `type->ffiType->size`. -/
def dynType_size (h : Heap) (type : Ptr) : Option Nat :=
  (h.at type).ffiType.map fun t => t.size

/-- The function `dynType_type`. -/
def dynType_type (h : Heap) (type : Ptr) : DynKind := (h.at type).type

/-- The function `dynType_descriptorType`. -/
def dynType_descriptorType (h : Heap) (type : Ptr) : Option Char := (h.at type).descriptor

/-- The function `dynType_typedPointer_getTypedType`: the value stored in `*out`;
a `NULL` pointee does not return. -/
def dynType_typedPointer_getTypedType (h : Heap) (type : Ptr) : Option (Option Ptr) :=
  if (h.at type).type = DynKind.TYPED_POINTER then
    match (h.at type).typedPointer_typedType with
    | none => none
    | some typedType =>
      if (h.at typedType).type = DynKind.REF then some (h.at typedType).ref_ref
      else some (some typedType)
  else none

/-! ## Values

The memory of the values is a list of blocks of bytes.  An address is a block
and a byte offset into it, `NULL` is `none`, and pointer arithmetic moves the
offset.  A record reached through a pointer is passed by value, with `none`
for a `NULL` pointer, and handed back with the result.  A call that reads or
writes outside a block does not return. -/

/-- An address in the memory of the values. -/
structure Addr where
  block : Nat
  off : Nat
deriving DecidableEq

/-- The memory of the values: its blocks, each a list of bytes. -/
abbrev Mem := List (List Nat)

/-- The record `struct generic_sequence`; `cap` and `len` are `uint32_t`. -/
structure generic_sequence where
  cap : Nat
  len : Nat
  buf : Option Addr
deriving DecidableEq

/-- Pointer arithmetic on a `char *`: the address `n` bytes further in the same
block.  Adding to `NULL`, which C leaves undefined, yields `NULL`. -/
def ptr_add (p : Option Addr) (n : Nat) : Option Addr :=
  p.map fun a => { a with off := a.off + n }

/-- The conversion of an `int` to `uint32_t`, or to `unsigned int`. -/
def toUInt32 (i : Int) : Nat := (i % 4294967296).toNat

/-- The conversion of a `uint32_t` to `int`: the value read as a signed 32-bit
integer in two's complement. -/
def toInt32 (n : Nat) : Int :=
  if n % 4294967296 < 2147483648 then ((n % 4294967296 : Nat) : Int)
  else ((n % 4294967296 : Nat) : Int) - 4294967296

/-- The library function `calloc` on the memory of the values: `ok` tells
whether the allocator has the memory asked for; the block it hands out is fresh
and holds `nmemb * size` zero bytes. -/
def calloc_bytes (m : Mem) (nmemb size : Nat) (ok : Bool) : Option Addr × Mem :=
  if ok then (some ⟨m.length, 0⟩, m ++ [List.replicate (nmemb * size) 0]) else (none, m)

/-- The library function `memcpy`: `n` bytes from `src` to `dst`.  Both ranges
lie inside their blocks and do not overlap. -/
def memcpy (m : Mem) (dst src : Option Addr) (n : Nat) : Option Mem :=
  match dst, src with
  | some d, some s =>
    match m.get? d.block, m.get? s.block with
    | some db, some sb =>
      if d.off + n ≤ db.length ∧ s.off + n ≤ sb.length ∧
          (d.block = s.block → d.off + n ≤ s.off ∨ s.off + n ≤ d.off) then
        some (m.set d.block (db.take d.off ++ ((sb.drop s.off).take n ++ db.drop (d.off + n))))
      else none
    | _, _ => none
  | _, _ => none

/-- The library function `strdup`: the bytes at `s` up to the first NUL are
copied, with the NUL, to a fresh block; `ok` tells whether the allocator has
the memory.  A text without a NUL in its block is read past the block. -/
def strdup (m : Mem) (s : Option Addr) (ok : Bool) : Option (Option Addr × Mem) :=
  match s with
  | none => none
  | some a =>
    match m.get? a.block with
    | none => none
    | some blk =>
      if (blk.drop a.off).all (fun b => b ≠ 0) then none
      else if ok then
        some (some ⟨m.length, 0⟩, m ++ [(blk.drop a.off).takeWhile (fun b => b ≠ 0) ++ [0]])
      else some (none, m)

/-- The function `dynType_sequence_alloc`: `inst` is the header the pointer
`inst` refers to, `out` the content of `*out` before the call; the value holds
the status, the header, the content of `*out` and the memory after the call. -/
def dynType_sequence_alloc (h : Heap) (type : Ptr) (inst : Option generic_sequence) (cap : Int)
    (ok : Bool) (out : Option Addr) (m : Mem) :
    Option (Status × Option generic_sequence × Option Addr × Mem) :=
  if (h.at type).type = DynKind.SEQUENCE then
    match inst with
    | some seq =>
      match (h.at type).sequence_itemType with
      | none => none
      | some itemType =>
        match dynType_size h itemType with
        | none => none
        | some size =>
          match calloc_bytes m (cap % 18446744073709551616).toNat size ok with
          | (some buf, m) =>
            some (Status.OK, some { cap := toUInt32 cap, len := 0, buf := some buf }, some buf, m)
          | (none, m) =>
            some (Status.MEM_ERROR, some { seq with buf := none, cap := 0 }, out, m)
    | none => some (Status.MEM_ERROR, none, out, m)
  else none

/-- The function `dynType_sequence_length`. -/
def dynType_sequence_length (seqLoc : Option generic_sequence) : Option Nat :=
  seqLoc.map fun seq => seq.len

/-- The loop of `dynType_sequence_locForIndex`: `n` rounds are left before the
counter reaches the capacity; `i` is the counter as the comparison with the
capacity reads it, an unsigned value, and `toInt32 i` the counter itself, which
wraps past `INT_MAX`. -/
def locForIndex_loop (index : Int) (itemSize : Nat) : Nat → Nat → Option Addr → Option Addr
  | 0, _, valLoc => valLoc
  | n + 1, i, valLoc =>
    if index = toInt32 i then valLoc
    else locForIndex_loop index itemSize n (i + 1) (ptr_add valLoc itemSize)

/-- The same loop read without wrapping: `i` is the counter itself, an `int`,
and the increment `i += 1` at `INT_MAX`, which C leaves undefined, has no
result. -/
def locForIndex_loop_strict (index : Int) (itemSize : Nat) :
    Nat → Int → Option Addr → Option (Option Addr)
  | 0, _, valLoc => some valLoc
  | n + 1, i, valLoc =>
    if index = i then some valLoc
    else if i = 2147483647 then none
    else locForIndex_loop_strict index itemSize n (i + 1) (ptr_add valLoc itemSize)

/-- The function `dynType_sequence_locForIndex`: the value holds the status,
the content of `*out`, the header and the memory after the call.  The index is
compared with the capacity as an unsigned value. -/
def dynType_sequence_locForIndex (h : Heap) (type : Ptr) (seqLoc : Option generic_sequence)
    (index : Int) (m : Mem) : Option (Status × Option Addr × Option generic_sequence × Mem) :=
  if (h.at type).type = DynKind.SEQUENCE then
    match seqLoc with
    | none => none
    | some seq =>
      match (h.at type).sequence_itemType with
      | none => none
      | some itemType =>
        match (h.at itemType).ffiType with
        | none => none
        | some t =>
          let status := if toUInt32 index ≥ seq.cap then Status.ERROR else Status.OK
          some (status, locForIndex_loop index t.size seq.cap 0 seq.buf, some seq, m)
  else none

/-- The function `dynType_sequence_increaseLengthAndReturnLastLoc`: `valLoc` is
the content of `*valLoc` before the call; the value holds the status, the
content of `*valLoc`, the header and the memory after the call. -/
def dynType_sequence_increaseLengthAndReturnLastLoc (h : Heap) (type : Ptr)
    (seqLoc : Option generic_sequence) (valLoc : Option Addr) (m : Mem) :
    Option (Status × Option Addr × Option generic_sequence × Mem) :=
  if (h.at type).type = DynKind.SEQUENCE then
    match seqLoc with
    | none => none
    | some seq =>
      let lastIndex := toInt32 seq.len
      if seq.len < seq.cap then
        dynType_sequence_locForIndex h type
          (some { seq with len := (seq.len + 1) % 4294967296 }) lastIndex m
      else some (Status.ERROR, valLoc, some seq, m)
  else none

/-- The function `dynType_sequence_itemType`; a `NULL` element type does not
return. -/
def dynType_sequence_itemType (h : Heap) (type : Ptr) : Option (Option Ptr) :=
  if (h.at type).type = DynKind.SEQUENCE then
    match (h.at type).sequence_itemType with
    | none => none
    | some itemType =>
      if (h.at itemType).type = DynKind.REF then some (h.at itemType).ref_ref
      else some (some itemType)
  else none

/-- The function `dynType_complex_setValueAt`: `start` is the address of the
instance, `inp` the address of the bytes to copy; the value is the memory after
the call.  Reading `elements[index]` outside the member array, or its size
through a `NULL` member, does not return. -/
def dynType_complex_setValueAt (h : Heap) (type : Ptr) (index : Int) (start inp : Option Addr)
    (m : Mem) : Option Mem :=
  if (h.at type).type = DynKind.COMPLEX then
    match dynType_getOffset h type index with
    | none => none
    | some offset =>
      match (h.at type).complex_elements with
      | none => none
      | some elements =>
        if index < 0 then none
        else
          match elements.get? index.toNat with
          | some (some t) => memcpy m (ptr_add start offset) inp t.size
          | _ => none
  else none

/-- The function `dynType_text_allocAndInit`, which does not use its `type`
argument: `loc` is the content of the text location before the call; the value
holds the status, the content of the location and the memory after the call. -/
def dynType_text_allocAndInit (loc : Option Addr) (value : Option Addr) (ok : Bool) (m : Mem) :
    Option (Status × Option Addr × Mem) :=
  match strdup m value ok with
  | none => none
  | some (some str, m) => some (Status.OK, some str, m)
  | some (none, m) => some (Status.ERROR, loc, m)

/-! ## The printer

The printer writes text; here its output is the list of the lines it prints,
one constructor per format string.  A run that dereferences `NULL` ends in
`fault`, and a run that needs more fuel than it has ends in `more`. -/

/-- A line of the output of the printer: one constructor per format string of
`dyn_type.c`, with the values printed in it; `depth` is the number of tabs that
`dynType_printDepth` puts before the line.  A name that is `NULL` is `none`. -/
inductive PrintLine where
  | invalidType
  | mainType
  | unsupported (kind : DynKind)
  | complexAnon (depth : Nat) (name : Option (List Char)) (size alignment : Nat)
      (descriptor : Option Char)
  | closeBrace (depth : Nat)
  | complexNamed (depth : Nat) (name : Option (List Char)) (typeName : List Char)
      (size alignment : Nat) (descriptor : Option Char)
  | sequence (depth : Nat) (size alignment : Nat) (descriptor : Option Char)
  | seqCap (depth : Nat) (size alignment : Nat)
  | seqLen (depth : Nat) (size alignment : Nat)
  | seqBuf (depth : Nat) (size alignment : Nat)
  | simple (depth : Nat) (name : Option (List Char)) (size alignment : Nat)
      (descriptor : Option Char)
  | typedPointer (depth : Nat) (name : Option (List Char)) (size alignment : Nat)
  | todoPrintType
  | complexType (name : Option (List Char)) (size alignment : Nat) (descriptor : Option Char)
  | complexTypeEnd
  | simpleType (name : Option (List Char)) (size alignment : Nat) (descriptor : Option Char)
deriving DecidableEq

/-- How a run of the printer with fuel ends: it returns having printed `out`,
it dereferences `NULL`, or it has used up its fuel before returning. -/
inductive PrintRun where
  | printed (out : List PrintLine)
  | fault
  | more
deriving DecidableEq

/-- The function `dynType_printSimple`. -/
def dynType_printSimple (h : Heap) (name : Option (List Char)) (type : Ptr) (depth : Nat)
    (out : List PrintLine) : PrintRun :=
  match (h.at type).ffiType with
  | none => PrintRun.fault
  | some t =>
    PrintRun.printed
      (out ++ [PrintLine.simple depth name t.size t.alignment (h.at type).descriptor])

mutual

/-- The function `dynType_printAny`: a reference is replaced by its target,
once, before the `switch` on the kind. -/
def dynType_printAny : Nat → Heap → Option (List Char) → Option Ptr → Nat → List PrintLine →
    PrintRun
  | 0, _, _, _, _, _ => PrintRun.more
  | fuel + 1, h, name, type, depth, out =>
    match type with
    | none => PrintRun.fault
    | some type =>
      let toPrint : Option Ptr :=
        if (h.at type).type = DynKind.REF then (h.at type).ref_ref else some type
      match toPrint with
      | none => PrintRun.fault
      | some toPrint =>
        if (h.at toPrint).type = DynKind.COMPLEX then
          dynType_printComplex fuel h name toPrint depth out
        else if (h.at toPrint).type = DynKind.SIMPLE then
          dynType_printSimple h name toPrint depth out
        else if (h.at toPrint).type = DynKind.SEQUENCE then
          dynType_printSequence fuel h name toPrint depth out
        else if (h.at toPrint).type = DynKind.TYPED_POINTER then
          dynType_printTypedPointer fuel h name toPrint depth out
        else PrintRun.printed (out ++ [PrintLine.unsupported (h.at toPrint).type])
termination_by structural fuel => fuel

/-- The function `dynType_printComplex`: the fields are printed only of a
Complex that has no name. -/
def dynType_printComplex : Nat → Heap → Option (List Char) → Ptr → Nat → List PrintLine →
    PrintRun
  | 0, _, _, _, _, _ => PrintRun.more
  | fuel + 1, h, name, type, depth, out =>
    match (h.at type).ffiType with
    | none => PrintRun.fault
    | some t =>
      match (h.at type).name with
      | none =>
        let out := out ++
          [PrintLine.complexAnon depth name t.size t.alignment (h.at type).descriptor]
        let run := (h.at type).complex_entriesHead.foldl
          (fun run entry =>
            match run with
            | PrintRun.printed out =>
              dynType_printAny fuel h entry.name (some entry.type) (depth + 1) out
            | run => run)
          (PrintRun.printed out)
        match run with
        | PrintRun.printed out => PrintRun.printed (out ++ [PrintLine.closeBrace depth])
        | run => run
      | some typeName =>
        PrintRun.printed (out ++
          [PrintLine.complexNamed depth name typeName t.size t.alignment (h.at type).descriptor])
termination_by structural fuel => fuel

/-- The function `dynType_printSequence`: the three members of the header, then
the element type. -/
def dynType_printSequence : Nat → Heap → Option (List Char) → Ptr → Nat → List PrintLine →
    PrintRun
  | 0, _, _, _, _, _ => PrintRun.more
  | fuel + 1, h, _, type, depth, out =>
    match (h.at type).ffiType with
    | none => PrintRun.fault
    | some t =>
      let out := out ++ [PrintLine.sequence depth t.size t.alignment (h.at type).descriptor,
        PrintLine.seqCap (depth + 1) ffi_type_uint32.size ffi_type_uint32.alignment,
        PrintLine.seqLen (depth + 1) ffi_type_uint32.size ffi_type_uint32.alignment,
        PrintLine.seqBuf (depth + 1) ffi_type_pointer.size ffi_type_pointer.alignment]
      dynType_printAny fuel h (some "element".toList) (h.at type).sequence_itemType (depth + 1)
        out
termination_by structural fuel => fuel

/-- The function `dynType_printTypedPointer`: the pointee is printed under the
name `*name`, cut to the 127 characters that fit the buffer. -/
def dynType_printTypedPointer : Nat → Heap → Option (List Char) → Ptr → Nat → List PrintLine →
    PrintRun
  | 0, _, _, _, _, _ => PrintRun.more
  | fuel + 1, h, name, type, depth, out =>
    match (h.at type).ffiType with
    | none => PrintRun.fault
    | some t =>
      let out := out ++ [PrintLine.typedPointer depth name t.size t.alignment]
      let subName := name.map fun n => ('*' :: n).take 127
      dynType_printAny fuel h subName (h.at type).typedPointer_typedType (depth + 1) out
termination_by structural fuel => fuel

end

/-- The function `dynType_printComplexType`. -/
def dynType_printComplexType (fuel : Nat) (h : Heap) (type : Ptr) (out : List PrintLine) :
    PrintRun :=
  match (h.at type).ffiType with
  | none => PrintRun.fault
  | some t =>
    let out := out ++
      [PrintLine.complexType (h.at type).name t.size t.alignment (h.at type).descriptor]
    let run := (h.at type).complex_entriesHead.foldl
      (fun run entry =>
        match run with
        | PrintRun.printed out => dynType_printAny fuel h entry.name (some entry.type) 2 out
        | run => run)
      (PrintRun.printed out)
    match run with
    | PrintRun.printed out => PrintRun.printed (out ++ [PrintLine.complexTypeEnd])
    | run => run

/-- The function `dynType_printSimpleType`. -/
def dynType_printSimpleType (h : Heap) (type : Ptr) (out : List PrintLine) : PrintRun :=
  match (h.at type).ffiType with
  | none => PrintRun.fault
  | some t =>
    PrintRun.printed (out ++
      [PrintLine.simpleType (h.at type).name t.size t.alignment (h.at type).descriptor])

/-- The first loop of `dynType_printTypes`: whether `type` is a nested
declaration of the node `parent` or of a node above it; `none` when the fuel is
used up. -/
def printTypes_declared : Nat → Heap → Option Ptr → Ptr → Option Bool
  | 0, _, _, _ => none
  | fuel + 1, h, parent, type =>
    match parent with
    | none => some false
    | some p =>
      if type ∈ (h.at p).nestedTypesHead then some true
      else printTypes_declared fuel h (h.at p).parent type

/-- The function `dynType_printTypes`: nothing for a nested declaration of an
ancestor; otherwise the nested declarations of the node, then the same for its
fields, its element type or its pointee. -/
def dynType_printTypes : Nat → Heap → Option Ptr → List PrintLine → PrintRun
  | 0, _, _, _ => PrintRun.more
  | fuel + 1, h, type, out =>
    match type with
    | none => PrintRun.fault
    | some type =>
      match printTypes_declared fuel h (h.at type).parent type with
      | none => PrintRun.more
      | some true => PrintRun.printed out
      | some false =>
        let run := (h.at type).nestedTypesHead.foldl
          (fun run entry =>
            match run with
            | PrintRun.printed out =>
              let toPrint : Option Ptr :=
                if (h.at entry).type = DynKind.REF then (h.at entry).ref_ref else some entry
              match toPrint with
              | none => PrintRun.fault
              | some toPrint =>
                if (h.at toPrint).type = DynKind.COMPLEX then
                  dynType_printComplexType fuel h toPrint out
                else if (h.at toPrint).type = DynKind.SIMPLE then
                  dynType_printSimpleType h toPrint out
                else PrintRun.printed (out ++ [PrintLine.todoPrintType])
            | run => run)
          (PrintRun.printed out)
        match run with
        | PrintRun.printed out =>
          if (h.at type).type = DynKind.COMPLEX then
            (h.at type).complex_entriesHead.foldl
              (fun run centry =>
                match run with
                | PrintRun.printed out => dynType_printTypes fuel h (some centry.type) out
                | run => run)
              (PrintRun.printed out)
          else if (h.at type).type = DynKind.SEQUENCE then
            dynType_printTypes fuel h (h.at type).sequence_itemType out
          else if (h.at type).type = DynKind.TYPED_POINTER then
            dynType_printTypes fuel h (h.at type).typedPointer_typedType out
          else PrintRun.printed out
        | run => run

/-- The function `dynType_print`. -/
def dynType_print (fuel : Nat) (h : Heap) (type : Option Ptr) (out : List PrintLine) :
    PrintRun :=
  match type with
  | some t =>
    match dynType_printTypes fuel h type out with
    | PrintRun.printed out =>
      dynType_printAny fuel h (some "root".toList) (some t) 0 (out ++ [PrintLine.mainType])
    | run => run
  | none => PrintRun.printed (out ++ [PrintLine.invalidType])

/-! ## The version check of the pubsub admins -/

/-- Modelled from the spec: the version behind a `version_pt`, reduced to the
two numbers that `version_getMajor` and `version_getMinor` store in their `int`
out parameter. -/
structure version where
  major : Int
  minor : Int
deriving DecidableEq

/-- Modelled from the spec: the message header `pubsub_msg_header_t`, reduced to
its two version bytes; each is an `unsigned char`, a number from 0 to 255. -/
structure pubsub_msg_header where
  major : Nat
  minor : Nat
deriving DecidableEq

/-- Modelled from the spec: `version_getMajor` stores the major number of the
version. -/
def version_getMajor (v : version) : Int := v.major

/-- Modelled from the spec: `version_getMinor` stores the minor number of the
version. -/
def version_getMinor (v : version) : Int := v.minor

/-- The conversion `(unsigned char)` of an `int`: its value modulo 256. -/
def toUChar (x : Int) : Nat := (x % 256).toNat

/-- The function `psa_zmq_checkVersion` of `pubsub_zmq_common.c`; a `NULL`
version is `none`. -/
def psa_zmq_checkVersion (msgVersion : Option version) (hdr : pubsub_msg_header) : Bool :=
  let check := false
  match msgVersion with
  | some v =>
    let major := version_getMajor v
    let minor := version_getMinor v
    if hdr.major = toUChar major then decide (hdr.minor ≥ toUChar minor) else check
  | none => check

/-- The static function `checkVersion` of `topic_subscription.c`. -/
def checkVersion (msgVersion : Option version) (hdr : pubsub_msg_header) : Bool :=
  let check := false
  match msgVersion with
  | some v =>
    let major := version_getMajor v
    let minor := version_getMinor v
    if hdr.major = toUChar major then decide (hdr.minor ≥ toUChar minor) else check
  | none => check

/-! ## Notions used by the statements -/

/-- One more unit of fuel keeps every result of the parser. -/
def FuelMono (fuel : Nat) : Prop :=
  (∀ stream name parent refTypes result h r,
    dynType_parseWithStream fuel stream name parent refTypes result h = some r →
      dynType_parseWithStream (fuel + 1) stream name parent refTypes result h = some r) ∧
  (∀ stream type h r, dynType_parseAny fuel stream type h = some r →
      dynType_parseAny (fuel + 1) stream type h = some r) ∧
  (∀ c stream type status h r, parseComplex_entries fuel c stream type status h = some r →
      parseComplex_entries (fuel + 1) c stream type status h = some r) ∧
  (∀ stream type h r, dynType_parseComplex fuel stream type h = some r →
      dynType_parseComplex (fuel + 1) stream type h = some r) ∧
  (∀ stream type h r, dynType_parseNestedType fuel stream type h = some r →
      dynType_parseNestedType (fuel + 1) stream type h = some r) ∧
  (∀ stream type h r, dynType_parseSequence fuel stream type h = some r →
      dynType_parseSequence (fuel + 1) stream type h = some r) ∧
  (∀ stream type h r, dynType_parseTypedPointer fuel stream type h = some r →
      dynType_parseTypedPointer (fuel + 1) stream type h = some r)

/-- What a parse at the node `p` leaves alone: the heap only grows, every other
cell that was there keeps its record, and `p` keeps its name, its parent and
its external scope. -/
def Frame (p : Ptr) (h h' : Heap) : Prop :=
  h.length ≤ h'.length ∧ (∀ q, q < h.length → q ≠ p → h'.at q = h.at q) ∧
  (h'.at p).name = (h.at p).name ∧ (h'.at p).parent = (h.at p).parent ∧
  (h'.at p).referenceTypes = (h.at p).referenceTypes

/-- The heap only grows and every cell that was there keeps its record. -/
def Ext (h h' : Heap) : Prop :=
  h.length ≤ h'.length ∧ ∀ q, q < h.length → h'.at q = h.at q

/-- The parser writes to the node it is given and to fresh cells only. -/
def FrameInv (fuel : Nat) : Prop :=
  (∀ stream name parent refTypes result h r,
    dynType_parseWithStream fuel stream name parent refTypes result h = some r →
      Ext h r.2.2.2) ∧
  (∀ stream type h r, dynType_parseAny fuel stream type h = some r →
      type < h.length → Frame type h r.2.2) ∧
  (∀ c stream type status h r, parseComplex_entries fuel c stream type status h = some r →
      type < h.length → Frame type h r.2.2.2) ∧
  (∀ stream type h r, dynType_parseComplex fuel stream type h = some r →
      type < h.length → Frame type h r.2.2) ∧
  (∀ stream type h r, dynType_parseNestedType fuel stream type h = some r →
      type < h.length → Frame type h r.2.2) ∧
  (∀ stream type h r, dynType_parseSequence fuel stream type h = some r →
      type < h.length → Frame type h r.2.2) ∧
  (∀ stream type h r, dynType_parseTypedPointer fuel stream type h = some r →
      type < h.length → Frame type h r.2.2)

/-- A run with fuel returns `r`: every large enough amount of fuel yields `r`. -/
def Returns {α : Type} (run : Nat → Option α) (r : α) : Prop :=
  ∃ N, ∀ fuel, N ≤ fuel → run fuel = some r

/-- The heap in which `dynType_parseWithStream` hands its fresh node, at the
address `h.length`, to `dynType_parseAny`. -/
def rootHeap (h : Heap) (name : Option (List Char)) (parent : Option Ptr)
    (refTypes : Option (List Ptr)) : Heap :=
  let h1 := (h ++ [dyn_type.zero]).upd h.length fun t =>
    { t with parent := parent, type := DynKind.INVALID, referenceTypes := refTypes,
             nestedTypesHead := [] }
  match name with
  | some n => h1.upd h.length fun t => { t with name := some n }
  | none => h1

/-- The bytes of a descriptor that `strlen` counts: those before the first NUL. -/
def cstr (descriptor : List Char) : FILE :=
  descriptor.takeWhile fun c => c ≠ Char.ofNat 0

/-- The simple letters of the grammar table, each with the layout of its
primitive; `j` has the layout of `J`. -/
def simpleTable : List (Char × ffi_type) :=
  [('F', ffi_type_float), ('D', ffi_type_double), ('B', ffi_type_sint8), ('b', ffi_type_uint8),
   ('S', ffi_type_sint16), ('s', ffi_type_uint16), ('I', ffi_type_sint32),
   ('i', ffi_type_uint32), ('J', ffi_type_sint64), ('j', ffi_type_sint64),
   ('N', ffi_type_sint), ('P', ffi_type_pointer)]

/-- The characters `dynType_parseAny` dispatches on, the simple letters apart. -/
def dispatchChars : List Char := ['T', 'L', 'l', '{', '[', '*', 't']

/-- An identifier of the grammar: `[A-Za-z_][A-Za-z0-9_]*`. -/
def isIdent : List Char → Bool
  | [] => false
  | c :: cs => isNameStart c && cs.all isNameChar

/-- The text holds no NUL byte, as every part of a C string. -/
def NulFree (s : List Char) : Prop := ∀ c ∈ s, c ≠ Char.ofNat 0

instance (s : List Char) : Decidable (NulFree s) :=
  inferInstanceAs (Decidable (∀ c ∈ s, c ≠ Char.ofNat 0))

/-- The type named `n` of an external scope: the first entry named `n`, every
entry before it having another name. -/
def ScopeEntry (h : Heap) (refs : List Ptr) (n : List Char) (t : Ptr) : Prop :=
  ∃ pre post, refs = pre ++ t :: post ∧
    (∀ q ∈ pre, ∃ m, (h.at q).name = some m ∧ m ≠ n) ∧ (h.at t).name = some n

/-- No type of the queue is named `n` (and every one has a name). -/
def NotDeclared (h : Heap) (ps : List Ptr) (n : List Char) : Prop :=
  ∀ q ∈ ps, ∃ m, (h.at q).name = some m ∧ m ≠ n

/-- The first step of `dynType_findType` at a node: the search of its external
scope, which finds nothing when the node has none. -/
def scopeScan (h : Heap) (x : Ptr) (n : List Char) : Option (Option Ptr) :=
  match (h.at x).referenceTypes with
  | some refs => findType_scan h n refs
  | none => some none

/-- The heap in which `dynType_parseRefByValue` resolves its name: the node is
already marked as a reference. -/
def refHeap (h : Heap) (type : Ptr) : Heap :=
  h.upd type fun t => { t with type := DynKind.REF, descriptor := some 'l' }

/-- The heap in which `dynType_parseReference` hands its fresh subtype, at the
address `h.length`, to `dynType_parseRefByValue`. -/
def pointerHeap (h : Heap) (type : Ptr) : Heap :=
  (((h.upd type fun t =>
      { t with type := DynKind.TYPED_POINTER, descriptor := some '*',
               ffiType := some ffi_type_pointer, typedPointer_typedType := none }) ++
    [dyn_type.zero]).upd type fun t => { t with typedPointer_typedType := some h.length }).upd
    h.length fun t =>
      { t with parent := some type, type := DynKind.INVALID, nestedTypesHead := [] }

/-- The heap in which `dynType_parseTypedPointer` parses the pointee: the node
is already marked as a typed pointer. -/
def pointerStart (h : Heap) (type : Ptr) : Heap :=
  h.upd type fun t =>
    { t with type := DynKind.TYPED_POINTER, descriptor := some '*',
             ffiType := some ffi_type_pointer }

/-- The heap after parsing the scope type `node={IP children next}`: the type
named `node` is at address 0, its two fields at 1 and 2. -/
def scopeNodeHeap : Heap :=
  ((dynType_parseWithStr 10 "\x7bIP children next\x7d".toList (some "node".toList) none none
    []).map fun r => r.2.2).getD []

/-- The parent chain from the node `x` up to the root: `ps` lists the parents
in turn and ends with the root; every node below the root has no external
scope, declares no type named `n`, and has the next node as parent. -/
def ChainToRoot (h : Heap) (n : List Char) (root : Ptr) : Ptr → List Ptr → Prop
  | x, [] => x = root
  | x, y :: ys =>
    (h.at x).referenceTypes = none ∧ NotDeclared h (h.at x).nestedTypesHead n ∧
      (h.at x).parent = some y ∧ ChainToRoot h n root y ys

/-- The heap after parsing `Tnode=I;*lnode;` with the scope of
`scopeNodeHeap`: the root, at 3, declares a type `node` of its own, at 4, and
points to the reference at 5. -/
def shadowHeap : Heap :=
  ((dynType_parseWithStr 10 "Tnode=I;*lnode;".toList none (some [0]) none scopeNodeHeap).map
    fun r => r.2.2).getD []

/-- The heap in which `dynType_parseNestedType` parses the body of the
declaration named `n`: the fresh entry, at the address `h.length`, is appended
to the nested declarations of the node and bears its name. -/
def declHeap (h : Heap) (type : Ptr) (n : List Char) : Heap :=
  (((h ++ [dyn_type.zero]).upd h.length fun t =>
      { t with parent := some type, type := DynKind.INVALID, nestedTypesHead := [] }).upd type
    fun t => { t with nestedTypesHead := t.nestedTypesHead ++ [h.length] }).upd h.length
    fun t => { t with name := some n }

/-- The heap after the body `{ssi age weight height}` of the declaration
`person` in `Tperson={ssi age weight height};Lperson;`: the root at 0, the
declaration at 1, its fields at 2, 3 and 4. -/
def personBodyHeap : Heap :=
  ((dynType_parseAny 10 "\x7bssi age weight height\x7d;Lperson;".toList 1
    (declHeap (rootHeap [] none none none) 0 "person".toList)).map fun r => r.2.2).getD []

/-- The heap after parsing `Tperson={ssi age weight height};Lperson;`. -/
def personHeap : Heap :=
  ((dynType_parseWithStr 20 "Tperson=\x7bssi age weight height\x7d;Lperson;".toList none none
    none []).map fun r => r.2.2).getD []

/-- A field of a Complex descriptor: the text of its body, its name, and the
heap the parse of the body leaves. -/
structure Field where
  body : List Char
  name : List Char
  heap : Heap

/-- The field bodies of a Complex descriptor, in textual order. -/
def bodiesText : List Field → List Char
  | [] => []
  | f :: fs => f.body ++ bodiesText fs

/-- The field names of a Complex descriptor, a space before each. -/
def namesText : List Field → List Char
  | [] => []
  | f :: fs => ' ' :: (f.name ++ namesText fs)

/-- The heap in which `dynType_parseComplex` starts to read the fields: the
node is already marked as a Complex without entries. -/
def complexStart (h : Heap) (type : Ptr) : Heap :=
  h.upd type fun t =>
    { t with type := DynKind.COMPLEX, descriptor := some '{', ffiType := some ⟨0, 0⟩,
             complex_entriesHead := [] }

/-- The heap in which `dynType_parseComplex` parses a field body: the fresh
entry, at the address `h.length`, is appended to the entry queue of the node. -/
def entryHeap (h : Heap) (type : Ptr) : Heap :=
  ((h ++ [dyn_type.zero]).upd h.length fun t =>
      { t with parent := some type, type := DynKind.INVALID, nestedTypesHead := [] }).upd type
    fun t => { t with complex_entriesHead := t.complex_entriesHead ++ [⟨h.length, none⟩] }

/-- Every field body parses successfully where `dynType_parseComplex` meets it:
from the heap `h`, the parse of the first body at its fresh entry returns `OK`,
having read exactly that body, and leaves the heap recorded with the field; the
next bodies follow from there.  `tail` is the text after the bodies. -/
def FieldsParse (type : Ptr) (tail : List Char) : List Field → Heap → Prop
  | [], _ => True
  | f :: fs, h =>
    Returns (fun fuel => dynType_parseAny fuel (f.body ++ (bodiesText fs ++ tail)) h.length
        (entryHeap h type)) (Status.OK, bodiesText fs ++ tail, f.heap) ∧
      FieldsParse type tail fs f.heap

/-- The heap after the last field body. -/
def lastHeap : List Field → Heap → Heap
  | [], h => h
  | f :: fs, _ => lastHeap fs f.heap

/-- The addresses of the entries of the fields: each is the first free address
of the heap in which its body is parsed. -/
def entryPtrs : List Field → Heap → List Ptr
  | [], _ => []
  | f :: fs, h => h.length :: entryPtrs fs f.heap

/-- In the heap `h'` every field entry has the record that the parse of its
body built. -/
def FieldsBuilt (h' : Heap) : List Field → Heap → Prop
  | [], _ => True
  | f :: fs, h => h'.at h.length = f.heap.at h.length ∧ FieldsBuilt h' fs f.heap

/-- The entry queue of a Complex with the given fields: entry addresses paired
with the field names, in textual order. -/
def namedEntries : List Ptr → List Field → List complex_type_entry
  | p :: ps, f :: fs => ⟨p, some f.name⟩ :: namedEntries ps fs
  | _, _ => []

/-- The heap after the field body `t` of `{t name}`: the root at 0, the entry
of the field at 1. -/
def textFieldHeap : Heap :=
  ((dynType_parseAny 5 "t name\x7d".toList 1
    (entryHeap (complexStart (rootHeap [] none none none) 0) 0)).map fun r => r.2.2).getD []

/-- The heap after parsing `{t name}`. -/
def textComplexHeap : Heap :=
  ((dynType_parseWithStr 10 "\x7bt name\x7d".toList none none none []).map fun r => r.2.2).getD []

/-! ## Notions used by the statements on fields, offsets and sequences -/

/-- What the loop of `dynType_complex_indexForName` knows of the entries `l` it
has passed: `idx` is `-1` and none of them is named `s`, or `idx` is the
position of one that is. -/
def IndexFound (s : List Char) (l : List complex_type_entry) (idx : Int) : Prop :=
  (idx = -1 ∧ ∀ e ∈ l, e.name ≠ some s) ∨
    ∃ j : Nat, idx = j ∧ (l.get? j).map complex_type_entry.name = some (some s)

/-- The heap in which `dynType_parseSequence` parses the element type: the
node is already marked as a sequence. -/
def sequenceStart (h : Heap) (type : Ptr) : Heap :=
  h.upd type fun t => { t with type := DynKind.SEQUENCE, descriptor := some '[' }

/-- The heap after the element type `{DD x y}` of the sequence `[{DD x y}`. -/
def pointSeqHeap : Heap :=
  ((dynType_parseWithStream 10 "\x7bDD x y\x7d".toList none (some 0) none none
    (sequenceStart (rootHeap [] none none none) 0)).map fun r => r.2.2.2).getD []

/-- The heap after the element type `B` of the sequence `[B`. -/
def byteSeqHeap : Heap :=
  ((dynType_parseWithStream 10 ['B'] none (some 0) none none
    (sequenceStart (rootHeap [] none none none) 0)).map fun r => r.2.2.2).getD []

/-- The smallest multiple of `a` that is at least `x`, for `a > 0`. -/
def alignUp (x a : Nat) : Nat := (x + a - 1) / a * a

/-- Stated from the specification: the C struct packing rule over the layouts
`fs` of the fields.  The offset of field 0 is 0, and the offset of field `i + 1`
is the smallest multiple of its alignment that is at least the offset of field
`i` plus the size of field `i`. -/
def specOffset (fs : List ffi_type) : Nat → Nat
  | 0 => 0
  | i + 1 => alignUp (specOffset fs i + (fs.getD i ⟨0, 0⟩).size) (fs.getD (i + 1) ⟨0, 0⟩).alignment

/-- Stated from the specification: the packing rule run over the layouts `ts`
from the cursor `o`, up to the offset of the member `k` of `ts`. -/
def specOffsetFrom : List ffi_type → Nat → Nat → Nat
  | [], _, o => o
  | t :: _, 0, o => alignUp o t.alignment
  | t :: ts, k + 1, o => specOffsetFrom ts k (alignUp o t.alignment + t.size)

/-- The member array of a Complex with the given fields: the layout of each
field entry, read in the heap that the parse of its body left. -/
def fieldLayouts : List Field → Heap → List (Option ffi_type)
  | [], _ => []
  | f :: fs, h => (f.heap.at h.length).ffiType :: fieldLayouts fs f.heap

/-- The heap after the field body `D`, parsed at the fresh entry of the
Complex `type`. -/
def doubleFieldHeap (h : Heap) (type : Ptr) : Heap :=
  (entryHeap h type).upd h.length fun t =>
    { t with type := DynKind.SIMPLE, descriptor := some 'D', ffiType := some ffi_type_double }

/-- The `n` fields of the Complex `type` in a descriptor `{D…D a … a}`: each
has the body `D` and the name `a`. -/
def doubleFields (type : Ptr) : Nat → Heap → List Field
  | 0, _ => []
  | n + 1, h =>
    ⟨['D'], ['a'], doubleFieldHeap h type⟩ :: doubleFields type n (doubleFieldHeap h type)

/-- The descriptor `{D…D a … a}` of a Complex with `n` fields of type double,
each named `a`. -/
def wideDescriptor (n : Nat) : List Char :=
  '{' :: (List.replicate n 'D' ++ ((List.replicate n [' ', 'a']).flatten ++ ['}']))

/-- The heap after parsing `{BDI a b c}`: the root at 0, its fields at 1, 2
and 3. -/
def mixedHeap : Heap :=
  ((dynType_parseWithStr 10 "\x7bBDI a b c\x7d".toList none none none []).map
    fun r => r.2.2).getD []

/-- The heap after parsing `[{DD x y}`: the sequence at 0, its element type, a
Complex of size 16, at 1. -/
def pointsHeap : Heap :=
  ((dynType_parseWithStr 10 "[\x7bDD x y\x7d".toList none none none []).map fun r => r.2.2).getD []

/-- A run of `k` consecutive calls of
`dynType_sequence_increaseLengthAndReturnLastLoc` on a sequence header: the
statuses of the calls, in their order, and the header after the last. -/
def push_run (h : Heap) (type : Ptr) (m : Mem) : Nat → generic_sequence →
    Option (List Status × generic_sequence)
  | 0, seq => some ([], seq)
  | k + 1, seq =>
    match dynType_sequence_increaseLengthAndReturnLastLoc h type (some seq) none m with
    | some (status, _, some seq1, _) =>
      (push_run h type m k seq1).map fun r => (status :: r.1, r.2)
    | _ => none

/-- The text at an address, read as a C string: the bytes up to the first NUL
of its block. -/
def cstring_at (m : Mem) (p : Option Addr) : Option (List Nat) :=
  match p with
  | none => none
  | some a =>
    match m.get? a.block with
    | none => none
    | some blk =>
      if (blk.drop a.off).all (fun b => b ≠ 0) then none
      else some ((blk.drop a.off).takeWhile fun b => b ≠ 0)

/-! ## Notions used by the statements on the printer, name resolution and descriptors -/

/-- What the loop of `dynType_complex_indexForName` knows of the entries `l` it
has passed: `idx` is `-1` and none of them is named `s`, or `idx` is the
position of the last of them that is named `s`. -/
def IndexLast (s : List Char) (l : List complex_type_entry) (idx : Int) : Prop :=
  (idx = -1 ∧ ∀ e ∈ l, e.name ≠ some s) ∨
    ∃ j : Nat, idx = j ∧ (l.get? j).map complex_type_entry.name = some (some s) ∧
      ∀ k, j < k → (l.get? k).map complex_type_entry.name ≠ some (some s)

/-- The heap after parsing `{III a b a}`: the root at 0, its fields at 1, 2
and 3; the first and the last field are both named `a`. -/
def repeatHeap : Heap :=
  ((dynType_parseWithStr 10 "\x7bIII a b a\x7d".toList none none none []).map
    fun r => r.2.2).getD []

/-- The heap after parsing `Tnode=[lnode;;lnode;`: the root, at 0, is a
reference to the declaration `node`, at 1, a sequence whose element type, at 2,
is a reference to `node` again. -/
def seqCycleHeap : Heap :=
  ((dynType_parseWithStr 10 "Tnode=[lnode;;lnode;".toList none none none []).map
    fun r => r.2.2).getD []

/-- The heap after parsing `Tn=*ln;;ln;`: the root, at 0, is a reference to the
declaration `n`, at 1, a typed pointer whose pointee, at 2, is a reference to
`n` again. -/
def ptrCycleHeap : Heap :=
  ((dynType_parseWithStr 10 "Tn=*ln;;ln;".toList none none none []).map fun r => r.2.2).getD []

/-- The heap after parsing `Tnode={ILnode; value next};Lnode;`: the root, at 0,
is a typed pointer to a reference, at 5, to the declaration `node`, at 1, a
Complex with the fields `value`, at 2, and `next`, at 3, a typed pointer to a
reference, at 4, to `node` again. -/
def listNodeHeap : Heap :=
  ((dynType_parseWithStr 20 "Tnode=\x7bILnode; value next\x7d;Lnode;".toList none none none
    []).map fun r => r.2.2).getD []

/-- Stated from the specification: the first declaration named `n`, in
declaration order, among the nested declarations `ps` of a node. -/
def firstNamed (h : Heap) (n : List Char) (ps : List Ptr) : Option Ptr :=
  ps.find? fun p => decide ((h.at p).name = some n)

/-- Stated from the specification: name resolution without an external scope
along a chain of nodes, each the parent of the one before: the first
declaration named `n` of the nearest node of the chain that declares `n`, and
nothing when no node of the chain declares `n`. -/
def nearestDeclaration (h : Heap) (n : List Char) : List Ptr → Option Ptr
  | [] => none
  | x :: xs =>
    match firstNamed h n (h.at x).nestedTypesHead with
    | some t => some t
    | none => nearestDeclaration h n xs

/-- A node without external scope entries: its scope is absent or empty, and
each of its nested declarations has a name. -/
def PlainNode (h : Heap) (x : Ptr) : Prop :=
  ((h.at x).referenceTypes = none ∨ (h.at x).referenceTypes = some []) ∧
    ∀ p ∈ (h.at x).nestedTypesHead, (h.at p).name ≠ none

/-- The parent chain from the node `x` up to the root: `ps` lists the parents in
turn, the last of them (or `x`, when there is none) has no parent, and every
node of the chain is without external scope entries. -/
def PlainChain (h : Heap) : Ptr → List Ptr → Prop
  | x, [] => PlainNode h x ∧ (h.at x).parent = none
  | x, y :: ys => PlainNode h x ∧ (h.at x).parent = some y ∧ PlainChain h y ys

/-- The heap after parsing `{Tfoo=I;lfoo;lfoo; a b}`: the root at 0; its first
field, at 1, declares `foo`, at 2, and refers to it; its second field, at 3,
refers to `foo` too. -/
def siblingHeap : Heap :=
  ((dynType_parseWithStr 10 "\x7bTfoo=I;lfoo;lfoo; a b\x7d".toList none none none []).map
    fun r => r.2.2).getD []

/-- The heap after parsing `Tn=I;Tn=D;{Tn=B;ln;ln; a b}`: the root, at 0,
declares `n` twice, at 1 and at 2; its first field, at 3, declares `n` again, at
4, and refers to `n`; its second field, at 5, refers to `n` too. -/
def redeclareHeap : Heap :=
  ((dynType_parseWithStr 20 "Tn=I;Tn=D;\x7bTn=B;ln;ln; a b\x7d".toList none none none []).map
    fun r => r.2.2).getD []

/-- What a call of `dynType_parseAny` adds to the dispatches for its own node:
the node and the character its `switch` dispatched on, when the call returns
`OK`; `r` is what the call returns. -/
def dispatch_own (type : Ptr) (c : Char) (r : Option (Status × FILE × Heap)) :
    List (Ptr × Char) :=
  match r with
  | some (Status.OK, _, _) => [(type, c)]
  | _ => []

mutual

/-- The dispatches of the parser during a call of `dynType_parseWithStream`:
for every call of `dynType_parseAny` made on the way that returned `OK`, the
node it parsed and the character its `switch` dispatched on (`T`, which opens a
nested declaration and is followed by the character of the node, is none).
Each of these functions follows its parser function call by call. -/
def dispatches_parseWithStream : Nat → FILE → Option (List Char) → Option Ptr →
    Option (List Ptr) → Heap → List (Ptr × Char)
  | 0, _, _, _, _, _ => []
  | fuel + 1, stream, name, parent, refTypes, h =>
    match calloc h with
    | (some type, h) =>
      let h := h.upd type fun t =>
        { t with parent := parent, type := DynKind.INVALID, referenceTypes := refTypes,
                 nestedTypesHead := [] }
      let h := match name with
        | some n => h.upd type fun t => { t with name := some n }
        | none => h
      dispatches_parseAny fuel stream type h
    | (none, _) => []
termination_by structural fuel => fuel

/-- The dispatches during a call of `dynType_parseAny`: those of the nested
declaration and of the parse that follows it, or those of the fields, the
element type or the pointee, and then the dispatch at the node itself. -/
def dispatches_parseAny : Nat → FILE → Ptr → Heap → List (Ptr × Char)
  | 0, _, _, _ => []
  | fuel + 1, stream, type, h =>
    match fgetc stream with
    | (none, _) => []
    | (some c, rest) =>
      if c = 'T' then
        dispatches_parseNestedType fuel rest type h ++
          match dynType_parseNestedType fuel rest type h with
          | some (Status.OK, rest, h) => dispatches_parseAny fuel rest type h
          | _ => []
      else
        (if c = '{' then dispatches_parseComplex fuel rest type h
          else if c = '[' then dispatches_parseSequence fuel rest type h
          else if c = '*' then dispatches_parseTypedPointer fuel rest type h
          else []) ++
        dispatch_own type c (dynType_parseAny (fuel + 1) stream type h)
termination_by structural fuel => fuel

/-- The dispatches during the first loop of `dynType_parseComplex`. -/
def dispatches_entries : Nat → Option Char → FILE → Ptr → Heap → List (Ptr × Char)
  | 0, _, _, _, _ => []
  | fuel + 1, c, stream, type, h =>
    if c ≠ some ' ' ∧ c ≠ some '}' then
      let stream := ungetc c stream
      match calloc h with
      | (some entry, h) =>
        let h := h.upd entry fun t =>
          { t with parent := some type, type := DynKind.INVALID, nestedTypesHead := [] }
        let h := h.upd type fun t =>
          { t with complex_entriesHead := t.complex_entriesHead ++ [⟨entry, none⟩] }
        dispatches_parseAny fuel stream entry h ++
          match dynType_parseAny fuel stream entry h with
          | none => []
          | some (_, stream, h) =>
            let (c, stream) := fgetc stream
            dispatches_entries fuel c stream type h
      | (none, h) =>
        let (c, stream) := fgetc stream
        dispatches_entries fuel c stream type h
    else []
termination_by structural fuel => fuel

/-- The dispatches during a call of `dynType_parseComplex`. -/
def dispatches_parseComplex : Nat → FILE → Ptr → Heap → List (Ptr × Char)
  | 0, _, _, _ => []
  | fuel + 1, stream, type, h =>
    let h := h.upd type fun t =>
      { t with type := DynKind.COMPLEX, descriptor := some '{', ffiType := some ⟨0, 0⟩,
               complex_entriesHead := [] }
    let (c, stream) := fgetc stream
    dispatches_entries fuel c stream type h
termination_by structural fuel => fuel

/-- The dispatches during a call of `dynType_parseNestedType`. -/
def dispatches_parseNestedType : Nat → FILE → Ptr → Heap → List (Ptr × Char)
  | 0, _, _, _ => []
  | fuel + 1, stream, type, h =>
    match calloc h with
    | (some entry, h) =>
      let h := h.upd entry fun t =>
        { t with parent := some type, type := DynKind.INVALID, nestedTypesHead := [] }
      let h := h.upd type fun t => { t with nestedTypesHead := t.nestedTypesHead ++ [entry] }
      match dynCommon_parseName stream with
      | (Status.OK, name, stream) =>
        let h := h.upd entry fun t => { t with name := name }
        match fgetc stream with
        | (some '=', stream) => dispatches_parseAny fuel stream entry h
        | _ => []
      | _ => []
    | (none, _) => []
termination_by structural fuel => fuel

/-- The dispatches during a call of `dynType_parseSequence`. -/
def dispatches_parseSequence : Nat → FILE → Ptr → Heap → List (Ptr × Char)
  | 0, _, _, _ => []
  | fuel + 1, stream, type, h =>
    let h := h.upd type fun t => { t with type := DynKind.SEQUENCE, descriptor := some '[' }
    dispatches_parseWithStream fuel stream none (some type) none h
termination_by structural fuel => fuel

/-- The dispatches during a call of `dynType_parseTypedPointer`. -/
def dispatches_parseTypedPointer : Nat → FILE → Ptr → Heap → List (Ptr × Char)
  | 0, _, _, _ => []
  | fuel + 1, stream, type, h =>
    let h := h.upd type fun t =>
      { t with type := DynKind.TYPED_POINTER, descriptor := some '*',
               ffiType := some ffi_type_pointer }
    dispatches_parseWithStream fuel stream none (some type) none h
termination_by structural fuel => fuel

end

/-- The dispatches during a call of `dynType_parseWithStr`. -/
def dispatches_parseWithStr (fuel : Nat) (descriptor : List Char) (name : Option (List Char))
    (refTypes : Option (List Ptr)) (h : Heap) : List (Ptr × Char) :=
  dispatches_parseWithStream fuel (descriptor.takeWhile fun c => c ≠ Char.ofNat 0) name none
    refTypes h

/-- What holds of a dispatch `d` of a call that went from the heap `h` to the
heap `h'`: the node is one of `h'`, and its descriptor character is the
character dispatched on, or `*` when that character is `L`. -/
def Dispatched (h' : Heap) (d : Ptr × Char) : Prop :=
  d.1 < h'.length ∧ (h'.at d.1).descriptor = some (if d.2 = 'L' then '*' else d.2)

/-- With `fuel`, every dispatch of a parser call that returns is at a node that
the call has created (or, for `dynType_parseAny`, at the node of the call), and
in the heap the call leaves the descriptor character of that node is the
character dispatched on, `*` for `L`. -/
def DispatchInv (fuel : Nat) : Prop :=
  (∀ stream name parent refTypes result h r,
    dynType_parseWithStream fuel stream name parent refTypes result h = some r →
      ∀ d ∈ dispatches_parseWithStream fuel stream name parent refTypes h,
        h.length ≤ d.1 ∧ Dispatched r.2.2.2 d) ∧
  (∀ stream type h r, dynType_parseAny fuel stream type h = some r → type < h.length →
      ∀ d ∈ dispatches_parseAny fuel stream type h,
        (d.1 = type ∨ h.length ≤ d.1) ∧ Dispatched r.2.2 d) ∧
  (∀ c stream type status h r, parseComplex_entries fuel c stream type status h = some r →
      type < h.length →
      ∀ d ∈ dispatches_entries fuel c stream type h, h.length ≤ d.1 ∧ Dispatched r.2.2.2 d) ∧
  (∀ stream type h r, dynType_parseComplex fuel stream type h = some r → type < h.length →
      ∀ d ∈ dispatches_parseComplex fuel stream type h, h.length ≤ d.1 ∧ Dispatched r.2.2 d) ∧
  (∀ stream type h r, dynType_parseNestedType fuel stream type h = some r → type < h.length →
      ∀ d ∈ dispatches_parseNestedType fuel stream type h,
        h.length ≤ d.1 ∧ Dispatched r.2.2 d) ∧
  (∀ stream type h r, dynType_parseSequence fuel stream type h = some r → type < h.length →
      ∀ d ∈ dispatches_parseSequence fuel stream type h, h.length ≤ d.1 ∧ Dispatched r.2.2 d) ∧
  (∀ stream type h r, dynType_parseTypedPointer fuel stream type h = some r → type < h.length →
      ∀ d ∈ dispatches_parseTypedPointer fuel stream type h,
        h.length ≤ d.1 ∧ Dispatched r.2.2 d)

/-! ## Fuel and frame lemmas -/

theorem Heap.length_upd (h : Heap) (p : Ptr) (f : dyn_type → dyn_type) :
    (h.upd p f).length = h.length := by
  simp [Heap.upd]

theorem Heap.at_upd_same (h : Heap) (p : Ptr) (f : dyn_type → dyn_type) (hp : p < h.length) :
    (h.upd p f).at p = f (h.at p) := by
  simp [Heap.upd, Heap.at, List.getD_eq_getElem?_getD, List.getElem?_set, hp]

theorem Heap.at_upd_ne (h : Heap) (p q : Ptr) (f : dyn_type → dyn_type) (hq : q ≠ p) :
    (h.upd p f).at q = h.at q := by
  simp [Heap.upd, Heap.at, List.getD_eq_getElem?_getD, List.getElem?_set, Ne.symm hq]

theorem Heap.at_append_lt (h : Heap) (x : dyn_type) (q : Ptr) (hq : q < h.length) :
    Heap.at (h ++ [x]) q = h.at q := by
  simp [Heap.at, List.getD_eq_getElem?_getD, List.getElem?_append_left hq]

theorem Heap.at_append_length (h : Heap) (x : dyn_type) :
    Heap.at (h ++ [x]) h.length = x := by
  simp [Heap.at, List.getD_eq_getElem?_getD]

theorem dynType_findType_succ (fuel : Nat) : ∀ (h : Heap) (type : Ptr) (name : List Char)
    (r : Option Ptr), dynType_findType fuel h type name = some r →
      dynType_findType (fuel + 1) h type name = some r := by
  induction fuel with
  | zero => intro h type name r hr; simp [dynType_findType] at hr
  | succ n ih =>
    intro h type name r hr
    rw [dynType_findType] at hr ⊢
    revert hr
    generalize (match (h.at type).referenceTypes with
      | some refs => findType_scan h name refs
      | none => some none) = res
    intro hr
    split at hr
    · exact hr
    · exact hr
    · split at hr
      · exact hr
      · exact hr
      · split at hr
        · exact ih _ _ _ _ hr
        · exact hr

theorem dynType_parseRefByValue_succ (fuel : Nat) (stream : FILE) (type : Ptr) (h : Heap)
    (r : Status × FILE × Heap) (hr : dynType_parseRefByValue fuel stream type h = some r) :
    dynType_parseRefByValue (fuel + 1) stream type h = some r := by
  unfold dynType_parseRefByValue at hr ⊢
  simp only at hr ⊢
  split at hr
  · rename_i name stream2 heq
    split at hr
    · exact absurd hr (by simp)
    · rename_i ref hf
      rw [dynType_findType_succ _ _ _ _ _ hf]
      exact hr
    · rename_i hf
      rw [dynType_findType_succ _ _ _ _ _ hf]
      exact hr
  · exact hr

theorem dynType_parseReference_succ (fuel : Nat) (stream : FILE) (type : Ptr) (h : Heap)
    (r : Status × FILE × Heap) (hr : dynType_parseReference fuel stream type h = some r) :
    dynType_parseReference (fuel + 1) stream type h = some r := by
  unfold dynType_parseReference at hr ⊢
  simp only [calloc] at hr ⊢
  exact dynType_parseRefByValue_succ _ _ _ _ _ hr

theorem fuelMono_zero : FuelMono 0 := by
  refine ⟨?_, ?_, ?_, ?_, ?_, ?_, ?_⟩ <;> intros <;> rename_i hr <;>
    simp [dynType_parseWithStream, dynType_parseAny, parseComplex_entries, dynType_parseComplex,
      dynType_parseNestedType, dynType_parseSequence, dynType_parseTypedPointer] at hr

theorem fuelMono_succ (n : Nat) (ih : FuelMono n) : FuelMono (n + 1) := by
  obtain ⟨ihS, ihA, ihE, ihC, ihN, ihQ, ihP⟩ := ih
  refine ⟨?_, ?_, ?_, ?_, ?_, ?_, ?_⟩
  · intro stream name parent refTypes result h r hr
    rw [dynType_parseWithStream] at hr ⊢
    simp only [calloc] at hr ⊢
    split at hr
    · exact absurd hr (by simp)
    · rename_i heq
      rw [ihA _ _ _ _ heq]
      exact hr
  · intro stream type h r hr
    rw [dynType_parseAny] at hr ⊢
    generalize fgetc stream = p at hr ⊢
    obtain ⟨c, s1⟩ := p
    dsimp only at hr ⊢
    split_ifs at hr ⊢
    · split at hr
      · exact absurd hr (by simp)
      · rename_i heq
        rw [ihN _ _ _ _ heq]
        dsimp only
        split at hr
        · rename_i hst
          rw [if_pos hst]
          exact ihA _ _ _ _ hr
        · rename_i hst
          rw [if_neg hst]
          exact hr
    · exact dynType_parseReference_succ _ _ _ _ _ hr
    · exact dynType_parseRefByValue_succ _ _ _ _ _ hr
    · exact ihC _ _ _ _ hr
    · exact ihQ _ _ _ _ hr
    · exact ihP _ _ _ _ hr
    · exact hr
    · exact hr
  · intro c stream type status h r hr
    rw [parseComplex_entries] at hr ⊢
    split at hr
    · rename_i hc
      rw [if_pos hc]
      simp only [calloc] at hr ⊢
      split at hr
      · exact absurd hr (by simp)
      · rename_i heq
        rw [ihA _ _ _ _ heq]
        exact ihE _ _ _ _ _ _ hr
    · rename_i hc
      rw [if_neg hc]
      exact hr
  · intro stream type h r hr
    rw [dynType_parseComplex] at hr ⊢
    simp only at hr ⊢
    split at hr
    · exact absurd hr (by simp)
    · rename_i heq
      rw [ihE _ _ _ _ _ _ heq]
      exact hr
  · intro stream type h r hr
    rw [dynType_parseNestedType] at hr ⊢
    simp only [calloc] at hr ⊢
    split at hr
    · split at hr
      · split at hr
        · exact absurd hr (by simp)
        · rename_i heq
          rw [ihA _ _ _ _ heq]
          exact hr
      · exact hr
    · exact hr
  · intro stream type h r hr
    rw [dynType_parseSequence] at hr ⊢
    simp only at hr ⊢
    split at hr
    · exact absurd hr (by simp)
    · rename_i heq
      rw [ihS _ _ _ _ _ _ _ heq]
      exact hr
  · intro stream type h r hr
    rw [dynType_parseTypedPointer] at hr ⊢
    split at hr
    · exact absurd hr (by simp)
    · rename_i heq
      rw [ihS _ _ _ _ _ _ _ heq]
      exact hr

theorem fuelMono (fuel : Nat) : FuelMono fuel := by
  induction fuel with
  | zero => exact fuelMono_zero
  | succ n ih => exact fuelMono_succ n ih

theorem Frame.frame_refl (p : Ptr) (h : Heap) : Frame p h h :=
  ⟨Nat.le_refl _, fun _ _ _ => rfl, rfl, rfl, rfl⟩

theorem Frame.frame_trans {p : Ptr} {h h1 h2 : Heap} (a : Frame p h h1) (b : Frame p h1 h2) :
    Frame p h h2 := by
  obtain ⟨a1, a2, a3, a4, a5⟩ := a
  obtain ⟨b1, b2, b3, b4, b5⟩ := b
  refine ⟨Nat.le_trans a1 b1, ?_, b3.trans a3, b4.trans a4, b5.trans a5⟩
  intro q hq hne
  rw [b2 q (Nat.lt_of_lt_of_le hq a1) hne, a2 q hq hne]

theorem Ext.ext_refl (h : Heap) : Ext h h := ⟨Nat.le_refl _, fun _ _ => rfl⟩

theorem Ext.ext_trans {h h1 h2 : Heap} (a : Ext h h1) (b : Ext h1 h2) : Ext h h2 := by
  refine ⟨Nat.le_trans a.1 b.1, ?_⟩
  intro q hq
  rw [b.2 q (Nat.lt_of_lt_of_le hq a.1), a.2 q hq]

theorem Ext.ext_frame {h h' : Heap} (a : Ext h h') (p : Ptr) (hp : p < h.length) : Frame p h h' := by
  refine ⟨a.1, fun q hq _ => a.2 q hq, ?_, ?_, ?_⟩ <;> rw [a.2 p hp]

theorem Ext.ext_calloc (h : Heap) : Ext h (h ++ [dyn_type.zero]) := by
  refine ⟨by simp, ?_⟩
  intro q hq
  exact Heap.at_append_lt h _ q hq

/-- A write to the node itself that keeps name, parent and external scope. -/
theorem Frame.frame_upd (p : Ptr) (h : Heap) (f : dyn_type → dyn_type)
    (h1 : ∀ t, (f t).name = t.name) (h2 : ∀ t, (f t).parent = t.parent)
    (h3 : ∀ t, (f t).referenceTypes = t.referenceTypes) : Frame p h (h.upd p f) := by
  refine ⟨by simp [Heap.length_upd], fun q _ hne => Heap.at_upd_ne h p q f hne, ?_, ?_, ?_⟩
  all_goals
    by_cases hp : p < h.length
    · rw [Heap.at_upd_same h p f hp]
      first | exact h1 _ | exact h2 _ | exact h3 _
    · have : h.upd p f = h := by
        simp only [Heap.upd]
        exact List.set_eq_of_length_le (Nat.le_of_not_lt hp)
      rw [this]

/-- A write to a fresh cell. -/
theorem Ext.ext_upd_fresh {h h' : Heap} (a : Ext h h') (q : Ptr) (hq : h.length ≤ q)
    (f : dyn_type → dyn_type) : Ext h (h'.upd q f) := by
  refine ⟨by simpa [Heap.length_upd] using a.1, ?_⟩
  intro x hx
  rw [Heap.at_upd_ne h' q x f (Nat.ne_of_lt (Nat.lt_of_lt_of_le hx hq)), a.2 x hx]

/-- A parse at a fresh cell, seen from the old heap. -/
theorem Ext.ext_frame_fresh {h h1 h2 : Heap} (a : Ext h h1) (q : Ptr) (hq : h.length ≤ q)
    (b : Frame q h1 h2) : Ext h h2 := by
  refine ⟨Nat.le_trans a.1 b.1, ?_⟩
  intro x hx
  rw [b.2.1 x (Nat.lt_of_lt_of_le hx a.1) (Nat.ne_of_lt (Nat.lt_of_lt_of_le hx hq)), a.2 x hx]

/-- A parse at a fresh cell, seen from an old node. -/
theorem Frame.frame_fresh {p : Ptr} {h h1 h2 : Heap} (a : Frame p h h1) (hp : p < h.length)
    (q : Ptr) (hq : h.length ≤ q) (b : Frame q h1 h2) : Frame p h h2 := by
  obtain ⟨a1, a2, a3, a4, a5⟩ := a
  obtain ⟨b1, b2, -, -, -⟩ := b
  have hpq : p ≠ q := Nat.ne_of_lt (Nat.lt_of_lt_of_le hp hq)
  have hp1 : p < h1.length := Nat.lt_of_lt_of_le hp a1
  refine ⟨Nat.le_trans a1 b1, ?_, ?_, ?_, ?_⟩
  · intro x hx hne
    rw [b2 x (Nat.lt_of_lt_of_le hx a1) (Nat.ne_of_lt (Nat.lt_of_lt_of_le hx hq)), a2 x hx hne]
  · rw [b2 p hp1 hpq, a3]
  · rw [b2 p hp1 hpq, a4]
  · rw [b2 p hp1 hpq, a5]

theorem Frame.frame_ext {p : Ptr} {h h1 h2 : Heap} (a : Frame p h h1) (hp : p < h.length)
    (b : Ext h1 h2) : Frame p h h2 :=
  a.frame_trans (b.ext_frame p (Nat.lt_of_lt_of_le hp a.1))

theorem Frame.frame_upd_fresh {p : Ptr} {h h1 : Heap} (a : Frame p h h1) (hp : p < h.length)
    (q : Ptr) (hq : h.length ≤ q) (f : dyn_type → dyn_type) : Frame p h (h1.upd q f) := by
  obtain ⟨a1, a2, a3, a4, a5⟩ := a
  have hpq : p ≠ q := Nat.ne_of_lt (Nat.lt_of_lt_of_le hp hq)
  refine ⟨by simpa [Heap.length_upd] using a1, ?_, ?_, ?_, ?_⟩
  · intro x hx hne
    rw [Heap.at_upd_ne h1 q x f (Nat.ne_of_lt (Nat.lt_of_lt_of_le hx hq)), a2 x hx hne]
  · rw [Heap.at_upd_ne h1 q p f hpq, a3]
  · rw [Heap.at_upd_ne h1 q p f hpq, a4]
  · rw [Heap.at_upd_ne h1 q p f hpq, a5]

theorem Frame.frame_upd_self {p : Ptr} {h h1 : Heap} (a : Frame p h h1) (f : dyn_type → dyn_type)
    (h1n : ∀ t, (f t).name = t.name) (h2 : ∀ t, (f t).parent = t.parent)
    (h3 : ∀ t, (f t).referenceTypes = t.referenceTypes) : Frame p h (h1.upd p f) :=
  a.frame_trans (Frame.frame_upd p h1 f h1n h2 h3)

theorem Frame.frame_calloc {p : Ptr} {h h1 : Heap} (a : Frame p h h1) (hp : p < h.length) :
    Frame p h (h1 ++ [dyn_type.zero]) :=
  a.frame_ext hp (Ext.ext_calloc h1)

theorem dynType_parseText_frame (stream : FILE) (type : Ptr) (h : Heap) :
    Frame type h (dynType_parseText stream type h).2.2 := by
  unfold dynType_parseText
  dsimp only
  refine Frame.frame_upd _ _ _ ?_ ?_ ?_ <;> intro _ <;> rfl

theorem dynType_parseSimple_frame (c : Option Char) (type : Ptr) (h : Heap) :
    Frame type h (dynType_parseSimple c type h).2 := by
  unfold dynType_parseSimple
  split
  · dsimp only
    refine Frame.frame_upd _ _ _ ?_ ?_ ?_ <;> intro _ <;> rfl
  · exact Frame.frame_refl _ _

theorem dynType_parseRefByValue_frame (fuel : Nat) (stream : FILE) (type : Ptr) (h : Heap)
    (r : Status × FILE × Heap) (hr : dynType_parseRefByValue fuel stream type h = some r) :
    Frame type h r.2.2 := by
  unfold dynType_parseRefByValue at hr
  simp only at hr
  have f1 : Frame type h (h.upd type fun t => { t with type := DynKind.REF, descriptor := some 'l' }) :=
    Frame.frame_upd _ _ _ (fun _ => rfl) (fun _ => rfl) (fun _ => rfl)
  split at hr
  · split at hr
    · exact absurd hr (by simp)
    · have f2 := f1.frame_upd_self (fun t => { t with ref_ref := some ‹Ptr› })
        (fun _ => rfl) (fun _ => rfl) (fun _ => rfl)
      split at hr <;> cases hr <;> exact f2
    · cases hr; exact f1
  · cases hr; exact f1

theorem dynType_parseReference_frame (fuel : Nat) (stream : FILE) (type : Ptr) (h : Heap)
    (hp : type < h.length)
    (r : Status × FILE × Heap) (hr : dynType_parseReference fuel stream type h = some r) :
    Frame type h r.2.2 := by
  unfold dynType_parseReference at hr
  simp only [calloc] at hr
  have f1 : Frame type h (h.upd type fun t =>
      { t with type := DynKind.TYPED_POINTER, descriptor := some '*',
               ffiType := some ffi_type_pointer, typedPointer_typedType := none }) :=
    Frame.frame_upd _ _ _ (fun _ => rfl) (fun _ => rfl) (fun _ => rfl)
  have f2 := f1.frame_calloc hp
  have f3 := f2.frame_upd_self (fun t => { t with typedPointer_typedType := some (h.upd type fun t =>
      { t with type := DynKind.TYPED_POINTER, descriptor := some '*',
               ffiType := some ffi_type_pointer, typedPointer_typedType := none }).length })
    (fun _ => rfl) (fun _ => rfl) (fun _ => rfl)
  have hl : h.length ≤ (h.upd type fun t =>
      { t with type := DynKind.TYPED_POINTER, descriptor := some '*',
               ffiType := some ffi_type_pointer, typedPointer_typedType := none }).length := by
    simp [Heap.length_upd]
  have f4 := f3.frame_upd_fresh hp _ hl (fun t =>
      { t with parent := some type, type := DynKind.INVALID, nestedTypesHead := [] })
  exact f4.frame_fresh hp _ hl (dynType_parseRefByValue_frame _ _ _ _ _ hr)

theorem parseComplex_names_frame (type : Ptr) (es : List complex_type_entry) :
    ∀ (i : Nat) (c : Option Char) (stream : FILE) (status : Status) (h : Heap),
      Frame type h (parseComplex_names type es i c stream status h).2.2.2 := by
  induction es with
  | nil => intro i c stream status h; exact Frame.frame_refl _ _
  | cons e es ih =>
    intro i c stream status h
    rw [parseComplex_names]
    split
    · split
      · dsimp only
        generalize fgetc _ = p
        obtain ⟨c2, s2⟩ := p
        refine Frame.frame_trans (Frame.frame_upd _ _ _ ?_ ?_ ?_) (ih _ _ _ _ _) <;> intro _ <;> rfl
      · exact Frame.frame_refl _ _
    · exact Frame.frame_refl _ _

theorem parseComplex_finish_frame (type : Ptr) (status : Status) (h : Heap) :
    Frame type h (parseComplex_finish type status h).2 := by
  unfold parseComplex_finish
  split
  · dsimp only
    refine Frame.frame_trans (Frame.frame_trans (Frame.frame_upd _ _ _ ?_ ?_ ?_) (Frame.frame_upd _ _ _ ?_ ?_ ?_))
      (Frame.frame_upd _ _ _ ?_ ?_ ?_) <;> intro _ <;> rfl
  · exact Frame.frame_refl _ _

theorem frameInv_zero : FrameInv 0 := by
  refine ⟨?_, ?_, ?_, ?_, ?_, ?_, ?_⟩
  · intro _ _ _ _ _ _ _ hr; simp [dynType_parseWithStream] at hr
  · intro _ _ _ _ hr; simp [dynType_parseAny] at hr
  · intro _ _ _ _ _ _ hr; simp [parseComplex_entries] at hr
  · intro _ _ _ _ hr; simp [dynType_parseComplex] at hr
  · intro _ _ _ _ hr; simp [dynType_parseNestedType] at hr
  · intro _ _ _ _ hr; simp [dynType_parseSequence] at hr
  · intro _ _ _ _ hr; simp [dynType_parseTypedPointer] at hr

theorem frameInv_succ (n : Nat) (ih : FrameInv n) : FrameInv (n + 1) := by
  obtain ⟨ihS, ihA, ihE, ihC, ihN, ihQ, ihP⟩ := ih
  refine ⟨?_, ?_, ?_, ?_, ?_, ?_, ?_⟩
  · intro stream name parent refTypes result h r hr
    rw [dynType_parseWithStream] at hr
    simp only [calloc] at hr
    have e1 : Ext h ((h ++ [dyn_type.zero]).upd h.length fun t =>
        { t with parent := parent, type := DynKind.INVALID, referenceTypes := refTypes,
                 nestedTypesHead := [] }) :=
      (Ext.ext_calloc h).ext_upd_fresh _ (Nat.le_refl _) _
    cases name with
    | none =>
      simp only at hr
      split at hr
      · exact absurd hr (by simp)
      · rename_i st s2 h2 heq
        have e3 := e1.ext_frame_fresh _ (Nat.le_refl _) (ihA _ _ _ _ heq (by simp [Heap.length_upd]))
        split at hr <;> cases hr <;> exact e3
    | some nm =>
      simp only at hr
      split at hr
      · exact absurd hr (by simp)
      · rename_i st s2 h2 heq
        have e2 := e1.ext_upd_fresh _ (Nat.le_refl _) (fun t => { t with name := some nm })
        have e3 := e2.ext_frame_fresh _ (Nat.le_refl _) (ihA _ _ _ _ heq (by simp [Heap.length_upd]))
        split at hr <;> cases hr <;> exact e3
  · intro stream type h r hr hp
    rw [dynType_parseAny] at hr
    generalize fgetc stream = p at hr
    obtain ⟨c, s1⟩ := p
    dsimp only at hr
    split_ifs at hr
    · split at hr
      · exact absurd hr (by simp)
      · rename_i st s2 h2 heq
        have f1 := ihN _ _ _ _ heq hp
        split at hr
        · exact f1.frame_trans (ihA _ _ _ _ hr (Nat.lt_of_lt_of_le hp f1.1))
        · cases hr; exact f1
    · exact dynType_parseReference_frame _ _ _ _ hp _ hr
    · exact dynType_parseRefByValue_frame _ _ _ _ _ hr
    · exact ihC _ _ _ _ hr hp
    · exact ihQ _ _ _ _ hr hp
    · exact ihP _ _ _ _ hr hp
    · cases hr; exact dynType_parseText_frame _ _ _
    · cases hr; exact dynType_parseSimple_frame _ _ _
  · intro c stream type status h r hr hp
    rw [parseComplex_entries] at hr
    split at hr
    · simp only [calloc] at hr
      split at hr
      · exact absurd hr (by simp)
      · rename_i st s2 h2 heq
        have f1 : Frame type h ((h ++ [dyn_type.zero]).upd h.length fun t =>
            { t with parent := some type, type := DynKind.INVALID, nestedTypesHead := [] }) :=
          ((Frame.frame_refl type h).frame_calloc hp).frame_upd_fresh hp _ (Nat.le_refl _) _
        have f2 := f1.frame_upd_self (fun t =>
            { t with complex_entriesHead := t.complex_entriesHead ++ [⟨h.length, none⟩] })
          (fun _ => rfl) (fun _ => rfl) (fun _ => rfl)
        have hl : h.length < ((((h ++ [dyn_type.zero]).upd h.length fun t =>
            { t with parent := some type, type := DynKind.INVALID, nestedTypesHead := [] }).upd type
              fun t => { t with complex_entriesHead :=
                t.complex_entriesHead ++ [⟨h.length, none⟩] })).length := by
          simp [Heap.length_upd]
        have f3 := f2.frame_fresh hp _ (Nat.le_refl _) (ihA _ _ _ _ heq hl)
        exact f3.frame_trans (ihE _ _ _ _ _ _ hr (Nat.lt_of_lt_of_le hp f3.1))
    · cases hr; exact Frame.frame_refl _ _
  · intro stream type h r hr hp
    rw [dynType_parseComplex] at hr
    simp only at hr
    split at hr
    · exact absurd hr (by simp)
    · rename_i c2 s2 st2 h2 heq
      have f1 : Frame type h (h.upd type fun t =>
          { t with type := DynKind.COMPLEX, descriptor := some '{', ffiType := some ⟨0, 0⟩,
                   complex_entriesHead := [] }) :=
        Frame.frame_upd _ _ _ (fun _ => rfl) (fun _ => rfl) (fun _ => rfl)
      have f2 := f1.frame_trans (ihE _ _ _ _ _ _ heq (by simpa [Heap.length_upd] using hp))
      cases hr
      exact (f2.frame_trans (parseComplex_names_frame _ _ _ _ _ _ _)).frame_trans
        (parseComplex_finish_frame _ _ _)
  · intro stream type h r hr hp
    rw [dynType_parseNestedType] at hr
    simp only [calloc] at hr
    have f1 : Frame type h ((h ++ [dyn_type.zero]).upd h.length fun t =>
        { t with parent := some type, type := DynKind.INVALID, nestedTypesHead := [] }) :=
      ((Frame.frame_refl type h).frame_calloc hp).frame_upd_fresh hp _ (Nat.le_refl _) _
    have f2 := f1.frame_upd_self (fun t => { t with nestedTypesHead := t.nestedTypesHead ++ [h.length] })
      (fun _ => rfl) (fun _ => rfl) (fun _ => rfl)
    split at hr
    · rename_i name s2 hname
      have f3 := f2.frame_upd_fresh hp _ (Nat.le_refl _) (fun t => { t with name := name })
      split at hr
      · split at hr
        · exact absurd hr (by simp)
        · rename_i st3 s3 h3 heq
          have hl : h.length < ((((h ++ [dyn_type.zero]).upd h.length fun t =>
              { t with parent := some type, type := DynKind.INVALID, nestedTypesHead := [] }).upd type
                fun t => { t with nestedTypesHead := t.nestedTypesHead ++ [h.length] }).upd h.length
                  fun t => { t with name := name }).length := by
            simp [Heap.length_upd]
          have f4 := f3.frame_fresh hp _ (Nat.le_refl _) (ihA _ _ _ _ heq hl)
          split at hr <;> cases hr <;> exact f4
      · cases hr; exact f3
    · rename_i st name s2 hname hnot
      cases hr
      exact f2.frame_upd_fresh hp _ (Nat.le_refl _) (fun t => { t with name := name })
  · intro stream type h r hr hp
    rw [dynType_parseSequence] at hr
    simp only at hr
    have f1 : Frame type h (h.upd type fun t =>
        { t with type := DynKind.SEQUENCE, descriptor := some '[' }) :=
      Frame.frame_upd _ _ _ (fun _ => rfl) (fun _ => rfl) (fun _ => rfl)
    split at hr
    · exact absurd hr (by simp)
    · rename_i st it s2 h2 heq
      have f2 := f1.frame_ext hp (ihS _ _ _ _ _ _ _ heq)
      have f3 := f2.frame_upd_self (fun t => { t with sequence_itemType := it })
        (fun _ => rfl) (fun _ => rfl) (fun _ => rfl)
      split at hr
      · cases hr
        dsimp only
        refine f3.frame_upd_self _ ?_ ?_ ?_ <;> intro _ <;> rfl
      · cases hr; exact f3
  · intro stream type h r hr hp
    rw [dynType_parseTypedPointer] at hr
    have f1 : Frame type h (h.upd type fun t =>
        { t with type := DynKind.TYPED_POINTER, descriptor := some '*',
                 ffiType := some ffi_type_pointer }) :=
      Frame.frame_upd _ _ _ (fun _ => rfl) (fun _ => rfl) (fun _ => rfl)
    split at hr
    · exact absurd hr (by simp)
    · rename_i st it s2 h2 heq
      have f2 := f1.frame_ext hp (ihS _ _ _ _ _ _ _ heq)
      cases hr
      dsimp only
      refine f2.frame_upd_self _ ?_ ?_ ?_ <;> intro _ <;> rfl

theorem frameInv (fuel : Nat) : FrameInv fuel := by
  induction fuel with
  | zero => exact frameInv_zero
  | succ n ih => exact frameInv_succ n ih

/-! ## Enough fuel -/

theorem dynType_parseAny_mono {fuel fuel' : Nat} (hle : fuel ≤ fuel') {stream : FILE}
    {type : Ptr} {h : Heap} {r : Status × FILE × Heap}
    (hr : dynType_parseAny fuel stream type h = some r) :
    dynType_parseAny fuel' stream type h = some r := by
  induction hle with
  | refl => exact hr
  | step _ ih => exact (fuelMono _).2.1 _ _ _ _ ih

theorem dynType_parseWithStream_mono {fuel fuel' : Nat} (hle : fuel ≤ fuel') {stream : FILE}
    {name : Option (List Char)} {parent : Option Ptr} {refTypes : Option (List Ptr)}
    {result : Option Ptr} {h : Heap} {r : Status × Option Ptr × FILE × Heap}
    (hr : dynType_parseWithStream fuel stream name parent refTypes result h = some r) :
    dynType_parseWithStream fuel' stream name parent refTypes result h = some r := by
  induction hle with
  | refl => exact hr
  | step _ ih => exact (fuelMono _).1 _ _ _ _ _ _ _ ih

theorem dynType_parseComplex_mono {fuel fuel' : Nat} (hle : fuel ≤ fuel') {stream : FILE}
    {type : Ptr} {h : Heap} {r : Status × FILE × Heap}
    (hr : dynType_parseComplex fuel stream type h = some r) :
    dynType_parseComplex fuel' stream type h = some r := by
  induction hle with
  | refl => exact hr
  | step _ ih => exact (fuelMono _).2.2.2.1 _ _ _ _ ih

theorem dynType_parseWithStr_mono {fuel fuel' : Nat} (hle : fuel ≤ fuel')
    {descriptor : List Char} {name : Option (List Char)} {refTypes : Option (List Ptr)}
    {result : Option Ptr} {h : Heap} {r : Status × Option Ptr × Heap}
    (hr : dynType_parseWithStr fuel descriptor name refTypes result h = some r) :
    dynType_parseWithStr fuel' descriptor name refTypes result h = some r := by
  unfold dynType_parseWithStr at hr ⊢
  dsimp only at hr ⊢
  split at hr
  · exact absurd hr (by simp)
  · rename_i heq
    rw [dynType_parseWithStream_mono hle heq]
    exact hr

/-- One evaluation that returns settles what the call returns. -/
theorem dynType_parseWithStr_returns {fuel : Nat} {descriptor : List Char}
    {name : Option (List Char)} {refTypes : Option (List Ptr)} {result : Option Ptr} {h : Heap}
    {r : Status × Option Ptr × Heap}
    (hr : dynType_parseWithStr fuel descriptor name refTypes result h = some r) :
    Returns (fun fuel => dynType_parseWithStr fuel descriptor name refTypes result h) r :=
  ⟨fuel, fun _ hle => dynType_parseWithStr_mono hle hr⟩

theorem dynType_parseAny_returns {fuel : Nat} {stream : FILE} {type : Ptr} {h : Heap}
    {r : Status × FILE × Heap} (hr : dynType_parseAny fuel stream type h = some r) :
    Returns (fun fuel => dynType_parseAny fuel stream type h) r :=
  ⟨fuel, fun _ hle => dynType_parseAny_mono hle hr⟩

theorem dynType_parseWithStream_returns {fuel : Nat} {stream : FILE}
    {name : Option (List Char)} {parent : Option Ptr} {refTypes : Option (List Ptr)}
    {result : Option Ptr} {h : Heap} {r : Status × Option Ptr × FILE × Heap}
    (hr : dynType_parseWithStream fuel stream name parent refTypes result h = some r) :
    Returns (fun fuel => dynType_parseWithStream fuel stream name parent refTypes result h) r :=
  ⟨fuel, fun _ hle => dynType_parseWithStream_mono hle hr⟩

/-- What a run returns is determined. -/
theorem Returns.unique {α : Type} {run : Nat → Option α} {r r' : α} (a : Returns run r)
    (b : Returns run r') : r = r' := by
  obtain ⟨n, hn⟩ := a
  obtain ⟨m, hm⟩ := b
  have h1 := hn (max n m) (Nat.le_max_left _ _)
  have h2 := hm (max n m) (Nat.le_max_right _ _)
  rw [h1] at h2
  exact Option.some.inj h2

theorem dynType_parseWithStream_unfold (fuel : Nat) (stream : FILE) (name : Option (List Char))
    (parent : Option Ptr) (refTypes : Option (List Ptr)) (result : Option Ptr) (h : Heap) :
    dynType_parseWithStream (fuel + 1) stream name parent refTypes result h =
      match dynType_parseAny fuel stream h.length (rootHeap h name parent refTypes) with
      | none => none
      | some (status, stream, h2) =>
        if status = Status.OK then some (Status.OK, some h.length, stream, h2)
        else some (status, result, stream, h2) := by
  rw [dynType_parseWithStream]
  cases name <;> rfl

theorem rootHeap_length (h : Heap) (name : Option (List Char)) (parent : Option Ptr)
    (refTypes : Option (List Ptr)) : (rootHeap h name parent refTypes).length = h.length + 1 := by
  cases name <;> simp [rootHeap, Heap.length_upd]

theorem rootHeap_ext (h : Heap) (name : Option (List Char)) (parent : Option Ptr)
    (refTypes : Option (List Ptr)) : Ext h (rootHeap h name parent refTypes) := by
  cases name
  · unfold rootHeap
    exact (Ext.ext_calloc h).ext_upd_fresh _ (Nat.le_refl _) _
  · unfold rootHeap
    exact ((Ext.ext_calloc h).ext_upd_fresh _ (Nat.le_refl _) _).ext_upd_fresh _ (Nat.le_refl _) _

theorem rootHeap_at (h : Heap) (name : Option (List Char)) (parent : Option Ptr)
    (refTypes : Option (List Ptr)) :
    (rootHeap h name parent refTypes).at h.length =
      { dyn_type.zero with name := name, parent := parent, referenceTypes := refTypes } := by
  cases name <;>
    simp [rootHeap, Heap.at_upd_same, Heap.length_upd, Heap.at_append_length, dyn_type.zero]

/-! ## Simple letters and unknown characters -/

theorem dynType_parseAny_eof (fuel : Nat) (type : Ptr) (h : Heap) :
    dynType_parseAny (fuel + 1) [] type h = some (Status.PARSE_ERROR, [], h) := by
  rw [dynType_parseAny]
  rfl

theorem dynType_parseAny_default (fuel : Nat) (c : Char) (rest : FILE) (type : Ptr) (h : Heap)
    (hc : c ∉ dispatchChars) :
    dynType_parseAny (fuel + 1) (c :: rest) type h =
      some ((dynType_parseSimple (some c) type h).1, rest,
        (dynType_parseSimple (some c) type h).2) := by
  simp only [dispatchChars, List.mem_cons, List.mem_singleton, not_or, List.not_mem_nil,
    not_false_eq_true, and_true] at hc
  obtain ⟨h1, h2, h3, h4, h5, h6, h7⟩ := hc
  rw [dynType_parseAny]
  simp only [fgetc, Option.some.injEq, h1, h2, h3, h4, h5, h6, h7, if_false]

theorem dynType_ffiTypeFor_table (c : Char) (t : ffi_type) (hc : (c, t) ∈ simpleTable) :
    dynType_ffiTypeFor (some c) = some t ∧ c ∉ dispatchChars :=
  (by decide : ∀ p ∈ simpleTable,
    dynType_ffiTypeFor (some p.1) = some p.2 ∧ p.1 ∉ dispatchChars) (c, t) hc

theorem dynType_ffiTypeFor_none (c : Char) (hc : c ∉ simpleTable.map Prod.fst) :
    dynType_ffiTypeFor (some c) = none := by
  simp only [simpleTable, List.map_cons, List.map_nil, List.mem_cons, List.mem_singleton,
    List.not_mem_nil, or_false, not_or] at hc
  obtain ⟨h1, h2, h3, h4, h5, h6, h7, h8, h9, h10, h11, h12⟩ := hc
  simp only [dynType_ffiTypeFor, Option.some.injEq, h1, h2, h3, h4, h5, h6, h7, h8, h9, h10,
    h11, h12, if_false]

theorem cstr_nil : cstr [] = [] := rfl

theorem cstr_cons (c : Char) (cs : List Char) :
    cstr (c :: cs) = if c = Char.ofNat 0 then [] else c :: cstr cs := by
  unfold cstr
  by_cases h : c = Char.ofNat 0 <;> simp [List.takeWhile_cons, h]

theorem dynType_parseWithStr_unfold (fuel : Nat) (descriptor : List Char)
    (name : Option (List Char)) (refTypes : Option (List Ptr)) (result : Option Ptr) (h : Heap) :
    dynType_parseWithStr fuel descriptor name refTypes result h =
      match dynType_parseWithStream fuel (cstr descriptor) name none refTypes result h with
      | none => none
      | some (status, result, stream, h) =>
        if status = Status.OK then
          match fgetc stream with
          | (none, _) => some (Status.OK, result, h)
          | (some c, _) =>
            if c ≠ Char.ofNat 0 then some (Status.PARSE_ERROR, result, h)
            else some (Status.OK, result, h)
        else some (status, result, h) := rfl

/-! ## Evaluating the parser on a descriptor -/

/-- An evaluation that returns, and passes a check, settles what the call
returns. -/
theorem dynType_parseWithStr_check (fuel : Nat) (descriptor : List Char)
    (name : Option (List Char)) (refTypes : Option (List Ptr)) (result : Option Ptr) (h : Heap)
    (p : Status × Option Ptr × Heap → Bool)
    (hs : (dynType_parseWithStr fuel descriptor name refTypes result h).any p = true) :
    ∃ r, Returns (fun fuel => dynType_parseWithStr fuel descriptor name refTypes result h) r ∧
      p r = true := by
  cases hr : dynType_parseWithStr fuel descriptor name refTypes result h with
  | none => rw [hr] at hs; simp at hs
  | some r =>
    rw [hr] at hs
    exact ⟨r, dynType_parseWithStr_returns hr, by simpa using hs⟩

/-! ## The lexer and the string entry -/

theorem isNameChar_ne_nul (c : Char) (hc : isNameChar c = true) : c ≠ Char.ofNat 0 := by
  intro h0
  subst h0
  revert hc
  decide

theorem isNameStart_isNameChar (c : Char) (hc : isNameStart c = true) : isNameChar c = true := by
  simp [isNameChar, hc]

theorem isIdent_cons {n : List Char} (hn : isIdent n = true) :
    ∃ c cs, n = c :: cs ∧ isNameStart c = true ∧ ∀ x ∈ cs, isNameChar x = true := by
  cases n with
  | nil => simp [isIdent] at hn
  | cons c cs =>
    simp only [isIdent, Bool.and_eq_true, List.all_eq_true] at hn
    exact ⟨c, cs, rfl, hn.1, hn.2⟩

theorem isIdent_all {n : List Char} (hn : isIdent n = true) : ∀ x ∈ n, isNameChar x = true := by
  obtain ⟨c, cs, rfl, h1, h2⟩ := isIdent_cons hn
  intro x hx
  rcases List.mem_cons.1 hx with rfl | hx
  · exact isNameStart_isNameChar _ h1
  · exact h2 x hx

theorem isIdent_nulFree {n : List Char} (hn : isIdent n = true) : NulFree n :=
  fun c hc => isNameChar_ne_nul c (isIdent_all hn c hc)

/-- The identifier reader reads an identifier up to the first character that
cannot continue it. -/
theorem dynCommon_parseName_ident (n : List Char) (d : Char) (rest : FILE)
    (hn : isIdent n = true) (hd : isNameChar d = false) :
    dynCommon_parseName (n ++ d :: rest) = (Status.OK, some n, d :: rest) := by
  have hall := isIdent_all hn
  obtain ⟨c, cs, rfl, h1, -⟩ := isIdent_cons hn
  have ht : List.takeWhile isNameChar (c :: cs ++ d :: rest) = c :: cs := by
    rw [List.takeWhile_append_of_pos hall]
    simp [List.takeWhile_cons, hd]
  have hdr : List.dropWhile isNameChar (c :: cs ++ d :: rest) = d :: rest := by
    rw [List.dropWhile_append_of_pos hall]
    simp [List.dropWhile_cons, hd]
  show dynCommon_parseName (c :: (cs ++ d :: rest)) = _
  simp only [dynCommon_parseName, h1, if_true]
  rw [show c :: (cs ++ d :: rest) = c :: cs ++ d :: rest from rfl, ht, hdr]

theorem cstr_nulFree (s : List Char) (hs : NulFree s) : cstr s = s := by
  unfold cstr
  rw [List.takeWhile_eq_self_iff]
  intro c hc
  simpa using hs c hc

theorem cstr_append (p r : List Char) (hp : NulFree p) : cstr (p ++ r) = p ++ cstr r := by
  unfold cstr
  rw [List.takeWhile_append_of_pos]
  intro c hc
  simpa using hp c hc

theorem NulFree.append {p r : List Char} (hp : NulFree p) (hr : NulFree r) : NulFree (p ++ r) := by
  intro c hc
  rcases List.mem_append.1 hc with h | h
  · exact hp c h
  · exact hr c h

theorem NulFree.cons {c : Char} {r : List Char} (hc : c ≠ Char.ofNat 0) (hr : NulFree r) :
    NulFree (c :: r) := by
  intro x hx
  rcases List.mem_cons.1 hx with rfl | h
  · exact hc
  · exact hr x h

theorem NulFree.nil : NulFree [] := fun _ hc => absurd hc (List.not_mem_nil _)

/-! ## Name resolution -/

theorem findType_scan_notDeclared (h : Heap) (n : List Char) (ps : List Ptr)
    (hps : NotDeclared h ps n) : findType_scan h n ps = some none := by
  induction ps with
  | nil => rfl
  | cons p ps ih =>
    obtain ⟨m, hm, hne⟩ := hps p (List.mem_cons_self _ _)
    rw [findType_scan, hm]
    simp only [if_neg (Ne.symm hne)]
    exact ih fun q hq => hps q (List.mem_cons_of_mem _ hq)

theorem findType_scan_append (h : Heap) (n : List Char) (pre ps : List Ptr)
    (hpre : NotDeclared h pre n) : findType_scan h n (pre ++ ps) = findType_scan h n ps := by
  induction pre with
  | nil => rfl
  | cons p pre ih =>
    obtain ⟨m, hm, hne⟩ := hpre p (List.mem_cons_self _ _)
    rw [List.cons_append, findType_scan, hm]
    simp only [if_neg (Ne.symm hne)]
    exact ih fun q hq => hpre q (List.mem_cons_of_mem _ hq)

theorem findType_scan_scopeEntry (h : Heap) (n : List Char) (refs : List Ptr) (t : Ptr)
    (ht : ScopeEntry h refs n t) : findType_scan h n refs = some (some t) := by
  obtain ⟨pre, post, rfl, hpre, hname⟩ := ht
  rw [findType_scan_append h n pre _ hpre, findType_scan, hname]
  simp

/-- The search of a queue reads the names of its members only. -/
theorem findType_scan_congr (h h' : Heap) (n : List Char) (ps : List Ptr)
    (hps : ∀ q ∈ ps, (h'.at q).name = (h.at q).name) :
    findType_scan h' n ps = findType_scan h n ps := by
  induction ps with
  | nil => rfl
  | cons p ps ih =>
    rw [findType_scan, findType_scan, hps p (List.mem_cons_self _ _),
      ih fun q hq => hps q (List.mem_cons_of_mem _ hq)]

theorem dynType_findType_scope (fuel : Nat) (h : Heap) (x : Ptr) (n : List Char) (t : Ptr)
    (hs : scopeScan h x n = some (some t)) :
    dynType_findType (fuel + 1) h x n = some (some t) := by
  rw [dynType_findType]
  unfold scopeScan at hs
  simp only [hs]

theorem dynType_findType_nested (fuel : Nat) (h : Heap) (x : Ptr) (n : List Char) (t : Ptr)
    (hs : scopeScan h x n = some none)
    (hn : findType_scan h n (h.at x).nestedTypesHead = some (some t)) :
    dynType_findType (fuel + 1) h x n = some (some t) := by
  rw [dynType_findType]
  unfold scopeScan at hs
  simp only [hs, hn]

theorem dynType_findType_parent (fuel : Nat) (h : Heap) (x y : Ptr) (n : List Char)
    (hs : scopeScan h x n = some none)
    (hn : findType_scan h n (h.at x).nestedTypesHead = some none)
    (hp : (h.at x).parent = some y) :
    dynType_findType (fuel + 1) h x n = dynType_findType fuel h y n := by
  rw [dynType_findType]
  unfold scopeScan at hs
  simp only [hs, hn, hp]

theorem dynType_findType_none (fuel : Nat) (h : Heap) (x : Ptr) (n : List Char)
    (hs : scopeScan h x n = some none)
    (hn : findType_scan h n (h.at x).nestedTypesHead = some none)
    (hp : (h.at x).parent = none) :
    dynType_findType (fuel + 1) h x n = some none := by
  rw [dynType_findType]
  unfold scopeScan at hs
  simp only [hs, hn, hp]

theorem scopeScan_none (h : Heap) (x : Ptr) (n : List Char)
    (hx : (h.at x).referenceTypes = none) : scopeScan h x n = some none := by
  unfold scopeScan
  rw [hx]

/-! ## Dispatch of `dynType_parseAny` -/

theorem dynType_parseAny_T (fuel : Nat) (s : FILE) (type : Ptr) (h : Heap) :
    dynType_parseAny (fuel + 1) ('T' :: s) type h =
      match dynType_parseNestedType fuel s type h with
      | none => none
      | some (status, stream, h) =>
        if status = Status.OK then dynType_parseAny fuel stream type h
        else some (status, stream, h) := by
  rw [dynType_parseAny]
  simp [fgetc]

theorem dynType_parseAny_L (fuel : Nat) (s : FILE) (type : Ptr) (h : Heap) :
    dynType_parseAny (fuel + 1) ('L' :: s) type h = dynType_parseReference fuel s type h := by
  rw [dynType_parseAny]
  simp [fgetc]

theorem dynType_parseAny_l (fuel : Nat) (s : FILE) (type : Ptr) (h : Heap) :
    dynType_parseAny (fuel + 1) ('l' :: s) type h = dynType_parseRefByValue fuel s type h := by
  rw [dynType_parseAny]
  simp [fgetc]

theorem dynType_parseAny_complex (fuel : Nat) (s : FILE) (type : Ptr) (h : Heap) :
    dynType_parseAny (fuel + 1) ('{' :: s) type h = dynType_parseComplex fuel s type h := by
  rw [dynType_parseAny]
  simp [fgetc]

theorem dynType_parseAny_sequence (fuel : Nat) (s : FILE) (type : Ptr) (h : Heap) :
    dynType_parseAny (fuel + 1) ('[' :: s) type h = dynType_parseSequence fuel s type h := by
  rw [dynType_parseAny]
  simp [fgetc]

theorem dynType_parseAny_pointer (fuel : Nat) (s : FILE) (type : Ptr) (h : Heap) :
    dynType_parseAny (fuel + 1) ('*' :: s) type h = dynType_parseTypedPointer fuel s type h := by
  rw [dynType_parseAny]
  simp [fgetc]

theorem dynType_parseAny_text (fuel : Nat) (s : FILE) (type : Ptr) (h : Heap) :
    dynType_parseAny (fuel + 1) ('t' :: s) type h = some (dynType_parseText s type h) := by
  rw [dynType_parseAny]
  simp [fgetc]

/-! ## References -/

theorem Heap.at_upd (h : Heap) (p : Ptr) (f : dyn_type → dyn_type) (q : Ptr) :
    (h.upd p f).at q = if q = p ∧ p < h.length then f (h.at p) else h.at q := by
  by_cases hq : q = p
  · subst hq
    by_cases hp : q < h.length
    · simp [Heap.at_upd_same, hp]
    · have : h.upd q f = h := by
        simp only [Heap.upd]
        exact List.set_eq_of_length_le (Nat.le_of_not_lt hp)
      simp [this, hp]
  · simp [Heap.at_upd_ne, hq]

theorem Heap.at_append_singleton (h : Heap) (x : dyn_type) (q : Ptr) :
    Heap.at (h ++ [x]) q = if q = h.length then x else h.at q := by
  by_cases hq : q = h.length
  · subst hq
    simp [Heap.at_append_length]
  · rcases Nat.lt_or_gt_of_ne hq with hlt | hgt
    · simp [Heap.at_append_lt, hlt, hq]
    · have h1 : h.length + 1 ≤ q := hgt
      simp [Heap.at, hq, List.getD_eq_getElem?_getD, List.getElem?_eq_none, h1,
        Nat.le_of_lt hgt]

theorem dynType_parseRefByValue_unfold (fuel : Nat) (stream : FILE) (type : Ptr) (h : Heap) :
    dynType_parseRefByValue fuel stream type h =
      match dynCommon_parseName stream with
      | (Status.OK, some name, stream) =>
        match dynType_findType fuel (refHeap h type) type name with
        | none => none
        | some (some ref) =>
          match fgetc stream with
          | (some ';', stream) =>
            some (Status.OK, stream, (refHeap h type).upd type fun t => { t with ref_ref := some ref })
          | (_, stream) =>
            some (Status.PARSE_ERROR, stream,
              (refHeap h type).upd type fun t => { t with ref_ref := some ref })
        | some none => some (Status.PARSE_ERROR, stream, refHeap h type)
      | (status, _, stream) => some (status, stream, refHeap h type) := rfl

theorem dynType_parseRefByValue_unresolved (fuel : Nat) (n : List Char) (d : Char) (rest : FILE)
    (type : Ptr) (h : Heap) (hn : isIdent n = true) (hd : isNameChar d = false)
    (hf : dynType_findType fuel (refHeap h type) type n = some none) :
    dynType_parseRefByValue fuel (n ++ d :: rest) type h =
      some (Status.PARSE_ERROR, d :: rest, refHeap h type) := by
  rw [dynType_parseRefByValue_unfold, dynCommon_parseName_ident n d rest hn hd]
  simp only [hf]

theorem dynType_parseRefByValue_resolved (fuel : Nat) (n : List Char) (rest : FILE)
    (type : Ptr) (h : Heap) (t : Ptr) (hn : isIdent n = true)
    (hf : dynType_findType fuel (refHeap h type) type n = some (some t)) :
    dynType_parseRefByValue fuel (n ++ ';' :: rest) type h =
      some (Status.OK, rest, (refHeap h type).upd type fun x => { x with ref_ref := some t }) := by
  rw [dynType_parseRefByValue_unfold, dynCommon_parseName_ident n ';' rest hn (by decide)]
  simp only [hf, fgetc]

theorem dynType_parseReference_unfold (fuel : Nat) (stream : FILE) (type : Ptr) (h : Heap) :
    dynType_parseReference fuel stream type h =
      dynType_parseRefByValue fuel stream h.length (pointerHeap h type) := by
  unfold dynType_parseReference pointerHeap
  simp [calloc, Heap.length_upd]

/-- The names of the types of a scope that lies in `h` are the same in every
heap that extends `h`. -/
theorem findType_scan_ext (h h' : Heap) (n : List Char) (ps : List Ptr) (he : Ext h h')
    (hps : ∀ q ∈ ps, q < h.length) : findType_scan h' n ps = findType_scan h n ps :=
  findType_scan_congr h h' n ps fun q hq => by rw [he.2 q (hps q hq)]

theorem ext_refHeap_fresh {h h' : Heap} (he : Ext h h') (p : Ptr) (hp : h.length ≤ p) :
    Ext h (refHeap h' p) :=
  he.ext_upd_fresh p hp _

theorem ext_pointerHeap_fresh {h h' : Heap} (he : Ext h h') (p : Ptr) (hp : h.length ≤ p) :
    Ext h (pointerHeap h' p) := by
  unfold pointerHeap
  have e1 := he.ext_upd_fresh p hp (fun t =>
      { t with type := DynKind.TYPED_POINTER, descriptor := some '*',
               ffiType := some ffi_type_pointer, typedPointer_typedType := none })
  have e2 := e1.ext_trans (Ext.ext_calloc _)
  have e3 := e2.ext_upd_fresh p hp (fun t => { t with typedPointer_typedType := some h'.length })
  exact e3.ext_upd_fresh h'.length he.1 _

theorem rootHeap_scopeScan (h : Heap) (refTypes : Option (List Ptr))
    (n : List Char) (h' : Heap) (he : Ext h h')
    (hroot : (h'.at h.length).referenceTypes = refTypes)
    (hscope : ∀ refs, refTypes = some refs → NotDeclared h refs n ∧ ∀ q ∈ refs, q < h.length) :
    scopeScan h' h.length n = some none := by
  unfold scopeScan
  rw [hroot]
  cases refTypes with
  | none => rfl
  | some refs =>
    obtain ⟨h1, h2⟩ := hscope refs rfl
    dsimp only
    rw [findType_scan_ext h h' n refs he h2]
    exact findType_scan_notDeclared h n refs h1

theorem scopeScan_scopeEntry (h h' : Heap) (x : Ptr) (n : List Char) (refs : List Ptr) (t : Ptr)
    (he : Ext h h') (hx : (h'.at x).referenceTypes = some refs) (ht : ScopeEntry h refs n t)
    (hv : ∀ q ∈ refs, q < h.length) : scopeScan h' x n = some (some t) := by
  unfold scopeScan
  rw [hx]
  dsimp only
  rw [findType_scan_ext h h' n refs he hv]
  exact findType_scan_scopeEntry h n refs t ht

theorem dynType_parseTypedPointer_unfold (fuel : Nat) (stream : FILE) (type : Ptr) (h : Heap) :
    dynType_parseTypedPointer (fuel + 1) stream type h =
      match dynType_parseWithStream fuel stream none (some type) none
        ((pointerStart h type).at type).typedPointer_typedType (pointerStart h type) with
      | none => none
      | some (status, typedType, stream, h2) =>
        some (status, stream, h2.upd type fun t => { t with typedPointer_typedType := typedType }) := by
  rw [dynType_parseTypedPointer]
  rfl

theorem notDeclared_of_nil (h : Heap) (ps : List Ptr) (n : List Char) (hps : ps = []) :
    NotDeclared h ps n := by
  subst hps
  exact fun _ hq => absurd hq (List.not_mem_nil _)

/-! ## Nested declarations -/

theorem dynType_parseNestedType_ident (fuel : Nat) (n : List Char) (rest : FILE) (type : Ptr)
    (h : Heap) (hn : isIdent n = true) :
    dynType_parseNestedType (fuel + 1) (n ++ '=' :: rest) type h =
      match dynType_parseAny fuel rest h.length (declHeap h type n) with
      | none => none
      | some (status, stream, h2) =>
        match fgetc stream with
        | (some ';', stream) => some (status, stream, h2)
        | (_, stream) => some (Status.PARSE_ERROR, stream, h2) := by
  rw [dynType_parseNestedType]
  simp only [calloc, dynCommon_parseName_ident n '=' rest hn (by decide), fgetc]
  rfl

theorem declHeap_length (h : Heap) (type : Ptr) (n : List Char) :
    (declHeap h type n).length = h.length + 1 := by
  simp [declHeap, Heap.length_upd]

theorem declHeap_at_entry (h : Heap) (type : Ptr) (n : List Char) (ht : type < h.length) :
    (declHeap h type n).at h.length =
      { dyn_type.zero with parent := some type, name := some n } := by
  have hne : h.length ≠ type := Nat.ne_of_gt ht
  simp [declHeap, Heap.at_upd, Heap.at_append_singleton, Heap.length_upd, hne, dyn_type.zero]

theorem declHeap_at_node (h : Heap) (type : Ptr) (n : List Char) (ht : type < h.length) :
    (declHeap h type n).at type =
      { h.at type with nestedTypesHead := (h.at type).nestedTypesHead ++ [h.length] } := by
  have hne : type ≠ h.length := Nat.ne_of_lt ht
  have hlt : type < h.length + 1 := Nat.lt_succ_of_lt ht
  simp [declHeap, Heap.at_upd, Heap.at_append_singleton, Heap.length_upd, hne, hlt]

theorem pointerHeap_length (h : Heap) (type : Ptr) : (pointerHeap h type).length = h.length + 1 := by
  simp [pointerHeap, Heap.length_upd]

theorem pointerHeap_at_sub (h : Heap) (type : Ptr) (ht : type < h.length) :
    (pointerHeap h type).at h.length = { dyn_type.zero with parent := some type } := by
  have hne : h.length ≠ type := Nat.ne_of_gt ht
  simp [pointerHeap, Heap.at_upd, Heap.at_append_singleton, Heap.length_upd, hne, dyn_type.zero]

theorem pointerHeap_at_node (h : Heap) (type : Ptr) (ht : type < h.length) :
    (pointerHeap h type).at type =
      { h.at type with type := DynKind.TYPED_POINTER, descriptor := some '*',
                       ffiType := some ffi_type_pointer,
                       typedPointer_typedType := some h.length } := by
  have hne : type ≠ h.length := Nat.ne_of_lt ht
  have hlt : type < h.length + 1 := Nat.lt_succ_of_lt ht
  simp [pointerHeap, Heap.at_upd, Heap.at_append_singleton, Heap.length_upd, hne, hlt, ht]

theorem pointerHeap_at_other (h : Heap) (type q : Ptr) (hq : q ≠ type) (hql : q ≠ h.length) :
    (pointerHeap h type).at q = h.at q := by
  simp [pointerHeap, Heap.at_upd, Heap.at_append_singleton, Heap.length_upd, hq, hql]

theorem refHeap_at_self (h : Heap) (p : Ptr) (hp : p < h.length) :
    (refHeap h p).at p = { h.at p with type := DynKind.REF, descriptor := some 'l' } := by
  simp [refHeap, Heap.at_upd, hp]

theorem refHeap_at_other (h : Heap) (p q : Ptr) (hq : q ≠ p) : (refHeap h p).at q = h.at q := by
  simp [refHeap, Heap.at_upd, hq]

theorem refHeap_length (h : Heap) (p : Ptr) : (refHeap h p).length = h.length := by
  simp [refHeap, Heap.length_upd]

theorem Returns.frame_parseAny {stream : FILE} {type : Ptr} {h : Heap}
    {r : Status × FILE × Heap}
    (hr : Returns (fun fuel => dynType_parseAny fuel stream type h) r) (ht : type < h.length) :
    Frame type h r.2.2 := by
  obtain ⟨N, hN⟩ := hr
  exact (frameInv N).2.1 _ _ _ _ (hN N (Nat.le_refl _)) ht

/-! ## Complex descriptors -/

theorem parseComplex_entries_unfold (fuel : Nat) (c : Char) (stream : FILE) (type : Ptr)
    (status : Status) (h : Heap) (hc : c ≠ ' ' ∧ c ≠ '}') :
    parseComplex_entries (fuel + 1) (some c) stream type status h =
      match dynType_parseAny fuel (c :: stream) h.length (entryHeap h type) with
      | none => none
      | some (status, stream, h) =>
        parseComplex_entries fuel (fgetc stream).1 (fgetc stream).2 type status h := by
  rw [parseComplex_entries]
  have hc' : some c ≠ some ' ' ∧ some c ≠ some '}' := by simpa using hc
  rw [if_pos hc']
  rfl

theorem parseComplex_entries_stop (fuel : Nat) (stream : FILE) (type : Ptr) (status : Status)
    (h : Heap) :
    parseComplex_entries (fuel + 1) (some ' ') stream type status h =
      some (some ' ', stream, status, h) := by
  rw [parseComplex_entries]
  simp

/-- A text whose parse returns `OK` does not start with a space or a closing
brace. -/
theorem body_head_of_returns (c : Char) (s : FILE) (type : Ptr) (h : Heap)
    (r : FILE × Heap)
    (hr : Returns (fun fuel => dynType_parseAny fuel (c :: s) type h) (Status.OK, r)) :
    c ≠ ' ' ∧ c ≠ '}' := by
  obtain ⟨N, hN⟩ := hr
  have h1 := hN (N + 1) (Nat.le_succ _)
  dsimp only at h1
  constructor
  · intro hc
    subst hc
    rw [dynType_parseAny_default _ _ _ _ _ (by decide)] at h1
    simp [dynType_parseSimple, dynType_ffiTypeFor] at h1
  · intro hc
    subst hc
    rw [dynType_parseAny_default _ _ _ _ _ (by decide)] at h1
    simp [dynType_parseSimple, dynType_ffiTypeFor] at h1

theorem entryHeap_length (h : Heap) (type : Ptr) : (entryHeap h type).length = h.length + 1 := by
  simp [entryHeap, Heap.length_upd]

theorem entryHeap_frame (h : Heap) (type : Ptr) (ht : type < h.length) :
    Frame type h (entryHeap h type) := by
  unfold entryHeap
  exact (((Frame.frame_refl type h).frame_calloc ht).frame_upd_fresh ht _ (Nat.le_refl _)
    _).frame_upd_self _ (fun _ => rfl) (fun _ => rfl) (fun _ => rfl)

theorem entryHeap_at_node (h : Heap) (type : Ptr) (ht : type < h.length) :
    (entryHeap h type).at type =
      { h.at type with
        complex_entriesHead := (h.at type).complex_entriesHead ++ [⟨h.length, none⟩] } := by
  have hne : type ≠ h.length := Nat.ne_of_lt ht
  have hlt : type < h.length + 1 := Nat.lt_succ_of_lt ht
  simp [entryHeap, Heap.at_upd, Heap.at_append_singleton, Heap.length_upd, hne, hlt]

/-- The first loop of `dynType_parseComplex` on well-formed field bodies. -/
theorem parseComplex_entries_fields (type : Ptr) (tail : FILE) :
    ∀ (fields : List Field) (h : Heap) (status : Status), type < h.length →
      (∀ f ∈ fields, f.body ≠ []) → FieldsParse type (' ' :: tail) fields h →
      Returns (fun fuel => parseComplex_entries fuel
          (fgetc (bodiesText fields ++ ' ' :: tail)).1
          (fgetc (bodiesText fields ++ ' ' :: tail)).2 type status h)
        (some ' ', tail, if fields.isEmpty then status else Status.OK, lastHeap fields h) := by
  intro fields
  induction fields with
  | nil =>
    intro h status _ _ _
    refine ⟨1, ?_⟩
    intro fuel hle
    obtain ⟨k, rfl⟩ : ∃ k, fuel = k + 1 := ⟨fuel - 1, by omega⟩
    exact parseComplex_entries_stop _ _ _ _ _
  | cons f fs ih =>
    intro h status ht hne hp
    obtain ⟨hp1, hp2⟩ := hp
    obtain ⟨c, b, hb⟩ : ∃ c b, f.body = c :: b := by
      cases hf : f.body with
      | nil => exact absurd hf (hne f (List.mem_cons_self _ _))
      | cons c b => exact ⟨c, b, rfl⟩
    rw [hb] at hp1
    have hc := body_head_of_returns c _ _ _ _ hp1
    have hfr := hp1.frame_parseAny (by rw [entryHeap_length]; exact Nat.lt_succ_self _)
    have ht2 : type < f.heap.length := by
      have h1 := hfr.1
      rw [entryHeap_length] at h1
      exact Nat.lt_of_lt_of_le ht (Nat.le_trans (Nat.le_succ _) h1)
    obtain ⟨N1, hN1⟩ := hp1
    obtain ⟨N2, hN2⟩ := ih f.heap Status.OK ht2 (fun g hg => hne g (List.mem_cons_of_mem _ hg))
      hp2
    refine ⟨max N1 N2 + 1, ?_⟩
    intro fuel hle
    obtain ⟨k, rfl⟩ : ∃ k, fuel = k + 1 := ⟨fuel - 1, by omega⟩
    have e1 := hN1 k (by omega)
    have e2 := hN2 k (by omega)
    dsimp only at e1 e2 ⊢
    have htext : bodiesText (f :: fs) ++ ' ' :: tail = c :: (b ++ (bodiesText fs ++ ' ' :: tail)) := by
      simp [bodiesText, hb]
    rw [htext]
    simp only [fgetc]
    rw [parseComplex_entries_unfold _ _ _ _ _ _ hc]
    rw [show c :: (b ++ (bodiesText fs ++ ' ' :: tail)) = c :: b ++ (bodiesText fs ++ ' ' :: tail)
      from rfl, e1]
    simp [e2, lastHeap]

theorem lastHeap_spec (type : Ptr) (tail : FILE) :
    ∀ (fields : List Field) (h : Heap), type < h.length → FieldsParse type tail fields h →
      Frame type h (lastHeap fields h) ∧
      (lastHeap fields h).at type =
        { h.at type with
          complex_entriesHead := (h.at type).complex_entriesHead ++
            (entryPtrs fields h).map fun p => ⟨p, none⟩ } ∧
      ∀ h', (∀ q, q < (lastHeap fields h).length → q ≠ type →
          h'.at q = (lastHeap fields h).at q) → FieldsBuilt h' fields h := by
  intro fields
  induction fields with
  | nil =>
    intro h _ _
    refine ⟨Frame.frame_refl _ _, ?_, fun _ _ => trivial⟩
    simp [lastHeap, entryPtrs]
  | cons f fs ih =>
    intro h ht hp
    obtain ⟨hp1, hp2⟩ := hp
    have hfr := hp1.frame_parseAny (by rw [entryHeap_length]; exact Nat.lt_succ_self _)
    dsimp only at hfr
    have hlen : h.length + 1 ≤ f.heap.length := by
      have h1 := hfr.1
      rwa [entryHeap_length] at h1
    have ht2 : type < f.heap.length := Nat.lt_of_lt_of_le ht (Nat.le_trans (Nat.le_succ _) hlen)
    have hne : type ≠ h.length := Nat.ne_of_lt ht
    obtain ⟨i1, i2, i3⟩ := ih f.heap ht2 hp2
    have hF : Frame type h f.heap :=
      (entryHeap_frame h type ht).frame_fresh ht _ (Nat.le_refl _) hfr
    have hnode : f.heap.at type = (entryHeap h type).at type :=
      hfr.2.1 type (by rw [entryHeap_length]; exact Nat.lt_succ_of_lt ht) hne
    refine ⟨hF.frame_trans i1, ?_, ?_⟩
    · show (lastHeap fs f.heap).at type = _
      rw [i2, hnode, entryHeap_at_node h type ht]
      simp [entryPtrs, List.append_assoc]
    · intro h' hh'
      refine ⟨?_, i3 h' hh'⟩
      have hl : h.length < f.heap.length := hlen
      rw [hh' h.length (Nat.lt_of_lt_of_le hl i1.1) (Ne.symm hne)]
      exact i1.2.1 h.length hl (Ne.symm hne)

theorem modify_append_cons {α : Type} (f : α → α) (pre : List α) (x : α) (post : List α) :
    (pre ++ x :: post).modify f pre.length = pre ++ f x :: post := by
  induction pre with
  | nil => simp
  | cons a pre ih => simp [ih]

theorem Heap.upd_upd (h : Heap) (p : Ptr) (f g : dyn_type → dyn_type) :
    (h.upd p f).upd p g = h.upd p fun t => g (f t) := by
  by_cases hp : p < h.length
  · simp [Heap.upd, Heap.at, List.getD_eq_getElem?_getD, List.getElem?_set, hp]
  · have h1 : h.upd p f = h := by
      simp only [Heap.upd]
      exact List.set_eq_of_length_le (Nat.le_of_not_lt hp)
    rw [h1]
    simp only [Heap.upd]
    rw [List.set_eq_of_length_le (Nat.le_of_not_lt hp),
      List.set_eq_of_length_le (Nat.le_of_not_lt hp)]

theorem Heap.upd_eq_self (h : Heap) (p : Ptr) (f : dyn_type → dyn_type)
    (hf : f (h.at p) = h.at p) : h.upd p f = h := by
  by_cases hp : p < h.length
  · simp only [Heap.upd, hf]
    apply List.ext_getElem?
    intro n
    rw [List.getElem?_set]
    by_cases hn : p = n
    · subst hn
      simp [Heap.at, List.getD_eq_getElem?_getD, hp]
    · simp [hn]
  · simp only [Heap.upd]
    exact List.set_eq_of_length_le (Nat.le_of_not_lt hp)

theorem namesText_head (fs : List Field) (rest : FILE) :
    ∃ d s, namesText fs ++ '}' :: rest = d :: s ∧ isNameChar d = false ∧
      (fgetc (namesText fs ++ '}' :: rest)).1 = some d := by
  cases fs with
  | nil => exact ⟨'}', rest, rfl, by decide, rfl⟩
  | cons g gs => exact ⟨' ', _, rfl, by decide, rfl⟩

/-- The second loop of `dynType_parseComplex` on as many names as entries. -/
theorem parseComplex_names_fields (type : Ptr) (rest : FILE) :
    ∀ (fields : List Field) (ps : List Ptr) (pre es : List complex_type_entry) (i : Nat)
      (status : Status) (h : Heap), (∀ f ∈ fields, isIdent f.name = true) →
      ps.length = fields.length → es.length = fields.length →
      (h.at type).complex_entriesHead = pre ++ ps.map (fun p => ⟨p, none⟩) → pre.length = i →
      parseComplex_names type es i (fgetc (namesText fields ++ '}' :: rest)).1
          (fgetc (namesText fields ++ '}' :: rest)).2 status h =
        (some '}', rest, if fields.isEmpty then status else Status.OK,
          h.upd type fun t =>
            { t with complex_entriesHead := pre ++ namedEntries ps fields }) := by
  intro fields
  induction fields with
  | nil =>
    intro ps pre es i status h _ hps hes hent _
    have hps0 : ps = [] := List.length_eq_zero.1 hps
    have hes0 : es = [] := List.length_eq_zero.1 hes
    subst hps0 hes0
    have hself : (h.upd type fun t => { t with complex_entriesHead := pre ++ namedEntries [] [] })
        = h := by
      apply Heap.upd_eq_self
      simp only [List.map_nil, List.append_nil] at hent
      simp [namedEntries, ← hent]
    rw [hself]
    rfl
  | cons f fs ih =>
    intro ps pre es i status h hid hps hes hent hi
    obtain ⟨p, ps', rfl⟩ : ∃ p ps', ps = p :: ps' := by
      cases ps with
      | nil => simp at hps
      | cons p ps' => exact ⟨p, ps', rfl⟩
    obtain ⟨e, es', rfl⟩ : ∃ e es', es = e :: es' := by
      cases es with
      | nil => simp at hes
      | cons e es' => exact ⟨e, es', rfl⟩
    obtain ⟨d, s, hds, hd, -⟩ := namesText_head fs rest
    have hname : dynCommon_parseName (f.name ++ (namesText fs ++ '}' :: rest)) =
        (Status.OK, some f.name, namesText fs ++ '}' :: rest) := by
      rw [hds]
      exact dynCommon_parseName_ident f.name d s (hid f (List.mem_cons_self _ _)) hd
    have htext : namesText (f :: fs) ++ '}' :: rest =
        ' ' :: (f.name ++ (namesText fs ++ '}' :: rest)) := by
      simp [namesText]
    rw [htext]
    simp only [fgetc]
    rw [parseComplex_names]
    simp only [if_true, hname]
    have hent2 : ((h.upd type fun t =>
        { t with complex_entriesHead :=
            t.complex_entriesHead.modify (fun e => { e with name := some f.name }) i }).at
              type).complex_entriesHead =
        (pre ++ [⟨p, some f.name⟩]) ++ ps'.map (fun p => ⟨p, none⟩) ∨
        ¬ type < h.length := by
      by_cases ht : type < h.length
      · left
        rw [Heap.at_upd_same _ _ _ ht]
        simp only [hent, List.map_cons]
        rw [← hi, modify_append_cons]
        simp
      · right; exact ht
    rcases hent2 with hent2 | ht
    · have := ih ps' (pre ++ [⟨p, some f.name⟩]) es' (i + 1) Status.OK _
        (fun g hg => hid g (List.mem_cons_of_mem _ hg)) (by simpa using hps) (by simpa using hes)
        hent2 (by simp [hi])
      rw [this, Heap.upd_upd]
      simp [namedEntries]
    · have hnil : (h.at type) = dyn_type.zero := by
        simp [Heap.at, List.getD_eq_getElem?_getD, List.getElem?_eq_none (Nat.le_of_not_lt ht)]
      rw [hnil] at hent
      simp [dyn_type.zero] at hent

theorem dynType_parseComplex_unfold (fuel : Nat) (stream : FILE) (type : Ptr) (h : Heap) :
    dynType_parseComplex (fuel + 1) stream type h =
      match parseComplex_entries fuel (fgetc stream).1 (fgetc stream).2 type Status.OK
        (complexStart h type) with
      | none => none
      | some (c, stream, status, h2) =>
        some ((parseComplex_finish type
            (parseComplex_names type (h2.at type).complex_entriesHead 0 c stream status h2).2.2.1
            (parseComplex_names type (h2.at type).complex_entriesHead 0 c stream status
              h2).2.2.2).1,
          (parseComplex_names type (h2.at type).complex_entriesHead 0 c stream status h2).2.1,
          (parseComplex_finish type
            (parseComplex_names type (h2.at type).complex_entriesHead 0 c stream status h2).2.2.1
            (parseComplex_names type (h2.at type).complex_entriesHead 0 c stream status
              h2).2.2.2).2) := by
  rw [dynType_parseComplex]
  rfl

theorem entryPtrs_length (fields : List Field) : ∀ h, (entryPtrs fields h).length = fields.length := by
  induction fields with
  | nil => intro h; rfl
  | cons f fs ih => intro h; simp [entryPtrs, ih]

theorem namedEntries_length (fields : List Field) :
    ∀ ps : List Ptr, ps.length = fields.length → (namedEntries ps fields).length = fields.length := by
  induction fields with
  | nil => intro ps _; cases ps <;> rfl
  | cons f fs ih =>
    intro ps hps
    cases ps with
    | nil => simp at hps
    | cons p ps => simp [namedEntries, ih ps (by simpa using hps)]

theorem namesText_nulFree (fields : List Field) (hf : ∀ f ∈ fields, isIdent f.name = true) :
    NulFree (namesText fields) := by
  induction fields with
  | nil => exact NulFree.nil
  | cons f fs ih =>
    exact NulFree.cons (by decide) ((isIdent_nulFree (hf f (List.mem_cons_self _ _))).append
      (ih fun g hg => hf g (List.mem_cons_of_mem _ hg)))

theorem bodiesText_nulFree (fields : List Field) (hf : ∀ f ∈ fields, NulFree f.body) :
    NulFree (bodiesText fields) := by
  induction fields with
  | nil => exact NulFree.nil
  | cons f fs ih =>
    exact (hf f (List.mem_cons_self _ _)).append (ih fun g hg => hf g (List.mem_cons_of_mem _ hg))


/-! ## The field loop at the end of the input -/

/-- At the end of the input the first loop of `dynType_parseComplex` never
leaves: the character read is neither a space nor a closing brace, the field
parse fails without reading, and the next character read is again the end. -/
theorem parseComplex_entries_eof (fuel : Nat) : ∀ (type : Ptr) (status : Status) (h : Heap),
    parseComplex_entries fuel none [] type status h = none := by
  induction fuel with
  | zero =>
    intro type status h
    rw [parseComplex_entries]
  | succ n ih =>
    intro type status h
    rw [parseComplex_entries]
    cases n with
    | zero => simp [calloc, ungetc, dynType_parseAny]
    | succ m =>
      simp only [calloc, ungetc, dynType_parseAny_eof, fgetc]
      simp [ih]

/-- After a last field body the first loop of `dynType_parseComplex` meets the
end of the input, and never leaves. -/
theorem parseComplex_entries_last (fuel : Nat) (c : Char) (type : Ptr) (status : Status)
    (h : Heap) (hc : c ≠ ' ' ∧ c ≠ '}') (hd : c ∉ dispatchChars) :
    parseComplex_entries fuel (some c) [] type status h = none := by
  cases fuel with
  | zero => rw [parseComplex_entries]
  | succ n =>
    rw [parseComplex_entries_unfold _ _ _ _ _ _ hc]
    cases n with
    | zero => simp [dynType_parseAny]
    | succ m =>
      rw [dynType_parseAny_default _ _ _ _ _ hd]
      simp [fgetc, parseComplex_entries_eof]

/-! ## Field lookup by name -/

theorem indexForName_loop_found (s : List Char) :
    ∀ (es pre : List complex_type_entry) (index : Int), (∀ e ∈ es, e.name ≠ none) →
      IndexFound s pre index →
      ∃ idx, indexForName_loop s es pre.length index = some idx ∧ IndexFound s (pre ++ es) idx := by
  intro es
  induction es with
  | nil =>
    intro pre index _ hg
    exact ⟨index, rfl, by simpa using hg⟩
  | cons e es ih =>
    intro pre index hn hg
    obtain ⟨n, hen⟩ : ∃ n, e.name = some n := by
      cases hx : e.name with
      | none => exact absurd hx (hn e (List.mem_cons_self _ _))
      | some n => exact ⟨n, rfl⟩
    have hstep : IndexFound s (pre ++ [e]) (if s = n then (pre.length : Int) else index) := by
      by_cases hs : s = n
      · rw [if_pos hs]
        right
        refine ⟨pre.length, rfl, ?_⟩
        simp [hen, hs]
      · rw [if_neg hs]
        rcases hg with ⟨h1, h2⟩ | ⟨j, h1, h2⟩
        · left
          refine ⟨h1, ?_⟩
          intro x hx
          rcases List.mem_append.1 hx with hx | hx
          · exact h2 x hx
          · rw [List.mem_singleton.1 hx, hen]
            intro hc
            exact hs (Option.some.inj hc).symm
        · right
          refine ⟨j, h1, ?_⟩
          have hj : j < pre.length := by
            by_contra hc
            rw [List.get?_eq_none.2 (Nat.le_of_not_lt hc)] at h2
            simp at h2
          rw [List.get?_eq_getElem?, List.getElem?_append_left hj, ← List.get?_eq_getElem?]
          exact h2
    have := ih (pre ++ [e]) _ (fun x hx => hn x (List.mem_cons_of_mem _ hx)) hstep
    rw [indexForName_loop, hen]
    simpa [List.length_append, List.append_assoc] using this

/-! ## Sequences -/

theorem dynType_parseSequence_unfold (fuel : Nat) (stream : FILE) (type : Ptr) (h : Heap) :
    dynType_parseSequence (fuel + 1) stream type h =
      match dynType_parseWithStream fuel stream none (some type) none
          ((sequenceStart h type).at type).sequence_itemType (sequenceStart h type) with
      | none => none
      | some (status, itemType, stream, h2) =>
        if status = Status.OK then
          some (Status.OK, stream,
            (h2.upd type fun t => { t with sequence_itemType := itemType }).upd type fun t =>
              { t with ffiType := some (dynType_prepCif seq_types) })
        else some (status, stream, h2.upd type fun t => { t with sequence_itemType := itemType }) := by
  rw [dynType_parseSequence]
  rfl

/-! ## Field offsets -/

theorem alignUp_eq (x a : Nat) (ha : 0 < a) :
    alignUp x a = if x % a = 0 then x else x + (a - x % a) := by
  unfold alignUp
  have hx := Nat.div_add_mod x a
  have hr := Nat.mod_lt x ha
  by_cases h0 : x % a = 0
  · rw [if_pos h0]
    have e : x + a - 1 = (a - 1) + a * (x / a) := by omega
    rw [e, Nat.add_mul_div_left _ _ ha, Nat.div_eq_of_lt (by omega), Nat.zero_add,
      Nat.mul_comm]
    omega
  · rw [if_neg h0]
    have e : x + a - 1 = (x % a - 1) + a * (x / a + 1) := by
      rw [Nat.mul_add, Nat.mul_one]; omega
    rw [e, Nat.add_mul_div_left _ _ ha, Nat.div_eq_of_lt (by omega), Nat.zero_add,
      Nat.mul_comm, Nat.mul_add, Nat.mul_one]
    omega

theorem alignUp_ge (x a : Nat) (ha : 0 < a) : x ≤ alignUp x a := by
  rw [alignUp_eq x a ha]
  split <;> omega

theorem alignUp_dvd (x a : Nat) : a ∣ alignUp x a := Dvd.intro_left _ rfl

theorem alignUp_zero (a : Nat) : alignUp 0 a = 0 := by
  unfold alignUp
  rcases Nat.eq_zero_or_pos a with h | h
  · simp [h]
  · rw [Nat.zero_add, Nat.div_eq_of_lt (by omega), Nat.zero_mul]

theorem specOffsetFrom_ge : ∀ (ts : List ffi_type) (k o : Nat), (∀ t ∈ ts, 0 < t.alignment) →
    o ≤ specOffsetFrom ts k o := by
  intro ts
  induction ts with
  | nil => intro k o _; exact Nat.le_refl _
  | cons t ts ih =>
    intro k o hal
    have ht := hal t (List.mem_cons_self _ _)
    cases k with
    | zero => exact alignUp_ge o _ ht
    | succ k =>
      have := ih k (alignUp o t.alignment + t.size) (fun x hx => hal x (List.mem_cons_of_mem _ hx))
      have := alignUp_ge o _ ht
      simp only [specOffsetFrom]
      omega

/-- The loop of `dynType_getOffset` follows the packing rule as long as the
offsets stay below 65536. -/
theorem getOffset_loop_specOffsetFrom : ∀ (ts : List ffi_type) (i k o : Nat),
    (∀ t ∈ ts, 0 < t.alignment ∧ t.alignment < 65536) → k < ts.length →
    specOffsetFrom ts k o < 65536 →
    getOffset_loop (i + k) (ts.map some) i o = some (specOffsetFrom ts k o) := by
  intro ts
  induction ts with
  | nil => intro i k o _ hk _; simp at hk
  | cons t ts ih =>
    intro i k o hal hk hb
    obtain ⟨ht0, ht1⟩ := hal t (List.mem_cons_self _ _)
    have hal2 : ∀ x ∈ ts, 0 < x.alignment ∧ x.alignment < 65536 :=
      fun x hx => hal x (List.mem_cons_of_mem _ hx)
    have hmod : t.alignment % 65536 = t.alignment := Nat.mod_eq_of_lt ht1
    have hne : ¬ t.alignment = 0 := by omega
    have hstep : (if o % t.alignment > 0 then (o + (t.alignment - o % t.alignment)) % 65536
        else o) = alignUp o t.alignment := by
      have hle : alignUp o t.alignment < 65536 := by
        cases k with
        | zero => exact hb
        | succ k =>
          have := specOffsetFrom_ge ts k (alignUp o t.alignment + t.size) (fun x hx => (hal2 x hx).1)
          simp only [specOffsetFrom] at hb
          omega
      rw [alignUp_eq o _ ht0] at hle ⊢
      by_cases h0 : o % t.alignment = 0
      · simp [h0]
      · rw [if_neg h0] at hle
        rw [if_neg h0, if_pos (Nat.pos_of_ne_zero h0), Nat.mod_eq_of_lt hle]
    simp only [List.map_cons, getOffset_loop, hmod, if_neg hne, Nat.le_add_right, if_true, hstep]
    cases k with
    | zero =>
      simp only [Nat.add_zero, Nat.lt_irrefl, if_false, specOffsetFrom]
      cases ts with
      | nil => rfl
      | cons t2 ts2 => simp [getOffset_loop]
    | succ k =>
      simp only [specOffsetFrom] at hb ⊢
      have hlt : i < i + (k + 1) := by omega
      have hsum : alignUp o t.alignment + t.size < 65536 := by
        have := specOffsetFrom_ge ts k (alignUp o t.alignment + t.size) (fun x hx => (hal2 x hx).1)
        omega
      rw [if_pos hlt, Nat.mod_eq_of_lt hsum]
      have := ih (i + 1) k (alignUp o t.alignment + t.size) hal2 (by simpa using hk) hb
      rw [show i + (k + 1) = i + 1 + k by omega]
      exact this

theorem specOffsetFrom_succ : ∀ (ts : List ffi_type) (k o : Nat), k + 1 < ts.length →
    specOffsetFrom ts (k + 1) o =
      alignUp (specOffsetFrom ts k o + (ts.getD k ⟨0, 0⟩).size) (ts.getD (k + 1) ⟨0, 0⟩).alignment := by
  intro ts
  induction ts with
  | nil => intro k o hk; simp at hk
  | cons t ts ih =>
    intro k o hk
    cases k with
    | zero =>
      cases ts with
      | nil => simp at hk
      | cons t2 ts2 => simp [specOffsetFrom]
    | succ k =>
      have := ih k (alignUp o t.alignment + t.size) (by simpa using hk)
      simpa [specOffsetFrom] using this

theorem specOffset_eq_specOffsetFrom (fs : List ffi_type) : ∀ i, i < fs.length →
    specOffset fs i = specOffsetFrom fs i 0 := by
  intro i
  induction i with
  | zero =>
    intro hi
    cases fs with
    | nil => simp at hi
    | cons t ts => simp [specOffset, specOffsetFrom, alignUp_zero]
  | succ i ih =>
    intro hi
    rw [specOffsetFrom_succ fs i 0 hi, ← ih (by omega)]
    rfl

theorem specOffset_mono (fs : List ffi_type) (hal : ∀ t ∈ fs, 0 < t.alignment) :
    ∀ j, j < fs.length → ∀ i, i ≤ j → specOffset fs i ≤ specOffset fs j := by
  intro j
  induction j with
  | zero => intro _ i hi; rw [Nat.le_zero.1 hi]
  | succ j ih =>
    intro hj i hi
    rcases Nat.lt_or_ge i (j + 1) with h | h
    · have h1 := ih (by omega) i (by omega)
      have ha : 0 < (fs.getD (j + 1) ⟨0, 0⟩).alignment := by
        apply hal
        rw [List.getD_eq_getElem _ _ hj]
        exact List.getElem_mem _
      have h2 := alignUp_ge (specOffset fs j + (fs.getD j ⟨0, 0⟩).size) _ ha
      simp only [specOffset]
      omega
    · rw [show i = j + 1 by omega]

theorem specOffset_dvd (fs : List ffi_type) (i : Nat) :
    (fs.getD i ⟨0, 0⟩).alignment ∣ specOffset fs i := by
  cases i with
  | zero => exact Nat.dvd_zero _
  | succ i => exact alignUp_dvd _ _

/-- Where every member has a layout of alignment from 1 to 65535 and the
offset of the member `i` is below 65536, `dynType_getOffset` returns that
offset. -/
theorem dynType_getOffset_exact (h : Heap) (type : Ptr) (fs : List ffi_type) (i : Nat)
    (hk : (h.at type).type = DynKind.COMPLEX)
    (hel : (h.at type).complex_elements = some (fs.map some))
    (hal : ∀ t ∈ fs, 0 < t.alignment ∧ t.alignment < 65536) (hi : i < fs.length)
    (hb : specOffset fs i < 65536) :
    dynType_getOffset h type (i : Int) = some (specOffset fs i) := by
  rw [dynType_getOffset, if_pos hk, hel]
  have hneg : ¬ ((i : Int) < 0) := by omega
  simp only [if_neg hneg, Int.toNat_ofNat]
  rw [specOffset_eq_specOffsetFrom fs i hi] at hb ⊢
  have := getOffset_loop_specOffsetFrom fs 0 i 0 hal hi hb
  rwa [Nat.zero_add] at this

/-! ## The record of a parsed Complex -/

theorem namedEntries_layouts (g : Heap) : ∀ (fields : List Field) (h : Heap),
    FieldsBuilt g fields h →
    (namedEntries (entryPtrs fields h) fields).map (fun e => (g.at e.type).ffiType) =
      fieldLayouts fields h := by
  intro fields
  induction fields with
  | nil => intro h _; rfl
  | cons f fs ih =>
    intro h hb
    simp only [entryPtrs, namedEntries, List.map_cons, fieldLayouts]
    rw [hb.1, ih f.heap hb.2]

theorem namedEntries_types : ∀ (fields : List Field) (h : Heap),
    (namedEntries (entryPtrs fields h) fields).map (fun e => e.type) = entryPtrs fields h := by
  intro fields
  induction fields with
  | nil => intro h; rfl
  | cons f fs ih =>
    intro h
    simp only [entryPtrs, namedEntries, List.map_cons]
    rw [ih f.heap]

theorem namedEntries_names : ∀ (fields : List Field) (h : Heap),
    (namedEntries (entryPtrs fields h) fields).map (fun e => e.name) =
      fields.map fun f => some f.name := by
  intro fields
  induction fields with
  | nil => intro h; rfl
  | cons f fs ih =>
    intro h
    simp only [entryPtrs, namedEntries, List.map_cons]
    rw [ih f.heap]

/-- A well-formed Complex descriptor `{ b1 … bk  n1 … nk }` with `k ≥ 1`
returns `OK`; the record of the root holds the entries, the member array, the
`types` array and the layout composed from the members. -/
theorem dynType_parseWithStr_complex (fields : List Field) (hk : 1 ≤ fields.length)
    (hf : ∀ f ∈ fields, f.body ≠ [] ∧ NulFree f.body ∧ isIdent f.name = true)
    (name : Option (List Char)) (refTypes : Option (List Ptr)) (result : Option Ptr) (h : Heap)
    (hp : FieldsParse h.length (namesText fields ++ ['}']) fields
      (complexStart (rootHeap h name none refTypes) h.length)) :
    ∃ h', Returns (fun fuel => dynType_parseWithStr fuel
          ('{' :: (bodiesText fields ++ (namesText fields ++ ['}']))) name refTypes result h)
        (Status.OK, some h.length, h') ∧
      (h'.at h.length).type = DynKind.COMPLEX ∧
      (h'.at h.length).complex_entriesHead =
        namedEntries (entryPtrs fields (complexStart (rootHeap h name none refTypes) h.length))
          fields ∧
      (h'.at h.length).complex_elements =
        some (fieldLayouts fields (complexStart (rootHeap h name none refTypes) h.length)) ∧
      (h'.at h.length).complex_types =
        some (entryPtrs fields (complexStart (rootHeap h name none refTypes) h.length)) ∧
      (h'.at h.length).ffiType = some (dynType_prepCif
        (fieldLayouts fields (complexStart (rootHeap h name none refTypes) h.length))) ∧
      FieldsBuilt h' fields (complexStart (rootHeap h name none refTypes) h.length) := by
  obtain ⟨f, fs, rfl⟩ : ∃ f fs, fields = f :: fs := by
    cases fields with
    | nil => simp at hk
    | cons f fs => exact ⟨f, fs, rfl⟩
  have hroot := rootHeap_at h name none refTypes
  have hlen := rootHeap_length h name none refTypes
  have hl0 : (complexStart (rootHeap h name none refTypes) h.length).length = h.length + 1 := by
    rw [complexStart, Heap.length_upd, hlen]
  have ht0 : h.length < (complexStart (rootHeap h name none refTypes) h.length).length := by
    rw [hl0]; exact Nat.lt_succ_self _
  have hat0 : (complexStart (rootHeap h name none refTypes) h.length).at h.length =
      { dyn_type.zero with name := name, referenceTypes := refTypes, type := DynKind.COMPLEX,
                           descriptor := some '{', ffiType := some ⟨0, 0⟩ } := by
    simp [complexStart, Heap.at_upd, hlen, hroot, dyn_type.zero]
  have htail : namesText (f :: fs) ++ ['}'] = ' ' :: (f.name ++ namesText fs ++ ['}']) := by
    simp [namesText]
  rw [htail] at hp
  obtain ⟨a1, a2, a3⟩ := lastHeap_spec h.length _ (f :: fs) _ ht0 hp
  have hA := parseComplex_entries_fields h.length (f.name ++ namesText fs ++ ['}']) (f :: fs) _
    Status.OK ht0 (fun g hg => (hf g hg).1) hp
  have htys := namedEntries_types (f :: fs)
    (complexStart (rootHeap h name none refTypes) h.length)
  have hlays0 := fun g hb => namedEntries_layouts g (f :: fs)
    (complexStart (rootHeap h name none refTypes) h.length) hb
  generalize hL : lastHeap (f :: fs) (complexStart (rootHeap h name none refTypes) h.length) = L
    at a1 a2 a3 hA
  generalize hfl : fieldLayouts (f :: fs)
    (complexStart (rootHeap h name none refTypes) h.length) = lays at hlays0
  generalize hps : entryPtrs (f :: fs) (complexStart (rootHeap h name none refTypes) h.length) = ps
    at a2 htys hlays0
  have hbuilt : FieldsBuilt
      (L.upd h.length fun t => { t with complex_entriesHead := namedEntries ps (f :: fs) })
      (f :: fs) (complexStart (rootHeap h name none refTypes) h.length) :=
    a3 _ fun q _ hne => Heap.at_upd_ne _ _ _ _ hne
  have hlays := hlays0 _ hbuilt
  have hpl : ps.length = (f :: fs).length := by rw [← hps, entryPtrs_length]
  have htL : h.length < L.length := Nat.lt_of_lt_of_le ht0 a1.1
  have hent : (L.at h.length).complex_entriesHead = [] ++ ps.map (fun p => ⟨p, none⟩) := by
    rw [a2, hat0]; rfl
  have hB := parseComplex_names_fields h.length [] (f :: fs) ps [] (L.at h.length).complex_entriesHead
    0 Status.OK L (fun g hg => (hf g hg).2.2) hpl (by rw [hent]; simpa using hpl) hent rfl
  have hB' : parseComplex_names h.length (L.at h.length).complex_entriesHead 0 (some ' ')
      (f.name ++ namesText fs ++ ['}']) Status.OK L =
      (some '}', [], Status.OK,
        L.upd h.length fun t => { t with complex_entriesHead := namedEntries ps (f :: fs) }) := by
    have e : namesText (f :: fs) ++ '}' :: [] = ' ' :: (f.name ++ namesText fs ++ ['}']) := htail
    rw [e] at hB
    simpa [fgetc] using hB
  have hfin : (parseComplex_finish h.length Status.OK
      (L.upd h.length fun t => { t with complex_entriesHead := namedEntries ps (f :: fs) })).1 =
      Status.OK := by
    simp [parseComplex_finish]
  have hfr := parseComplex_finish_frame h.length Status.OK
    (L.upd h.length fun t => { t with complex_entriesHead := namedEntries ps (f :: fs) })
  have hnf : NulFree ('{' :: (bodiesText (f :: fs) ++ (namesText (f :: fs) ++ ['}']))) :=
    NulFree.cons (by decide) ((bodiesText_nulFree _ fun g hg => (hf g hg).2.1).append
      ((namesText_nulFree _ fun g hg => (hf g hg).2.2).append
        (NulFree.cons (by decide) NulFree.nil)))
  have hnode : ((parseComplex_finish h.length Status.OK
      (L.upd h.length fun t => { t with complex_entriesHead := namedEntries ps (f :: fs) })).2).at
        h.length =
      { L.at h.length with
        complex_entriesHead := namedEntries ps (f :: fs),
        complex_elements := some ((namedEntries ps (f :: fs)).map fun e =>
          ((L.upd h.length fun t =>
            { t with complex_entriesHead := namedEntries ps (f :: fs) }).at e.type).ffiType),
        complex_types := some ((namedEntries ps (f :: fs)).map fun e => e.type),
        ffiType := some (dynType_prepCif ((namedEntries ps (f :: fs)).map fun e =>
          ((L.upd h.length fun t =>
            { t with complex_entriesHead := namedEntries ps (f :: fs) }).at e.type).ffiType)) } := by
    simp [parseComplex_finish, Heap.at_upd, Heap.length_upd, htL]
  rw [hlays, htys] at hnode
  obtain ⟨N, hN⟩ := hA
  refine ⟨(parseComplex_finish h.length Status.OK
      (L.upd h.length fun t => { t with complex_entriesHead := namedEntries ps (f :: fs) })).2,
    ⟨N + 3, ?_⟩, ?_, ?_, ?_, ?_, ?_, ?_⟩
  · intro fuel hle
    obtain ⟨m, rfl⟩ : ∃ m, fuel = m + 3 := ⟨fuel - 3, by omega⟩
    have hrun := hN m (by omega)
    dsimp only at hrun ⊢
    simp only [List.isEmpty_cons, Bool.false_eq_true, if_false] at hrun
    rw [dynType_parseWithStr_unfold, cstr_nulFree _ hnf, dynType_parseWithStream_unfold,
      dynType_parseAny_complex, dynType_parseComplex_unfold, htail, hrun]
    simp only [hB', hfin, fgetc, if_true]
  · simp [hnode, a2, hat0]
  · rw [hnode]
  · rw [hnode]
  · rw [hnode]
  · rw [hnode]
  · apply a3
    intro q hq hne
    rw [hfr.2.1 q (by rw [Heap.length_upd]; exact hq) hne, Heap.at_upd_ne _ _ _ _ hne]

/-! ## A Complex of many doubles -/

theorem doubleFields_bodies (type : Ptr) : ∀ (n : Nat) (h : Heap),
    bodiesText (doubleFields type n h) = List.replicate n 'D' := by
  intro n
  induction n with
  | zero => intro h; rfl
  | succ n ih => intro h; simp [doubleFields, bodiesText, ih, List.replicate_succ]

theorem doubleFields_names (type : Ptr) : ∀ (n : Nat) (h : Heap),
    namesText (doubleFields type n h) = (List.replicate n [' ', 'a']).flatten := by
  intro n
  induction n with
  | zero => intro h; rfl
  | succ n ih => intro h; simp [doubleFields, namesText, ih, List.replicate_succ]

theorem doubleFields_length (type : Ptr) : ∀ (n : Nat) (h : Heap),
    (doubleFields type n h).length = n := by
  intro n
  induction n with
  | zero => intro h; rfl
  | succ n ih => intro h; simp [doubleFields, ih]

theorem doubleFields_mem (type : Ptr) : ∀ (n : Nat) (h : Heap), ∀ f ∈ doubleFields type n h,
    f.body = ['D'] ∧ f.name = ['a'] := by
  intro n
  induction n with
  | zero => intro h f hf; exact absurd hf (List.not_mem_nil _)
  | succ n ih =>
    intro h f hf
    rcases List.mem_cons.1 hf with rfl | hf
    · exact ⟨rfl, rfl⟩
    · exact ih _ f hf

theorem doubleFields_parse (type : Ptr) (tail : List Char) : ∀ (n : Nat) (h : Heap),
    FieldsParse type tail (doubleFields type n h) h := by
  intro n
  induction n with
  | zero => intro h; trivial
  | succ n ih =>
    intro h
    refine ⟨⟨1, ?_⟩, ih _⟩
    intro fuel hle
    obtain ⟨k, rfl⟩ : ∃ k, fuel = k + 1 := ⟨fuel - 1, by omega⟩
    dsimp only
    rw [show ['D'] ++ (bodiesText (doubleFields type n (doubleFieldHeap h type)) ++ tail) =
      'D' :: (bodiesText (doubleFields type n (doubleFieldHeap h type)) ++ tail) from rfl,
      dynType_parseAny_default _ _ _ _ _ (by decide)]
    rfl

theorem doubleFields_layouts (type : Ptr) : ∀ (n : Nat) (h : Heap),
    fieldLayouts (doubleFields type n h) h = List.replicate n (some ffi_type_double) := by
  intro n
  induction n with
  | zero => intro h; rfl
  | succ n ih =>
    intro h
    have : ((doubleFieldHeap h type).at h.length).ffiType = some ffi_type_double := by
      rw [doubleFieldHeap, Heap.at_upd_same _ _ _ (by rw [entryHeap_length]; exact Nat.lt_succ_self _)]
    simp only [doubleFields, fieldLayouts, this, ih, List.replicate_succ]

/-- The descriptor `{D…D a … a}` with `n ≥ 1` fields returns `OK`; the member
array of the root holds `n` times the layout of a double. -/
theorem dynType_parseWithStr_wide (n : Nat) (hn : 1 ≤ n) :
    ∃ h', Returns (fun fuel => dynType_parseWithStr fuel (wideDescriptor n) none none none [])
        (Status.OK, some 0, h') ∧
      (h'.at 0).type = DynKind.COMPLEX ∧
      (h'.at 0).complex_entriesHead.length = n ∧
      (h'.at 0).complex_entriesHead.map (fun e => e.name) = List.replicate n (some ['a']) ∧
      (h'.at 0).complex_elements = some (List.replicate n (some ffi_type_double)) ∧
      (h'.at 0).ffiType = some (dynType_prepCif (List.replicate n (some ffi_type_double))) := by
  have hl := doubleFields_length 0 n (complexStart (rootHeap [] none none none) 0)
  obtain ⟨h', hr, hty, hen, hel, -, hff, -⟩ := dynType_parseWithStr_complex
    (doubleFields 0 n (complexStart (rootHeap [] none none none) 0)) (by rw [hl]; exact hn)
    (fun f hf => by
      obtain ⟨hb, hm⟩ := doubleFields_mem 0 n _ f hf
      rw [hb, hm]
      exact ⟨by decide, by decide, by decide⟩)
    none none none [] (doubleFields_parse _ _ _ _)
  simp only [List.length_nil] at hr hty hen hel hff
  rw [doubleFields_bodies, doubleFields_names] at hr
  rw [doubleFields_layouts] at hel hff
  refine ⟨h', hr, hty, ?_, ?_, hel, hff⟩
  · rw [hen]
    exact (namedEntries_length _ _ (entryPtrs_length _ _)).trans hl
  · rw [hen, namedEntries_names]
    apply List.ext_getElem
    · simp [hl]
    · intro i h1 h2
      simp only [List.getElem_map, List.getElem_replicate]
      rw [(doubleFields_mem 0 n _ _ (List.getElem_mem _)).2]

/-- On members that are all doubles the loop of `dynType_getOffset` counts
eight bytes a member, modulo 65536. -/
theorem getOffset_loop_doubles : ∀ (m i k o : Nat), k < m → o % 8 = 0 → o < 65536 →
    getOffset_loop (i + k) (List.replicate m (some ffi_type_double)) i o =
      some ((o + 8 * k) % 65536) := by
  intro m
  induction m with
  | zero => intro i k o hk; omega
  | succ m ih =>
    intro i k o hk ho hlt
    simp only [List.replicate_succ, getOffset_loop, ffi_type_double, Nat.le_add_right, if_true]
    have h8 : (8 % 65536 = 0) = False := by decide
    simp only [h8, if_false, ho, Nat.lt_irrefl, gt_iff_lt]
    cases k with
    | zero =>
      simp only [Nat.add_zero, Nat.lt_irrefl, if_false, Nat.mul_zero, Nat.mod_eq_of_lt hlt]
      cases m with
      | zero => rfl
      | succ m => simp [List.replicate_succ, getOffset_loop]
    | succ k =>
      have hlt2 : i < i + (k + 1) := by omega
      rw [if_pos hlt2]
      have := ih (i + 1) k ((o + 8) % 65536) (by omega) (by omega) (Nat.mod_lt _ (by decide))
      rw [show i + (k + 1) = i + 1 + k by omega]
      rw [show (List.replicate m (some ffi_type_double)) =
        List.replicate m (some (⟨8, 8⟩ : ffi_type)) from rfl] at this
      rw [this]
      congr 1
      omega

theorem specOffset_doubles (n : Nat) : ∀ i, i < n →
    specOffset (List.replicate n ffi_type_double) i = 8 * i := by
  intro i
  induction i with
  | zero => intro _; rfl
  | succ i ih =>
    intro hi
    simp only [specOffset, ih (by omega)]
    rw [List.getD_eq_getElem _ _ (by simp; omega),
      List.getD_eq_getElem _ _ (by simpa using hi)]
    simp only [List.getElem_replicate, ffi_type_double]
    rw [alignUp_eq _ _ (by decide)]
    have : (8 * i + 8) % 8 = 0 := by omega
    rw [if_pos this]
    omega

/-- On a Complex whose members are `n` doubles `dynType_getOffset` returns
eight times the index, modulo 65536. -/
theorem dynType_getOffset_doubles (h : Heap) (type : Ptr) (n k : Nat)
    (hk : (h.at type).type = DynKind.COMPLEX)
    (hel : (h.at type).complex_elements = some (List.replicate n (some ffi_type_double)))
    (hlt : k < n) :
    dynType_getOffset h type (k : Int) = some ((8 * k) % 65536) := by
  rw [dynType_getOffset, if_pos hk, hel]
  have hneg : ¬ ((k : Int) < 0) := by omega
  simp only [if_neg hneg, Int.toNat_ofNat]
  have := getOffset_loop_doubles n 0 k 0 hlt rfl (by decide)
  rwa [Nat.zero_add, Nat.zero_add] at this

/-! ## Sequence values -/

theorem ptr_add_zero (p : Option Addr) : ptr_add p 0 = p := by
  cases p <;> rfl

theorem ptr_add_add (p : Option Addr) (a b : Nat) : ptr_add (ptr_add p a) b = ptr_add p (a + b) := by
  cases p with
  | none => rfl
  | some x => simp [ptr_add, Nat.add_assoc]

theorem toInt32_inj (a b : Nat) (ha : a < 4294967296) (hb : b < 4294967296)
    (hab : toInt32 a = toInt32 b) : a = b := by
  unfold toInt32 at hab
  rw [Nat.mod_eq_of_lt ha, Nat.mod_eq_of_lt hb] at hab
  split at hab <;> split at hab <;> omega

theorem toUInt32_toInt32 (a : Nat) (ha : a < 4294967296) : toUInt32 (toInt32 a) = a := by
  unfold toInt32 toUInt32
  rw [Nat.mod_eq_of_lt ha]
  split <;> omega

theorem toInt32_toUInt32 (i : Int) (h1 : -2147483648 ≤ i) (h2 : i < 2147483648) :
    toInt32 (toUInt32 i) = i := by
  unfold toInt32 toUInt32
  have h3 : (i % 4294967296).toNat < 4294967296 := by omega
  rw [Nat.mod_eq_of_lt h3]
  split <;> omega

theorem toUInt32_lt (i : Int) : toUInt32 i < 4294967296 := by
  unfold toUInt32
  omega

/-- The loop of `dynType_sequence_locForIndex` stops at the round whose counter
is the index: it has added the element size once for every round before. -/
theorem locForIndex_loop_hit (s : Nat) (u : Nat) : ∀ (n i : Nat) (v : Option Addr),
    i + n ≤ 4294967296 → i ≤ u → u < i + n →
    locForIndex_loop (toInt32 u) s n i v = ptr_add v ((u - i) * s) := by
  intro n
  induction n with
  | zero => intro i v _ h1 h2; omega
  | succ n ih =>
    intro i v hb h1 h2
    rw [locForIndex_loop]
    by_cases hu : u = i
    · subst hu
      simp [ptr_add_zero]
    · have hne : ¬ toInt32 u = toInt32 i := fun hc => hu (toInt32_inj u i (by omega) (by omega) hc)
      rw [if_neg hne, ih (i + 1) _ (by omega) (by omega) (by omega), ptr_add_add]
      congr 1
      have : u - i = (u - (i + 1)) + 1 := by omega
      rw [this, Nat.add_mul, Nat.one_mul, Nat.add_comm]

/-- The loop of `dynType_sequence_locForIndex` runs to the capacity when no
counter is the index. -/
theorem locForIndex_loop_miss (index : Int) (s : Nat) : ∀ (n i : Nat) (v : Option Addr),
    (∀ k, i ≤ k → k < i + n → index ≠ toInt32 k) →
    locForIndex_loop index s n i v = ptr_add v (n * s) := by
  intro n
  induction n with
  | zero => intro i v _; simp [locForIndex_loop, ptr_add_zero]
  | succ n ih =>
    intro i v hk
    rw [locForIndex_loop, if_neg (hk i (Nat.le_refl _) (by omega)),
      ih (i + 1) _ (fun k h1 h2 => hk k (by omega) (by omega)), ptr_add_add]
    congr 1
    rw [Nat.add_mul, Nat.one_mul, Nat.add_comm]

/-- What `dynType_sequence_locForIndex` returns on a sequence whose element
type has a layout: an error exactly when the index, read as an unsigned value,
is at least the capacity; the header and the memory are those of the call. -/
theorem dynType_sequence_locForIndex_eq (h : Heap) (type item : Ptr) (t : ffi_type)
    (seq : generic_sequence) (index : Int) (m : Mem)
    (hk : (h.at type).type = DynKind.SEQUENCE)
    (hi : (h.at type).sequence_itemType = some item) (ht : (h.at item).ffiType = some t)
    (hcap : seq.cap < 4294967296) (h1 : -2147483648 ≤ index) (h2 : index < 2147483648) :
    dynType_sequence_locForIndex h type (some seq) index m =
      some (if toUInt32 index ≥ seq.cap then Status.ERROR else Status.OK,
        ptr_add seq.buf (min (toUInt32 index) seq.cap * t.size), some seq, m) := by
  rw [dynType_sequence_locForIndex, if_pos hk]
  simp only [hi, ht]
  congr 2
  congr 1
  by_cases hc : toUInt32 index < seq.cap
  · have := locForIndex_loop_hit t.size (toUInt32 index) seq.cap 0 seq.buf (by omega)
      (Nat.zero_le _) (by omega)
    rw [toInt32_toUInt32 index h1 h2] at this
    rw [this, Nat.min_eq_left (Nat.le_of_lt hc), Nat.sub_zero]
  · rw [locForIndex_loop_miss index t.size seq.cap 0 seq.buf, Nat.min_eq_right (by omega)]
    intro k _ hk2 hc2
    apply hc
    rw [hc2, toUInt32_toInt32 k (by omega)]
    omega

/-- What `dynType_sequence_increaseLengthAndReturnLastLoc` returns on a
sequence whose element type has a layout. -/
theorem dynType_sequence_push_eq (h : Heap) (type item : Ptr) (t : ffi_type)
    (seq : generic_sequence) (valLoc : Option Addr) (m : Mem)
    (hk : (h.at type).type = DynKind.SEQUENCE)
    (hi : (h.at type).sequence_itemType = some item) (ht : (h.at item).ffiType = some t)
    (hcap : seq.cap < 4294967296) :
    dynType_sequence_increaseLengthAndReturnLastLoc h type (some seq) valLoc m =
      if seq.len < seq.cap then
        some (Status.OK, ptr_add seq.buf (seq.len * t.size),
          some { seq with len := seq.len + 1 }, m)
      else some (Status.ERROR, valLoc, some seq, m) := by
  rw [dynType_sequence_increaseLengthAndReturnLastLoc, if_pos hk]
  by_cases hl : seq.len < seq.cap
  · simp only [if_pos hl]
    have hlen : seq.len < 4294967296 := by omega
    have hi32 : -2147483648 ≤ toInt32 seq.len ∧ toInt32 seq.len < 2147483648 := by
      unfold toInt32
      rw [Nat.mod_eq_of_lt hlen]
      split <;> omega
    rw [dynType_sequence_locForIndex_eq h type item t
      { seq with len := (seq.len + 1) % 4294967296 } _ m hk hi ht hcap hi32.1 hi32.2]
    simp only [toUInt32_toInt32 _ hlen]
    rw [if_neg (by omega), Nat.min_eq_left (Nat.le_of_lt hl), Nat.mod_eq_of_lt (by omega)]
  · simp only [if_neg hl]

/-- A run of calls on a header with `len ≤ cap`: the calls succeed until the
length is the capacity, and fail from then on. -/
theorem push_run_eq (h : Heap) (type item : Ptr) (t : ffi_type) (m : Mem)
    (hk : (h.at type).type = DynKind.SEQUENCE)
    (hi : (h.at type).sequence_itemType = some item) (ht : (h.at item).ffiType = some t) :
    ∀ (k : Nat) (seq : generic_sequence), seq.cap < 4294967296 → seq.len ≤ seq.cap →
      push_run h type m k seq =
        some (List.replicate (min k (seq.cap - seq.len)) Status.OK ++
            List.replicate (k - (seq.cap - seq.len)) Status.ERROR,
          { seq with len := min (seq.len + k) seq.cap }) := by
  intro k
  induction k with
  | zero =>
    intro seq _ hle
    simp [push_run, Nat.min_eq_left hle]
  | succ k ih =>
    intro seq hcap hle
    rw [push_run, dynType_sequence_push_eq h type item t seq none m hk hi ht hcap]
    by_cases hl : seq.len < seq.cap
    · simp only [if_pos hl]
      rw [ih { seq with len := seq.len + 1 } hcap hl]
      have e1 : min (k + 1) (seq.cap - seq.len) = min k (seq.cap - (seq.len + 1)) + 1 := by
        omega
      have e2 : k + 1 - (seq.cap - seq.len) = k - (seq.cap - (seq.len + 1)) := by omega
      have e3 : min (seq.len + 1 + k) seq.cap = min (seq.len + (k + 1)) seq.cap := by
        rw [Nat.add_right_comm, Nat.add_assoc]
      simp only [Option.map_some', e1, e2, e3, List.replicate_succ, List.cons_append]
    · simp only [if_neg hl]
      have hz : seq.cap - seq.len = 0 := by omega
      have hm : min (seq.len + k) seq.cap = seq.len := by omega
      have hm2 : min (seq.len + (k + 1)) seq.cap = seq.len := by omega
      rw [ih seq hcap hle]
      simp [hz, hm, hm2, List.replicate_succ]

/-- What `dynType_sequence_alloc` returns on a sequence whose element type has
a layout, for a header that is there. -/
theorem dynType_sequence_alloc_eq (h : Heap) (type item : Ptr) (t : ffi_type)
    (seq : generic_sequence) (cap : Int) (ok : Bool) (out : Option Addr) (m : Mem)
    (hk : (h.at type).type = DynKind.SEQUENCE)
    (hi : (h.at type).sequence_itemType = some item) (ht : (h.at item).ffiType = some t) :
    dynType_sequence_alloc h type (some seq) cap ok out m =
      if ok = true then
        some (Status.OK, some ⟨toUInt32 cap, 0, some ⟨m.length, 0⟩⟩, some ⟨m.length, 0⟩,
          m ++ [List.replicate ((cap % 18446744073709551616).toNat * t.size) 0])
      else some (Status.MEM_ERROR, some { seq with buf := none, cap := 0 }, out, m) := by
  rw [dynType_sequence_alloc, if_pos hk]
  simp only [hi, dynType_size, ht, Option.map_some', calloc_bytes]
  cases ok <;> simp

/-! ## Text values -/

theorem takeWhile_append_nul (l : List Nat) :
    ((l.takeWhile fun b => b ≠ 0) ++ [0]).takeWhile (fun b => b ≠ 0) =
      l.takeWhile fun b => b ≠ 0 := by
  induction l with
  | nil => rfl
  | cons x xs ih =>
    by_cases hx : x = 0
    · have hp : ¬ (decide (x ≠ 0) = true) := by simp [hx]
      rw [List.takeWhile_cons_of_neg (p := fun b => decide (b ≠ 0)) hp]
      rfl
    · have hp : decide (x ≠ 0) = true := by simp [hx]
      rw [List.takeWhile_cons_of_pos (p := fun b => decide (b ≠ 0)) hp, List.cons_append,
        List.takeWhile_cons_of_pos (p := fun b => decide (b ≠ 0)) hp, ih]

theorem all_append_nul (l : List Nat) : (l ++ [0]).all (fun b => b ≠ 0) = false := by
  induction l with
  | nil => rfl
  | cons x xs ih =>
    rw [List.cons_append, List.all_cons, ih, Bool.and_false]

/-- What a text read as a C string tells of its block. -/
theorem cstring_at_some {m : Mem} {v : Addr} {s : List Nat}
    (hv : cstring_at m (some v) = some s) :
    ∃ blk, m.get? v.block = some blk ∧ ((blk.drop v.off).all fun b => b ≠ 0) = false ∧
      ((blk.drop v.off).takeWhile fun b => b ≠ 0) = s := by
  have hv2 : (match m.get? v.block with
      | none => none
      | some blk =>
        if (blk.drop v.off).all (fun b => b ≠ 0) then none
        else some ((blk.drop v.off).takeWhile fun b => b ≠ 0)) = some s := hv
  cases hg : m.get? v.block with
  | none => rw [hg] at hv2; exact absurd hv2 (by simp)
  | some blk =>
    rw [hg] at hv2
    dsimp only at hv2
    cases hall : (blk.drop v.off).all fun b => b ≠ 0 with
    | true => rw [hall] at hv2; exact absurd hv2 (by simp)
    | false =>
      rw [hall] at hv2
      exact ⟨blk, rfl, hall, Option.some.inj hv2⟩

theorem cstring_at_of_block (m : Mem) (v : Addr) (blk : List Nat)
    (hg : m.get? v.block = some blk)
    (hall : ((blk.drop v.off).all fun b => b ≠ 0) = false) :
    cstring_at m (some v) = some ((blk.drop v.off).takeWhile fun b => b ≠ 0) := by
  show (match m.get? v.block with
      | none => none
      | some blk =>
        if (blk.drop v.off).all (fun b => b ≠ 0) then none
        else some ((blk.drop v.off).takeWhile fun b => b ≠ 0)) = _
  rw [hg]
  dsimp only
  rw [hall]
  rfl

theorem get?_append_fresh {α : Type} (m : List α) (x : α) : (m ++ [x]).get? m.length = some x := by
  rw [List.get?_eq_getElem?, List.getElem?_append_right (Nat.le_refl _)]
  simp

theorem get?_append_old {α : Type} (m : List α) (x : α) (i : Nat) (y : α)
    (hg : m.get? i = some y) : (m ++ [x]).get? i = some y ∧ i < m.length := by
  have hlt : i < m.length := by
    by_contra hc
    rw [List.get?_eq_none.2 (Nat.le_of_not_lt hc)] at hg
    exact absurd hg (by simp)
  refine ⟨?_, hlt⟩
  rw [List.get?_eq_getElem?, List.getElem?_append_left hlt, ← List.get?_eq_getElem?, hg]

/-! ## Writing a field -/

theorem ffi_struct_cursor_ge : ∀ (ts : List ffi_type) (o : Nat), (∀ t ∈ ts, 0 < t.alignment) →
    o ≤ ffi_struct_cursor (ts.map some) o := by
  intro ts
  induction ts with
  | nil => intro o _; exact Nat.le_refl _
  | cons t ts ih =>
    intro o hal
    have h1 := alignUp_ge o t.alignment (hal t (List.mem_cons_self _ _))
    have h2 := ih (alignUp o t.alignment + t.size) (fun x hx => hal x (List.mem_cons_of_mem _ hx))
    simp only [List.map_cons, ffi_struct_cursor]
    unfold alignUp at h1 h2
    omega

/-- The cursor of the packing rule after all members is at least the end of
every member. -/
theorem specOffsetFrom_le_cursor : ∀ (ts : List ffi_type) (k o : Nat), k < ts.length →
    (∀ t ∈ ts, 0 < t.alignment) →
    specOffsetFrom ts k o + (ts.getD k ⟨0, 0⟩).size ≤ ffi_struct_cursor (ts.map some) o := by
  intro ts
  induction ts with
  | nil => intro k o hk; simp at hk
  | cons t ts ih =>
    intro k o hk hal
    have hal2 : ∀ x ∈ ts, 0 < x.alignment := fun x hx => hal x (List.mem_cons_of_mem _ hx)
    cases k with
    | zero =>
      have := ffi_struct_cursor_ge ts (alignUp o t.alignment + t.size) hal2
      simp only [List.map_cons, ffi_struct_cursor, specOffsetFrom, List.getD_cons_zero]
      unfold alignUp at this ⊢
      exact this
    | succ k =>
      have := ih k (alignUp o t.alignment + t.size) (by simpa using hk) hal2
      simp only [List.map_cons, ffi_struct_cursor, specOffsetFrom, List.getD_cons_succ]
      unfold alignUp at this ⊢
      exact this

theorem ffi_struct_alignment_pos (es : List (Option ffi_type)) : 0 < ffi_struct_alignment es := by
  induction es with
  | nil => exact Nat.one_pos
  | cons e es ih =>
    cases e with
    | none => exact Nat.one_pos
    | some t =>
      simp only [ffi_struct_alignment]
      omega

/-- Every field ends inside the layout of the packing rule. -/
theorem specOffset_end_le_size (fs : List ffi_type) (i : Nat) (hi : i < fs.length)
    (hal : ∀ t ∈ fs, 0 < t.alignment) :
    specOffset fs i + (fs.getD i ⟨0, 0⟩).size ≤ (ffi_prep_struct (fs.map some)).size := by
  have h1 := specOffsetFrom_le_cursor fs i 0 hi hal
  rw [← specOffset_eq_specOffsetFrom fs i hi] at h1
  have h2 := alignUp_ge (ffi_struct_cursor (fs.map some) 0) _
    (ffi_struct_alignment_pos (fs.map some))
  unfold alignUp at h2
  simp only [ffi_prep_struct]
  omega

/-- A field ends where the next ones start, or before. -/
theorem specOffset_end_le (fs : List ffi_type) (hal : ∀ t ∈ fs, 0 < t.alignment) (i j : Nat)
    (hij : i < j) (hj : j < fs.length) :
    specOffset fs i + (fs.getD i ⟨0, 0⟩).size ≤ specOffset fs j := by
  have h1 := specOffset_mono fs hal j hj (i + 1) hij
  have ha : 0 < (fs.getD (i + 1) ⟨0, 0⟩).alignment := by
    apply hal
    rw [List.getD_eq_getElem _ _ (by omega)]
    exact List.getElem_mem _
  have h2 := alignUp_ge (specOffset fs i + (fs.getD i ⟨0, 0⟩).size) _ ha
  have h3 : specOffset fs (i + 1) =
      alignUp (specOffset fs i + (fs.getD i ⟨0, 0⟩).size) (fs.getD (i + 1) ⟨0, 0⟩).alignment := rfl
  omega

/-- The copy of `n` bytes between two blocks. -/
theorem memcpy_blocks (m : Mem) (B S o so n : Nat) (db sb : List Nat)
    (hB : m.get? B = some db) (hS : m.get? S = some sb) (hne : B ≠ S)
    (hd : o + n ≤ db.length) (hs : so + n ≤ sb.length) :
    memcpy m (some ⟨B, o⟩) (some ⟨S, so⟩) n =
      some (m.set B (db.take o ++ ((sb.drop so).take n ++ db.drop (o + n)))) := by
  simp only [memcpy]
  rw [hB, hS]
  dsimp only
  rw [if_pos ⟨hd, hs, fun hc => absurd hc hne⟩]

/-- The block written by a copy: the bytes copied are at their place, the
others are as they were. -/
theorem patch_spec (db bytes : List Nat) (o : Nat) (hd : o + bytes.length ≤ db.length) :
    (db.take o ++ (bytes ++ db.drop (o + bytes.length))).length = db.length ∧
    ((db.take o ++ (bytes ++ db.drop (o + bytes.length))).drop o).take bytes.length = bytes ∧
    ∀ a, a < o ∨ o + bytes.length ≤ a →
      (db.take o ++ (bytes ++ db.drop (o + bytes.length))).getD a 0 = db.getD a 0 := by
  have hto : (db.take o).length = o := by rw [List.length_take]; omega
  refine ⟨?_, ?_, ?_⟩
  · simp only [List.length_append, List.length_take, List.length_drop]
    omega
  · rw [List.drop_append_of_le_length (by omega), List.drop_of_length_le (by omega),
      List.nil_append, List.take_append_of_le_length (Nat.le_refl _), List.take_length]
  · intro a ha
    rw [List.getD_eq_getElem?_getD, List.getD_eq_getElem?_getD]
    rcases ha with ha | ha
    · rw [List.getElem?_append_left (by omega), List.getElem?_take_of_lt ha]
    · rw [List.getElem?_append_right (by omega), List.getElem?_append_right (by omega),
        List.getElem?_drop, hto]
      congr 2
      omega

/-- What `dynType_complex_setValueAt` does where the member `i` has the layout
`t` and the offset computed for it is `off`: it copies `t.size` bytes to the
address `off` bytes after the start of the instance. -/
theorem dynType_complex_setValueAt_eq (h : Heap) (type : Ptr) (es : List (Option ffi_type))
    (i off : Nat) (t : ffi_type) (start inp : Option Addr) (m : Mem)
    (hk : (h.at type).type = DynKind.COMPLEX)
    (hel : (h.at type).complex_elements = some es) (hg : es.get? i = some (some t))
    (ho : dynType_getOffset h type (i : Int) = some off) :
    dynType_complex_setValueAt h type (i : Int) start inp m =
      memcpy m (ptr_add start off) inp t.size := by
  rw [dynType_complex_setValueAt, if_pos hk, ho]
  dsimp only
  rw [hel]
  dsimp only
  have hneg : ¬ ((i : Int) < 0) := by omega
  rw [if_neg hneg, Int.toNat_ofNat, hg]

theorem ffi_struct_cursor_doubles : ∀ (n o : Nat), o % 8 = 0 →
    ffi_struct_cursor (List.replicate n (some ffi_type_double)) o = o + 8 * n := by
  intro n
  induction n with
  | zero => intro o _; rfl
  | succ n ih =>
    intro o ho
    simp only [List.replicate_succ, ffi_struct_cursor, ffi_type_double]
    have e : (o + 8 - 1) / 8 * 8 = o := by omega
    rw [e]
    have := ih (o + 8) (by omega)
    rw [show List.replicate n (some ffi_type_double) =
      List.replicate n (some (⟨8, 8⟩ : ffi_type)) from rfl] at this
    rw [this]
    omega

theorem ffi_struct_alignment_doubles (n : Nat) (hn : 1 ≤ n) :
    ffi_struct_alignment (List.replicate n (some ffi_type_double)) = 8 := by
  induction n with
  | zero => omega
  | succ n ih =>
    simp only [List.replicate_succ, ffi_struct_alignment, ffi_type_double]
    rcases Nat.eq_zero_or_pos n with h0 | h0
    · subst h0; rfl
    · have := ih h0
      rw [show List.replicate n (some ffi_type_double) =
        List.replicate n (some (⟨8, 8⟩ : ffi_type)) from rfl] at this
      rw [this]
      rfl

/-- The layout of a Complex of `n ≥ 1` doubles: size `8 * n`, alignment 8. -/
theorem ffi_prep_struct_doubles (n : Nat) (hn : 1 ≤ n) :
    ffi_prep_struct (List.replicate n (some ffi_type_double)) = ⟨8 * n, 8⟩ := by
  simp only [ffi_prep_struct, ffi_struct_cursor_doubles n 0 rfl, ffi_struct_alignment_doubles n hn]
  congr 1
  omega

/-! ## The last field of a name -/

theorem indexForName_loop_last (s : List Char) :
    ∀ (es pre : List complex_type_entry) (index : Int), (∀ e ∈ es, e.name ≠ none) →
      IndexLast s pre index →
      ∃ idx, indexForName_loop s es pre.length index = some idx ∧ IndexLast s (pre ++ es) idx := by
  intro es
  induction es with
  | nil =>
    intro pre index _ hg
    exact ⟨index, rfl, by simpa using hg⟩
  | cons e es ih =>
    intro pre index hn hg
    obtain ⟨n, hen⟩ : ∃ n, e.name = some n := by
      cases hx : e.name with
      | none => exact absurd hx (hn e (List.mem_cons_self _ _))
      | some n => exact ⟨n, rfl⟩
    have hstep : IndexLast s (pre ++ [e]) (if s = n then (pre.length : Int) else index) := by
      by_cases hs : s = n
      · rw [if_pos hs]
        right
        refine ⟨pre.length, rfl, by simp [hen, hs], ?_⟩
        intro k hk
        rw [List.get?_eq_none.2 (by simp; omega)]
        simp
      · rw [if_neg hs]
        rcases hg with ⟨h1, h2⟩ | ⟨j, h1, h2, h3⟩
        · left
          refine ⟨h1, ?_⟩
          intro x hx
          rcases List.mem_append.1 hx with hx | hx
          · exact h2 x hx
          · rw [List.mem_singleton.1 hx, hen]
            intro hc
            exact hs (Option.some.inj hc).symm
        · right
          have hj : j < pre.length := by
            by_contra hc
            rw [List.get?_eq_none.2 (Nat.le_of_not_lt hc)] at h2
            simp at h2
          refine ⟨j, h1, ?_, ?_⟩
          · rw [List.get?_eq_getElem?, List.getElem?_append_left hj, ← List.get?_eq_getElem?]
            exact h2
          · intro k hk
            by_cases hkl : k < pre.length
            · rw [List.get?_eq_getElem?, List.getElem?_append_left hkl, ← List.get?_eq_getElem?]
              exact h3 k hk
            · by_cases hke : k = pre.length
              · subst hke
                simp only [List.get?_eq_getElem?, List.getElem?_concat_length, Option.map_some',
                  hen, ne_eq, Option.some.injEq]
                exact fun hc => hs hc.symm
              · rw [List.get?_eq_none.2 (by simp; omega)]
                simp
    have := ih (pre ++ [e]) _ (fun x hx => hn x (List.mem_cons_of_mem _ hx)) hstep
    rw [indexForName_loop, hen]
    simpa using this

/-! ## Name resolution without an external scope -/

theorem findType_scan_firstNamed (h : Heap) (n : List Char) (ps : List Ptr)
    (hps : ∀ p ∈ ps, (h.at p).name ≠ none) :
    findType_scan h n ps = some (firstNamed h n ps) := by
  induction ps with
  | nil => rfl
  | cons p ps ih =>
    obtain ⟨m, hm⟩ : ∃ m, (h.at p).name = some m := by
      cases hx : (h.at p).name with
      | none => exact absurd hx (hps p (List.mem_cons_self _ _))
      | some m => exact ⟨m, rfl⟩
    rw [findType_scan, hm]
    by_cases hn : n = m
    · subst hn
      simp [firstNamed, hm]
    · have hne : ¬ (h.at p).name = some n := by
        rw [hm]
        exact fun hc => hn (Option.some.inj hc).symm
      simp only [if_neg hn]
      rw [ih fun q hq => hps q (List.mem_cons_of_mem _ hq)]
      simp [firstNamed, hne]

theorem scopeScan_plainNode (h : Heap) (x : Ptr) (n : List Char) (hx : PlainNode h x) :
    scopeScan h x n = some none := by
  unfold scopeScan
  rcases hx.1 with h1 | h1
  · rw [h1]
  · rw [h1]
    rfl

theorem dynType_findType_plainNode (fuel : Nat) (h : Heap) (x : Ptr) (n : List Char)
    (hx : PlainNode h x) :
    dynType_findType (fuel + 1) h x n =
      match firstNamed h n (h.at x).nestedTypesHead with
      | some t => some (some t)
      | none =>
        match (h.at x).parent with
        | some parent => dynType_findType fuel h parent n
        | none => some none := by
  have hs := scopeScan_plainNode h x n hx
  have hn := findType_scan_firstNamed h n _ hx.2
  cases hf : firstNamed h n (h.at x).nestedTypesHead with
  | some t =>
    rw [hf] at hn
    exact dynType_findType_nested fuel h x n t hs hn
  | none =>
    rw [hf] at hn
    cases hp : (h.at x).parent with
    | some y => exact dynType_findType_parent fuel h x y n hs hn hp
    | none => exact dynType_findType_none fuel h x n hs hn hp

/-! ## Field offsets modulo 65536 -/

theorem alignUp_mod (x a : Nat) (ha : 0 < a) (hd : a ∣ 65536) :
    (if x % 65536 % a > 0 then (x % 65536 + (a - x % 65536 % a)) % 65536 else x % 65536) =
      alignUp x a % 65536 := by
  rw [Nat.mod_mod_of_dvd x hd, alignUp_eq x a ha]
  by_cases h0 : x % a = 0
  · simp [h0]
  · rw [if_neg h0, if_pos (Nat.pos_of_ne_zero h0), Nat.mod_add_mod]

/-- The loop of `dynType_getOffset` follows the packing rule modulo 65536 when
every alignment divides 65536. -/
theorem getOffset_loop_mod : ∀ (ts : List ffi_type) (i k x : Nat),
    (∀ t ∈ ts, 0 < t.alignment ∧ t.alignment < 65536 ∧ t.alignment ∣ 65536) → k < ts.length →
    getOffset_loop (i + k) (ts.map some) i (x % 65536) =
      some (specOffsetFrom ts k x % 65536) := by
  intro ts
  induction ts with
  | nil => intro i k x _ hk; simp at hk
  | cons t ts ih =>
    intro i k x hal hk
    obtain ⟨ht0, ht1, ht2⟩ := hal t (List.mem_cons_self _ _)
    have hal2 : ∀ y ∈ ts, 0 < y.alignment ∧ y.alignment < 65536 ∧ y.alignment ∣ 65536 :=
      fun y hy => hal y (List.mem_cons_of_mem _ hy)
    have hmod : t.alignment % 65536 = t.alignment := Nat.mod_eq_of_lt ht1
    have hne : ¬ t.alignment = 0 := by omega
    simp only [List.map_cons, getOffset_loop, hmod, if_neg hne, Nat.le_add_right, if_true,
      alignUp_mod x t.alignment ht0 ht2]
    cases k with
    | zero =>
      simp only [Nat.add_zero, Nat.lt_irrefl, if_false, specOffsetFrom]
      cases ts with
      | nil => rfl
      | cons t2 ts2 => simp [getOffset_loop]
    | succ k =>
      simp only [specOffsetFrom]
      have hlt : i < i + (k + 1) := by omega
      rw [if_pos hlt, Nat.mod_add_mod]
      have := ih (i + 1) k (alignUp x t.alignment + t.size) hal2 (by simpa using hk)
      rw [show i + (k + 1) = i + 1 + k by omega]
      exact this

theorem dynType_getOffset_mod (h : Heap) (type : Ptr) (fs : List ffi_type) (i : Nat)
    (hk : (h.at type).type = DynKind.COMPLEX)
    (hel : (h.at type).complex_elements = some (fs.map some))
    (hal : ∀ t ∈ fs, 0 < t.alignment ∧ t.alignment < 65536 ∧ t.alignment ∣ 65536)
    (hi : i < fs.length) :
    dynType_getOffset h type (i : Int) = some (specOffset fs i % 65536) := by
  rw [dynType_getOffset, if_pos hk, hel]
  have hneg : ¬ ((i : Int) < 0) := by omega
  simp only [if_neg hneg, Int.toNat_ofNat]
  have := getOffset_loop_mod fs 0 i 0 hal hi
  rw [Nat.zero_add, Nat.zero_mod] at this
  rw [this, specOffset_eq_specOffsetFrom fs i hi]

theorem pow_two_layout (a k : Nat) (hk : k < 16) (ha : a = 2 ^ k) :
    0 < a ∧ a < 65536 ∧ a ∣ 65536 := by
  subst ha
  refine ⟨Nat.pos_pow_of_pos k (by decide), ?_, ?_⟩
  · exact Nat.pow_lt_pow_right (by decide) hk
  · exact pow_dvd_pow 2 (Nat.le_of_lt hk)

/-! ## The descriptor character of a node -/

theorem Heap.descriptor_upd (h : Heap) (p : Ptr) (f : dyn_type → dyn_type)
    (hf : ∀ t, (f t).descriptor = t.descriptor) :
    ((h.upd p f).at p).descriptor = (h.at p).descriptor := by
  by_cases hp : p < h.length
  · rw [Heap.at_upd_same h p f hp]
    exact hf _
  · have : h.upd p f = h := by
      simp only [Heap.upd]
      exact List.set_eq_of_length_le (Nat.le_of_not_lt hp)
    rw [this]

theorem parseComplex_entries_descriptor : ∀ (fuel : Nat) (c : Option Char) (stream : FILE)
    (type : Ptr) (status : Status) (h : Heap) (r : Option Char × FILE × Status × Heap),
    parseComplex_entries fuel c stream type status h = some r → type < h.length →
      (r.2.2.2.at type).descriptor = (h.at type).descriptor := by
  intro fuel
  induction fuel with
  | zero => intro _ _ _ _ _ _ hr; simp [parseComplex_entries] at hr
  | succ n ih =>
    intro c stream type status h r hr hp
    rw [parseComplex_entries] at hr
    split at hr
    · simp only [calloc] at hr
      split at hr
      · exact absurd hr (by simp)
      · rename_i st s2 h2 heq
        have hne : type ≠ h.length := Nat.ne_of_lt hp
        have f := (frameInv n).2.1 _ _ _ _ heq (by simp [Heap.length_upd])
        have hl : type < h.length + 1 := Nat.lt_succ_of_lt hp
        have e1 := f.2.1 type (by simpa [Heap.length_upd] using hl) hne
        rw [ih _ _ _ _ _ _ hr (Nat.lt_of_lt_of_le (by simpa [Heap.length_upd] using hl) f.1), e1,
          Heap.descriptor_upd, Heap.at_upd_ne _ _ _ _ hne, Heap.at_append_lt _ _ _ hp]
        intro _; rfl
    · cases hr; rfl

theorem parseComplex_names_descriptor (type : Ptr) (es : List complex_type_entry) :
    ∀ (i : Nat) (c : Option Char) (stream : FILE) (status : Status) (h : Heap),
      ((parseComplex_names type es i c stream status h).2.2.2.at type).descriptor =
        (h.at type).descriptor := by
  induction es with
  | nil => intro i c stream status h; rfl
  | cons e es ih =>
    intro i c stream status h
    rw [parseComplex_names]
    split
    · split
      · dsimp only
        generalize fgetc _ = p
        obtain ⟨c2, s2⟩ := p
        rw [ih, Heap.descriptor_upd]
        intro _; rfl
      · rfl
    · rfl

theorem parseComplex_finish_descriptor (type : Ptr) (status : Status) (h : Heap) :
    ((parseComplex_finish type status h).2.at type).descriptor = (h.at type).descriptor := by
  unfold parseComplex_finish
  split
  · dsimp only
    rw [Heap.descriptor_upd, Heap.descriptor_upd, Heap.descriptor_upd]
    all_goals intro _; rfl
  · rfl

theorem dynType_parseComplex_descriptor (fuel : Nat) (stream : FILE) (type : Ptr) (h : Heap)
    (r : Status × FILE × Heap) (hr : dynType_parseComplex fuel stream type h = some r)
    (hp : type < h.length) : (r.2.2.at type).descriptor = some '{' := by
  cases fuel with
  | zero => simp [dynType_parseComplex] at hr
  | succ n =>
    rw [dynType_parseComplex] at hr
    simp only at hr
    split at hr
    · exact absurd hr (by simp)
    · rename_i c2 s2 st2 h2 heq
      cases hr
      rw [parseComplex_finish_descriptor, parseComplex_names_descriptor,
        parseComplex_entries_descriptor _ _ _ _ _ _ _ heq (by simpa [Heap.length_upd] using hp),
        Heap.at_upd_same _ _ _ hp]

theorem dynType_parseSequence_descriptor (fuel : Nat) (stream : FILE) (type : Ptr) (h : Heap)
    (r : Status × FILE × Heap) (hr : dynType_parseSequence fuel stream type h = some r)
    (hp : type < h.length) : (r.2.2.at type).descriptor = some '[' := by
  cases fuel with
  | zero => simp [dynType_parseSequence] at hr
  | succ n =>
    rw [dynType_parseSequence] at hr
    simp only at hr
    split at hr
    · exact absurd hr (by simp)
    · rename_i st it s2 h2 heq
      have e := (frameInv n).1 _ _ _ _ _ _ _ heq
      have e1 := e.2 type (by simpa [Heap.length_upd] using hp)
      split at hr
      · cases hr
        dsimp only
        rw [Heap.descriptor_upd, Heap.descriptor_upd, e1, Heap.at_upd_same _ _ _ hp]
        all_goals intro _; rfl
      · cases hr
        dsimp only
        rw [Heap.descriptor_upd, e1, Heap.at_upd_same _ _ _ hp]
        intro _; rfl

theorem dynType_parseTypedPointer_descriptor (fuel : Nat) (stream : FILE) (type : Ptr)
    (h : Heap) (r : Status × FILE × Heap)
    (hr : dynType_parseTypedPointer fuel stream type h = some r) (hp : type < h.length) :
    (r.2.2.at type).descriptor = some '*' := by
  cases fuel with
  | zero => simp [dynType_parseTypedPointer] at hr
  | succ n =>
    rw [dynType_parseTypedPointer] at hr
    split at hr
    · exact absurd hr (by simp)
    · rename_i st it s2 h2 heq
      have e := (frameInv n).1 _ _ _ _ _ _ _ heq
      have e1 := e.2 type (by simpa [Heap.length_upd] using hp)
      cases hr
      dsimp only
      rw [Heap.descriptor_upd, e1, Heap.at_upd_same _ _ _ hp]
      intro _; rfl

theorem dynType_parseRefByValue_descriptor (fuel : Nat) (stream : FILE) (type : Ptr) (h : Heap)
    (r : Status × FILE × Heap) (hr : dynType_parseRefByValue fuel stream type h = some r)
    (hp : type < h.length) : (r.2.2.at type).descriptor = some 'l' := by
  unfold dynType_parseRefByValue at hr
  simp only at hr
  have d1 : ((h.upd type fun t => { t with type := DynKind.REF, descriptor := some 'l' }).at
      type).descriptor = some 'l' := by
    rw [Heap.at_upd_same _ _ _ hp]
  split at hr
  · split at hr
    · exact absurd hr (by simp)
    · have d2 : ∀ ref : Ptr, (((h.upd type fun t =>
          { t with type := DynKind.REF, descriptor := some 'l' }).upd type
            fun t => { t with ref_ref := some ref }).at type).descriptor = some 'l' := by
        intro ref
        rw [Heap.descriptor_upd, d1]
        intro _; rfl
      split at hr <;> cases hr <;> exact d2 _
    · cases hr; exact d1
  · cases hr; exact d1

theorem dynType_parseReference_descriptor (fuel : Nat) (stream : FILE) (type : Ptr) (h : Heap)
    (r : Status × FILE × Heap) (hr : dynType_parseReference fuel stream type h = some r)
    (hp : type < h.length) : (r.2.2.at type).descriptor = some '*' := by
  unfold dynType_parseReference at hr
  simp only [calloc] at hr
  have hne : type ≠ h.length := Nat.ne_of_lt hp
  have f := dynType_parseRefByValue_frame _ _ _ _ _ hr
  have hl : type < h.length + 1 := Nat.lt_succ_of_lt hp
  have e1 := f.2.1 type (by simpa [Heap.length_upd] using hl)
    (by simpa [Heap.length_upd] using hne)
  rw [e1, Heap.at_upd_ne _ _ _ _ (by simpa [Heap.length_upd] using hne),
    Heap.descriptor_upd, Heap.at_append_lt _ _ _ (by simpa [Heap.length_upd] using hp),
    Heap.at_upd_same _ _ _ hp]
  intro _; rfl

/-! ## The printer on a type that refers back to itself -/

/-- A sequence whose element type is a reference back to the sequence: the
printer goes from the sequence to the element and from the element, through the
reference, to the sequence again, whatever the fuel. -/
theorem dynType_printSequence_cycle (h : Heap) (s e : Ptr) (t : ffi_type)
    (hs : (h.at s).type = DynKind.SEQUENCE) (hf : (h.at s).ffiType = some t)
    (hi : (h.at s).sequence_itemType = some e) (he : (h.at e).type = DynKind.REF)
    (hr : (h.at e).ref_ref = some s) :
    ∀ fuel name depth out,
      dynType_printSequence fuel h name s depth out = PrintRun.more ∧
      dynType_printAny fuel h name (some e) depth out = PrintRun.more := by
  intro fuel
  induction fuel with
  | zero => intro name depth out; exact ⟨rfl, rfl⟩
  | succ n ih =>
    intro name depth out
    constructor
    · rw [dynType_printSequence]
      simp only [hf, hi]
      exact (ih _ _ _).2
    · rw [dynType_printAny]
      simp only [he, hr, hs, if_true]
      simp only [reduceCtorEq, if_false]
      exact (ih _ _ _).1

/-- A typed pointer whose pointee is a reference back to the pointer: the
printer goes from the pointer to the pointee and from the pointee, through the
reference, to the pointer again, whatever the fuel. -/
theorem dynType_printTypedPointer_cycle (h : Heap) (p e : Ptr) (t : ffi_type)
    (hp : (h.at p).type = DynKind.TYPED_POINTER) (hf : (h.at p).ffiType = some t)
    (hi : (h.at p).typedPointer_typedType = some e) (he : (h.at e).type = DynKind.REF)
    (hr : (h.at e).ref_ref = some p) :
    ∀ fuel name depth out,
      dynType_printTypedPointer fuel h name p depth out = PrintRun.more ∧
      dynType_printAny fuel h name (some e) depth out = PrintRun.more := by
  intro fuel
  induction fuel with
  | zero => intro name depth out; exact ⟨rfl, rfl⟩
  | succ n ih =>
    intro name depth out
    constructor
    · rw [dynType_printTypedPointer]
      simp only [hf, hi]
      exact (ih _ _ _).2
    · rw [dynType_printAny]
      simp only [he, hr, hp, if_true]
      simp only [reduceCtorEq, if_false]
      exact (ih _ _ _).1

/-- The run of `dynType_print` on a root that `dynType_printAny` never leaves,
after a `dynType_printTypes` that does not dereference `NULL`. -/
theorem dynType_print_more (fuel : Nat) (h : Heap) (root : Ptr) (out : List PrintLine)
    (ht : dynType_printTypes fuel h (some root) out ≠ PrintRun.fault)
    (ha : ∀ name depth out, dynType_printAny fuel h name (some root) depth out = PrintRun.more) :
    dynType_print fuel h (some root) out = PrintRun.more := by
  unfold dynType_print
  cases hx : dynType_printTypes fuel h (some root) out with
  | printed o => exact ha _ _ _
  | fault => exact absurd hx ht
  | more => rfl

/-! ## The layout that the program composes -/

/-- On members of positive size and alignment `initialize_aggregate` follows
the packing rule: it never stops early, the size is the cursor rounded up and
the alignment the maximum of the alignments. -/
theorem initialize_aggregate_packing : ∀ (fs : List ffi_type) (o a : Nat),
    (∀ t ∈ fs, 0 < t.size ∧ 0 < t.alignment) → (fs ≠ [] ∨ 1 ≤ a) →
    initialize_aggregate (fs.map some) ⟨o, a⟩ =
      ⟨(ffi_struct_cursor (fs.map some) o + max a (ffi_struct_alignment (fs.map some)) - 1) /
          max a (ffi_struct_alignment (fs.map some)) * max a (ffi_struct_alignment (fs.map some)),
        max a (ffi_struct_alignment (fs.map some))⟩ := by
  intro fs
  induction fs with
  | nil =>
    intro o a _ ha
    have h1 : 1 ≤ a := by
      rcases ha with ha | ha
      · exact absurd rfl ha
      · exact ha
    have h0 : ¬ a = 0 := by omega
    simp only [List.map_nil, initialize_aggregate, FFI_ALIGN, if_neg h0, ffi_struct_cursor,
      ffi_struct_alignment, Nat.max_eq_left h1]
  | cons t ts ih =>
    intro o a hs _
    obtain ⟨ht1, ht2⟩ := hs t (List.mem_cons_self _ _)
    have hz : ¬ t.size = 0 := by omega
    have hz2 : ¬ t.alignment = 0 := by omega
    have := ih (FFI_ALIGN o t.alignment + t.size) (max a t.alignment)
      (fun x hx => hs x (List.mem_cons_of_mem _ hx))
      (Or.inr (Nat.le_trans ht2 (Nat.le_max_right _ _)))
    simp only [List.map_cons, initialize_aggregate, if_neg hz, ffi_struct_cursor,
      ffi_struct_alignment, this, Nat.max_assoc]
    simp only [FFI_ALIGN, if_neg hz2]

/-- What `dynType_prepCif` leaves in an aggregate is the layout of the packing
rule when the member array is not empty and every member has a positive size
and alignment. -/
theorem dynType_prepCif_packing (fs : List ffi_type) (hne : fs ≠ [])
    (hs : ∀ t ∈ fs, 0 < t.size ∧ 0 < t.alignment) :
    dynType_prepCif (fs.map some) = ffi_prep_struct (fs.map some) := by
  rw [dynType_prepCif, initialize_aggregate_packing fs 0 0 hs (Or.inl hne), ffi_prep_struct]
  simp only [Nat.zero_max]

/-- The layout of a Complex of `n ≥ 1` doubles, as the program composes it:
size `8 * n`, alignment 8. -/
theorem dynType_prepCif_doubles (n : Nat) (hn : 1 ≤ n) :
    dynType_prepCif (List.replicate n (some ffi_type_double)) = ⟨8 * n, 8⟩ := by
  have hm : List.replicate n (some ffi_type_double) =
      (List.replicate n ffi_type_double).map some := by
    rw [List.map_replicate]
  rw [hm, dynType_prepCif_packing _ (by
      intro hc
      have := congrArg List.length hc
      rw [List.length_replicate] at this
      simp only [List.length_nil] at this
      omega)
    (fun t ht => by rw [(List.mem_replicate.1 ht).2]; decide), ← hm]
  exact ffi_prep_struct_doubles n hn

/-! ## The counter of the sequence loop -/

/-- While the counter stays within the range of `int`, the loop of
`dynType_sequence_locForIndex` does not depend on how an overflow is read. -/
theorem locForIndex_loop_strict_eq (index : Int) (s : Nat) : ∀ (n i : Nat) (v : Option Addr),
    i + n ≤ 2147483647 →
    locForIndex_loop_strict index s n (i : Int) v = some (locForIndex_loop index s n i v) := by
  intro n
  induction n with
  | zero => intro i v _; rfl
  | succ n ih =>
    intro i v hb
    have ht : toInt32 i = (i : Int) := by
      unfold toInt32
      omega
    rw [locForIndex_loop_strict, locForIndex_loop, ht]
    by_cases hx : index = (i : Int)
    · rw [if_pos hx, if_pos hx]
    · have hm : ¬ ((i : Int) = 2147483647) := by omega
      rw [if_neg hx, if_neg hx, if_neg hm]
      have := ih (i + 1) (ptr_add v s) (by omega)
      rw [Nat.cast_add, Nat.cast_one] at this
      exact this

/-- With a negative index the loop never meets the index: read without
wrapping, it has no result once the rounds take the counter past `INT_MAX`. -/
theorem locForIndex_loop_strict_overflow (index : Int) (s : Nat) (hneg : index < 0) :
    ∀ (n i : Nat) (v : Option Addr), i ≤ 2147483647 → 2147483647 - i < n →
      locForIndex_loop_strict index s n (i : Int) v = none := by
  intro n
  induction n with
  | zero => intro i v _ h2; omega
  | succ n ih =>
    intro i v h1 h2
    have hx : ¬ index = (i : Int) := by omega
    rw [locForIndex_loop_strict, if_neg hx]
    by_cases hm : (i : Int) = 2147483647
    · rw [if_pos hm]
    · rw [if_neg hm]
      have := ih (i + 1) (ptr_add v s) (by omega) (by omega)
      rw [Nat.cast_add, Nat.cast_one] at this
      exact this

/-! ## The dispatches of a parse -/

/-- When `dynType_parseAny` dispatches on the character `c` at a node and
returns `OK`, the descriptor character of the node is `c`, or `*` when `c` is
`L`. -/
theorem dynType_parseAny_descriptor (fuel : Nat) (c : Char) (rest : FILE) (type : Ptr)
    (h : Heap) (s' : FILE) (h' : Heap) (hc : c ≠ 'T') (hp : type < h.length)
    (hr : dynType_parseAny fuel (c :: rest) type h = some (Status.OK, s', h')) :
    (h'.at type).descriptor = some (if c = 'L' then '*' else c) := by
  cases fuel with
  | zero => simp [dynType_parseAny] at hr
  | succ n =>
    rw [dynType_parseAny] at hr
    simp only [fgetc, Option.some.injEq] at hr
    rw [if_neg hc] at hr
    split_ifs at hr with h1 h2 h3 h4 h5 h6
    · rw [if_pos h1]
      exact dynType_parseReference_descriptor _ _ _ _ _ hr hp
    · rw [if_neg h1, h2]
      exact dynType_parseRefByValue_descriptor _ _ _ _ _ hr hp
    · rw [if_neg h1, h3]
      exact dynType_parseComplex_descriptor _ _ _ _ _ hr hp
    · rw [if_neg h1, h4]
      exact dynType_parseSequence_descriptor _ _ _ _ _ hr hp
    · rw [if_neg h1, h5]
      exact dynType_parseTypedPointer_descriptor _ _ _ _ _ hr hp
    · rw [if_neg h1, h6]
      cases hr
      rw [Heap.at_upd_same _ _ _ hp]
    · rw [if_neg h1]
      unfold dynType_parseSimple at hr
      split at hr
      · cases hr
        rw [Heap.at_upd_same _ _ _ hp]
      · simp at hr

/-- A dispatch stays what it is while the rest of the parse runs at another
node. -/
theorem Dispatched.frame {h1 h2 : Heap} {d : Ptr × Char} (a : Dispatched h1 d) {p : Ptr}
    (f : Frame p h1 h2) (hne : d.1 ≠ p) : Dispatched h2 d :=
  ⟨Nat.lt_of_lt_of_le a.1 f.1, by rw [f.2.1 d.1 a.1 hne]; exact a.2⟩

/-- A dispatch stays what it is under a write to another node. -/
theorem Dispatched.upd {h1 : Heap} {d : Ptr × Char} (a : Dispatched h1 d) (p : Ptr)
    (f : dyn_type → dyn_type) (hne : d.1 ≠ p) : Dispatched (h1.upd p f) d :=
  ⟨by rw [Heap.length_upd]; exact a.1, by rw [Heap.at_upd_ne _ _ _ _ hne]; exact a.2⟩

theorem dispatchInv_zero : DispatchInv 0 := by
  refine ⟨?_, ?_, ?_, ?_, ?_, ?_, ?_⟩
  · intro _ _ _ _ _ _ _ hr; simp [dynType_parseWithStream] at hr
  · intro _ _ _ _ hr; simp [dynType_parseAny] at hr
  · intro _ _ _ _ _ _ hr; simp [parseComplex_entries] at hr
  · intro _ _ _ _ hr; simp [dynType_parseComplex] at hr
  · intro _ _ _ _ hr; simp [dynType_parseNestedType] at hr
  · intro _ _ _ _ hr; simp [dynType_parseSequence] at hr
  · intro _ _ _ _ hr; simp [dynType_parseTypedPointer] at hr

theorem dispatchInv_succ (n : Nat) (ih : DispatchInv n) : DispatchInv (n + 1) := by
  obtain ⟨ihS, ihA, ihE, ihC, ihN, ihQ, ihP⟩ := ih
  refine ⟨?_, ?_, ?_, ?_, ?_, ?_, ?_⟩
  · intro stream name parent refTypes result h r hr d hd
    rw [dynType_parseWithStream] at hr
    rw [dispatches_parseWithStream] at hd
    simp only [calloc] at hr hd
    cases name with
    | none =>
      simp only at hr hd
      split at hr
      · exact absurd hr (by simp)
      · rename_i st s2 h2 heq
        obtain ⟨a, b⟩ := ihA _ _ _ _ heq (by simp [Heap.length_upd]) d hd
        have a2 : h.length ≤ d.1 := by
          rcases a with a | a
          · rw [a]
          · simp only [Heap.length_upd, List.length_append, List.length_singleton] at a
            exact Nat.le_of_succ_le a
        split at hr <;> cases hr <;> exact ⟨a2, b⟩
    | some nm =>
      simp only at hr hd
      split at hr
      · exact absurd hr (by simp)
      · rename_i st s2 h2 heq
        obtain ⟨a, b⟩ := ihA _ _ _ _ heq (by simp [Heap.length_upd]) d hd
        have a2 : h.length ≤ d.1 := by
          rcases a with a | a
          · rw [a]
          · simp only [Heap.length_upd, List.length_append, List.length_singleton] at a
            exact Nat.le_of_succ_le a
        split at hr <;> cases hr <;> exact ⟨a2, b⟩
  · intro stream type h r hr hp d hd
    rw [dispatches_parseAny] at hd
    cases stream with
    | nil => simp [fgetc] at hd
    | cons c rest =>
      simp only [fgetc] at hd
      by_cases hT : c = 'T'
      · subst hT
        rw [if_pos rfl] at hd
        rw [dynType_parseAny_T] at hr
        cases hN : dynType_parseNestedType n rest type h with
        | none => rw [hN] at hr; simp at hr
        | some rn =>
          obtain ⟨st, s2, h2⟩ := rn
          rw [hN] at hr hd
          simp only at hr hd
          have fN := (frameInv n).2.2.2.2.1 _ _ _ _ hN hp
          have hp2 : type < h2.length := Nat.lt_of_lt_of_le hp fN.1
          rcases List.mem_append.1 hd with hd1 | hd2
          · obtain ⟨a, b⟩ := ihN _ _ _ _ hN hp d hd1
            have hne : d.1 ≠ type := Ne.symm (Nat.ne_of_lt (Nat.lt_of_lt_of_le hp a))
            by_cases hst : st = Status.OK
            · rw [if_pos hst] at hr
              exact ⟨Or.inr a, b.frame ((frameInv n).2.1 _ _ _ _ hr hp2) hne⟩
            · rw [if_neg hst] at hr
              cases hr
              exact ⟨Or.inr a, b⟩
          · cases st with
            | OK =>
              rw [if_pos rfl] at hr
              obtain ⟨a, b⟩ := ihA _ _ _ _ hr hp2 d hd2
              refine ⟨?_, b⟩
              rcases a with a | a
              · exact Or.inl a
              · exact Or.inr (Nat.le_trans fN.1 a)
            | ERROR => simp at hd2
            | MEM_ERROR => simp at hd2
            | PARSE_ERROR => simp at hd2
      · rw [if_neg hT, hr] at hd
        rcases List.mem_append.1 hd with hd1 | hd2
        · split_ifs at hd1 with h1 h2 h3
          · subst h1
            rw [dynType_parseAny_complex] at hr
            obtain ⟨a, b⟩ := ihC _ _ _ _ hr hp d hd1
            exact ⟨Or.inr a, b⟩
          · subst h2
            rw [dynType_parseAny_sequence] at hr
            obtain ⟨a, b⟩ := ihQ _ _ _ _ hr hp d hd1
            exact ⟨Or.inr a, b⟩
          · subst h3
            rw [dynType_parseAny_pointer] at hr
            obtain ⟨a, b⟩ := ihP _ _ _ _ hr hp d hd1
            exact ⟨Or.inr a, b⟩
          · exact absurd hd1 (List.not_mem_nil _)
        · obtain ⟨st, s', h'⟩ := r
          have fA := (frameInv (n + 1)).2.1 _ _ _ _ hr hp
          cases st with
          | OK =>
            simp only [dispatch_own, List.mem_singleton] at hd2
            subst hd2
            exact ⟨Or.inl rfl, Nat.lt_of_lt_of_le hp fA.1,
              dynType_parseAny_descriptor _ _ _ _ _ _ _ hT hp hr⟩
          | ERROR => simp [dispatch_own] at hd2
          | MEM_ERROR => simp [dispatch_own] at hd2
          | PARSE_ERROR => simp [dispatch_own] at hd2
  · intro c stream type status h r hr hp d hd
    rw [parseComplex_entries] at hr
    rw [dispatches_entries] at hd
    split at hr
    · rename_i hcond
      rw [if_pos hcond] at hd
      simp only [calloc] at hr hd
      split at hr
      · exact absurd hr (by simp)
      · rename_i st s2 h2 heq
        rw [heq] at hd
        simp only at hd
        have hl : h.length < ((((h ++ [dyn_type.zero]).upd h.length fun t =>
            { t with parent := some type, type := DynKind.INVALID, nestedTypesHead := [] }).upd type
              fun t => { t with complex_entriesHead :=
                t.complex_entriesHead ++ [⟨h.length, none⟩] })).length := by
          simp [Heap.length_upd]
        have fA := (frameInv n).2.1 _ _ _ _ heq hl
        have hp2 : type < h2.length := by
          refine Nat.lt_of_lt_of_le ?_ fA.1
          simp only [Heap.length_upd, List.length_append, List.length_singleton]
          exact Nat.lt_succ_of_lt hp
        have fE := (frameInv n).2.2.1 _ _ _ _ _ _ hr hp2
        rcases List.mem_append.1 hd with hd1 | hd2
        · obtain ⟨a, b⟩ := ihA _ _ _ _ heq hl d hd1
          have a2 : h.length ≤ d.1 := by
            rcases a with a | a
            · rw [a]
            · simp only [Heap.length_upd, List.length_append, List.length_singleton] at a
              exact Nat.le_of_succ_le a
          exact ⟨a2, b.frame fE (Ne.symm (Nat.ne_of_lt (Nat.lt_of_lt_of_le hp a2)))⟩
        · obtain ⟨a, b⟩ := ihE _ _ _ _ _ _ hr hp2 d hd2
          refine ⟨Nat.le_trans ?_ (Nat.le_trans fA.1 a), b⟩
          simp [Heap.length_upd]
    · rename_i hcond
      rw [if_neg hcond] at hd
      exact absurd hd (List.not_mem_nil _)
  · intro stream type h r hr hp d hd
    rw [dynType_parseComplex] at hr
    rw [dispatches_parseComplex] at hd
    simp only at hr hd
    split at hr
    · exact absurd hr (by simp)
    · rename_i c2 s2 st2 h2 heq
      have hp0 : type < (h.upd type fun t =>
          { t with type := DynKind.COMPLEX, descriptor := some '{', ffiType := some ⟨0, 0⟩,
                   complex_entriesHead := [] }).length := by
        simpa [Heap.length_upd] using hp
      obtain ⟨a, b⟩ := ihE _ _ _ _ _ _ heq hp0 d hd
      have a2 : h.length ≤ d.1 := by simpa [Heap.length_upd] using a
      have hne : d.1 ≠ type := Ne.symm (Nat.ne_of_lt (Nat.lt_of_lt_of_le hp a2))
      cases hr
      exact ⟨a2, (b.frame (parseComplex_names_frame _ _ _ _ _ _ _) hne).frame
        (parseComplex_finish_frame _ _ _) hne⟩
  · intro stream type h r hr hp d hd
    rw [dynType_parseNestedType] at hr
    rw [dispatches_parseNestedType] at hd
    simp only [calloc] at hr hd
    split at hr
    · rename_i name s2 hname
      rw [hname] at hd
      simp only at hd
      split at hr
      · rename_i s3 hfg
        rw [hfg] at hd
        simp only at hd
        split at hr
        · exact absurd hr (by simp)
        · rename_i st3 s4 h3 heq
          have hl : h.length < ((((h ++ [dyn_type.zero]).upd h.length fun t =>
              { t with parent := some type, type := DynKind.INVALID, nestedTypesHead := [] }).upd type
                fun t => { t with nestedTypesHead := t.nestedTypesHead ++ [h.length] }).upd h.length
                  fun t => { t with name := name }).length := by
            simp [Heap.length_upd]
          obtain ⟨a, b⟩ := ihA _ _ _ _ heq hl d hd
          have a2 : h.length ≤ d.1 := by
            rcases a with a | a
            · rw [a]
            · simp only [Heap.length_upd, List.length_append, List.length_singleton] at a
              exact Nat.le_of_succ_le a
          split at hr <;> cases hr <;> exact ⟨a2, b⟩
      · rename_i c3 s3 hne hfg
        rw [hfg] at hd
        split at hd
        · rename_i heq2
          exact absurd (congrArg Prod.fst heq2) hne
        · exact absurd hd (List.not_mem_nil _)
    · rename_i st name s2 hne hname
      rw [hname] at hd
      split at hd
      · rename_i heq2
        exact absurd (congrArg Prod.fst heq2) hne
      · exact absurd hd (List.not_mem_nil _)
  · intro stream type h r hr hp d hd
    rw [dynType_parseSequence] at hr
    rw [dispatches_parseSequence] at hd
    simp only at hr hd
    split at hr
    · exact absurd hr (by simp)
    · rename_i st it s2 h2 heq
      obtain ⟨a, b⟩ := ihS _ _ _ _ _ _ _ heq d hd
      have a2 : h.length ≤ d.1 := by simpa [Heap.length_upd] using a
      have hne : d.1 ≠ type := Ne.symm (Nat.ne_of_lt (Nat.lt_of_lt_of_le hp a2))
      have b2 : Dispatched h2 d := b
      split at hr
      · cases hr
        refine ⟨a2, ?_⟩
        dsimp only
        exact (b2.upd type _ hne).upd type _ hne
      · cases hr
        refine ⟨a2, ?_⟩
        dsimp only
        exact b2.upd type _ hne
  · intro stream type h r hr hp d hd
    rw [dynType_parseTypedPointer] at hr
    rw [dispatches_parseTypedPointer] at hd
    split at hr
    · exact absurd hr (by simp)
    · rename_i st it s2 h2 heq
      obtain ⟨a, b⟩ := ihS _ _ _ _ _ _ _ heq d hd
      have a2 : h.length ≤ d.1 := by simpa [Heap.length_upd] using a
      have hne : d.1 ≠ type := Ne.symm (Nat.ne_of_lt (Nat.lt_of_lt_of_le hp a2))
      have b2 : Dispatched h2 d := b
      cases hr
      refine ⟨a2, ?_⟩
      dsimp only
      exact b2.upd type _ hne

theorem dispatchInv (fuel : Nat) : DispatchInv fuel := by
  induction fuel with
  | zero => exact dispatchInv_zero
  | succ n ih => exact dispatchInv_succ n ih

/-- The list of dispatches holds the root of a parse that returns `OK` on a
descriptor whose first character is not `T`, with that character. -/
theorem dispatches_root (fuel : Nat) (c : Char) (rest : List Char)
    (name : Option (List Char)) (refTypes : Option (List Ptr)) (result : Option Ptr) (h : Heap)
    (r : Status × Option Ptr × Heap) (hc : c ≠ 'T') (hnul : c ≠ Char.ofNat 0)
    (hr : dynType_parseWithStr fuel (c :: rest) name refTypes result h = some r)
    (hok : r.1 = Status.OK) :
    (h.length, c) ∈ dispatches_parseWithStr fuel (c :: rest) name refTypes h := by
  unfold dynType_parseWithStr at hr
  unfold dispatches_parseWithStr
  have hs : ((c :: rest).takeWhile fun c => c ≠ Char.ofNat 0) =
      c :: rest.takeWhile fun c => c ≠ Char.ofNat 0 := by
    rw [List.takeWhile_cons_of_pos (by simpa using hnul)]
  simp only at hr
  rw [hs] at hr ⊢
  cases fuel with
  | zero => simp [dynType_parseWithStream] at hr
  | succ n =>
    rw [dynType_parseWithStream] at hr
    rw [dispatches_parseWithStream]
    simp only [calloc] at hr ⊢
    cases n with
    | zero => simp [dynType_parseAny] at hr
    | succ m =>
      rw [dispatches_parseAny]
      simp only [fgetc, if_neg hc]
      apply List.mem_append_right
      generalize dynType_parseAny (m + 1) (c :: rest.takeWhile fun c => c ≠ Char.ofNat 0)
          h.length _ = ra at hr ⊢
      cases ra with
      | none => simp at hr
      | some ra =>
        obtain ⟨st, s2, h2⟩ := ra
        simp only at hr
        cases st with
        | OK => simp [dispatch_own]
        | ERROR => simp at hr; rw [← hr] at hok; simp at hok
        | MEM_ERROR => simp at hr; rw [← hr] at hok; simp at hok
        | PARSE_ERROR => simp at hr; rw [← hr] at hok; simp at hok

/-! ## The claims -/

/-- C1: a well-formed Complex descriptor `{ b1 … bk  n1 … nk }` with `k ≥ 1`,
whose bodies parse successfully where the parser meets them and whose names are
identifiers, returns `OK`; the root is a Complex with exactly `k` entries, entry
`i` (in textual order) being the node that the parse of the body `b(i+1)` built,
with the name `n(i+1)`. -/
theorem C1_complex_descriptor (fields : List Field) (hk : 1 ≤ fields.length)
    (hf : ∀ f ∈ fields, f.body ≠ [] ∧ NulFree f.body ∧ isIdent f.name = true)
    (name : Option (List Char)) (refTypes : Option (List Ptr)) (result : Option Ptr) (h : Heap)
    (hp : FieldsParse h.length (namesText fields ++ ['}']) fields
      (complexStart (rootHeap h name none refTypes) h.length)) :
    ∃ h', Returns (fun fuel => dynType_parseWithStr fuel
          ('{' :: (bodiesText fields ++ (namesText fields ++ ['}']))) name refTypes result h)
        (Status.OK, some h.length, h') ∧
      dynType_type h' h.length = DynKind.COMPLEX ∧
      (h'.at h.length).complex_entriesHead =
        namedEntries (entryPtrs fields (complexStart (rootHeap h name none refTypes) h.length))
          fields ∧
      (h'.at h.length).complex_entriesHead.length = fields.length ∧
      FieldsBuilt h' fields (complexStart (rootHeap h name none refTypes) h.length) := by
  obtain ⟨h', hr, hty, hen, -, -, -, hbu⟩ :=
    dynType_parseWithStr_complex fields hk hf name refTypes result h hp
  refine ⟨h', hr, hty, hen, ?_, hbu⟩
  rw [hen]
  exact namedEntries_length _ _ (entryPtrs_length _ _)

/-- Witness of C1: `{t name}` is a Complex with the one field `name`, of kind
Text and of the size of a pointer. -/
theorem C1_complex_descriptor_witness :
    1 ≤ [(⟨['t'], "name".toList, textFieldHeap⟩ : Field)].length ∧
    (∀ f ∈ [(⟨['t'], "name".toList, textFieldHeap⟩ : Field)],
      f.body ≠ [] ∧ NulFree f.body ∧ isIdent f.name = true) ∧
    FieldsParse ([] : Heap).length (namesText [⟨['t'], "name".toList, textFieldHeap⟩] ++ ['}'])
      [⟨['t'], "name".toList, textFieldHeap⟩]
      (complexStart (rootHeap [] none none none) ([] : Heap).length) ∧
    (∃ h', Returns (fun fuel => dynType_parseWithStr fuel
          ('{' :: (bodiesText [⟨['t'], "name".toList, textFieldHeap⟩] ++
            (namesText [⟨['t'], "name".toList, textFieldHeap⟩] ++ ['}']))) none none none [])
        (Status.OK, some ([] : Heap).length, h') ∧
      dynType_type h' ([] : Heap).length = DynKind.COMPLEX ∧
      (h'.at ([] : Heap).length).complex_entriesHead =
        namedEntries (entryPtrs [⟨['t'], "name".toList, textFieldHeap⟩]
          (complexStart (rootHeap [] none none none) ([] : Heap).length))
          [⟨['t'], "name".toList, textFieldHeap⟩] ∧
      (h'.at ([] : Heap).length).complex_entriesHead.length =
        [(⟨['t'], "name".toList, textFieldHeap⟩ : Field)].length ∧
      FieldsBuilt h' [⟨['t'], "name".toList, textFieldHeap⟩]
        (complexStart (rootHeap [] none none none) ([] : Heap).length)) ∧
    dynType_type textFieldHeap 1 = DynKind.TEXT ∧
    Returns (fun fuel => dynType_parseWithStr fuel "\x7bt name\x7d".toList none none none [])
      (Status.OK, some 0, textComplexHeap) ∧
    (textComplexHeap.at 0).complex_entriesHead = [⟨1, some "name".toList⟩] ∧
    dynType_type textComplexHeap 1 = DynKind.TEXT ∧
    dynType_size textComplexHeap 0 = some ffi_type_pointer.size :=
  ⟨by decide,
    fun f hf => by
      rw [List.mem_singleton.1 hf]
      exact ⟨by decide, by decide, by decide⟩,
    ⟨dynType_parseAny_returns (by decide : dynType_parseAny 5 _ _ _ = _), trivial⟩,
    C1_complex_descriptor [⟨['t'], "name".toList, textFieldHeap⟩] (by decide)
      (fun f hf => by
        rw [List.mem_singleton.1 hf]
        exact ⟨by decide, by decide, by decide⟩)
      none none none []
      ⟨dynType_parseAny_returns (by decide : dynType_parseAny 5 _ _ _ = _), trivial⟩,
    by decide, dynType_parseWithStr_returns (by decide : dynType_parseWithStr 10 _ _ _ _ _ = _),
    by decide, by decide, by decide⟩

/-- C2: for each of the twelve simple letters `F D B b S s I i J j N P`, parsing
the one-character descriptor returns `OK` with a Simple node whose descriptor is
that letter and whose layout is the one the grammar table gives the letter (`j`
has the 64-bit signed layout of `J`); for `I` that is size 4, alignment 4. -/
theorem C2_simple_letters (c : Char) (t : ffi_type) (hc : (c, t) ∈ simpleTable)
    (name : Option (List Char)) (refTypes : Option (List Ptr)) (result : Option Ptr) (h : Heap) :
    ∃ h', Returns (fun fuel => dynType_parseWithStr fuel [c] name refTypes result h)
        (Status.OK, some h.length, h') ∧
      dynType_type h' h.length = DynKind.SIMPLE ∧
      dynType_descriptorType h' h.length = some c ∧
      (h'.at h.length).ffiType = some t ∧
      (c = 'I' → dynType_size h' h.length = some 4 ∧ t.alignment = 4) := by
  obtain ⟨hft, hnd⟩ := dynType_ffiTypeFor_table c t hc
  have hnz : c ≠ Char.ofNat 0 := by
    intro h0
    rw [h0] at hft
    simp [dynType_ffiTypeFor] at hft
  have hl : h.length < (rootHeap h name none refTypes).length := by
    rw [rootHeap_length]; exact Nat.lt_succ_self _
  refine ⟨(rootHeap h name none refTypes).upd h.length fun x =>
      { x with type := DynKind.SIMPLE, descriptor := some c, ffiType := some t }, ⟨2, ?_⟩, ?_, ?_, ?_, ?_⟩
  · intro fuel hle
    obtain ⟨n, rfl⟩ : ∃ n, fuel = n + 2 := ⟨fuel - 2, by omega⟩
    dsimp only
    rw [dynType_parseWithStr_unfold, dynType_parseWithStream_unfold, cstr_cons, if_neg hnz,
      cstr_nil, dynType_parseAny_default _ _ _ _ _ hnd]
    simp [dynType_parseSimple, hft, fgetc]
  · simp [dynType_type, Heap.at_upd_same, hl]
  · simp [dynType_descriptorType, Heap.at_upd_same, hl]
  · simp [Heap.at_upd_same, hl]
  · intro hI
    subst hI
    have : t = ffi_type_sint32 := by
      have := hft
      simp [dynType_ffiTypeFor] at this
      exact this.symm
    subst this
    simp [dynType_size, Heap.at_upd_same, hl, ffi_type_sint32]

/-- Witness of C2 at the letter `I`. -/
theorem C2_simple_letters_witness :
    ('I', ffi_type_sint32) ∈ simpleTable ∧
    ∃ h', Returns (fun fuel => dynType_parseWithStr fuel ['I'] none none none [])
        (Status.OK, some 0, h') ∧
      dynType_type h' 0 = DynKind.SIMPLE ∧
      dynType_descriptorType h' 0 = some 'I' ∧
      (h'.at 0).ffiType = some ffi_type_sint32 ∧
      ('I' = 'I' → dynType_size h' 0 = some 4 ∧ ffi_type_sint32.alignment = 4) :=
  ⟨by decide, C2_simple_letters 'I' ffi_type_sint32 (by decide) none none none []⟩

/-- C3: for an identifier `n` and a body `b` that parses successfully where the
declaration `T n = b ;` puts it, the descriptor `T n = b ; L n ;` returns `OK`
with a typed pointer as root whose target type, as
`dynType_typedPointer_getTypedType` reports it, is the declaration node named
`n`, with the record the parse of `b` built. -/
theorem C3_pointer_to_declaration (n : List Char) (hn : isIdent n = true) (b : List Char)
    (hnul : NulFree b) (name : Option (List Char)) (result : Option Ptr) (h hB : Heap)
    (hb : Returns (fun fuel => dynType_parseAny fuel (b ++ ';' :: 'L' :: (n ++ [';']))
        (h.length + 1) (declHeap (rootHeap h name none none) h.length n))
      (Status.OK, ';' :: 'L' :: (n ++ [';']), hB)) :
    ∃ h', Returns (fun fuel => dynType_parseWithStr fuel
          ('T' :: (n ++ '=' :: (b ++ ';' :: 'L' :: (n ++ [';'])))) name none result h)
        (Status.OK, some h.length, h') ∧
      dynType_type h' h.length = DynKind.TYPED_POINTER ∧
      dynType_typedPointer_getTypedType h' h.length = some (some (h.length + 1)) ∧
      h'.at (h.length + 1) = hB.at (h.length + 1) ∧
      (h'.at (h.length + 1)).name = some n := by
  have hroot := rootHeap_at h name none none
  have hlen := rootHeap_length h name none none
  have hrl : h.length < (rootHeap h name none none).length := by rw [hlen]; exact Nat.lt_succ_self _
  have hdl := declHeap_length (rootHeap h name none none) h.length n
  have hde := declHeap_at_entry (rootHeap h name none none) h.length n hrl
  have hdn := declHeap_at_node (rootHeap h name none none) h.length n hrl
  rw [hlen] at hdl hde hdn
  have hfr := hb.frame_parseAny (by rw [hdl]; exact Nat.lt_succ_self _)
  obtain ⟨f1, f2, f3, -, -⟩ := hfr
  dsimp only at f1 f2 f3
  rw [hdl] at f1 f2
  have hBroot : hB.at h.length =
      { dyn_type.zero with name := name, nestedTypesHead := [h.length + 1] } := by
    rw [f2 h.length (by omega) (by omega), hdn, hroot]
    rfl
  have hBname : (hB.at (h.length + 1)).name = some n := by rw [f3, hde]
  have l1 : h.length < hB.length := by omega
  have l2 : h.length + 1 < hB.length := by omega
  have n1 : h.length ≠ hB.length := by omega
  have n2 : h.length + 1 ≠ hB.length := by omega
  have hXsub : (refHeap (pointerHeap hB h.length) hB.length).at hB.length =
      { dyn_type.zero with parent := some h.length, type := DynKind.REF,
                           descriptor := some 'l' } := by
    rw [refHeap_at_self _ _ (by rw [pointerHeap_length]; exact Nat.lt_succ_self _),
      pointerHeap_at_sub _ _ l1]
  have hXroot : (refHeap (pointerHeap hB h.length) hB.length).at h.length =
      { dyn_type.zero with name := name, nestedTypesHead := [h.length + 1],
                           type := DynKind.TYPED_POINTER, descriptor := some '*',
                           ffiType := some ffi_type_pointer,
                           typedPointer_typedType := some hB.length } := by
    rw [refHeap_at_other _ _ _ n1, pointerHeap_at_node _ _ l1, hBroot]
  have hXe : (refHeap (pointerHeap hB h.length) hB.length).at (h.length + 1) =
      hB.at (h.length + 1) := by
    rw [refHeap_at_other _ _ _ n2, pointerHeap_at_other _ _ _ (Nat.succ_ne_self _) n2]
  obtain ⟨N, hN⟩ := hb
  refine ⟨(refHeap (pointerHeap hB h.length) hB.length).upd hB.length fun x =>
      { x with ref_ref := some (h.length + 1) }, ⟨N + 5, ?_⟩, ?_, ?_, ?_, ?_⟩
  · intro fuel hle
    obtain ⟨m, rfl⟩ : ∃ m, fuel = m + 3 := ⟨fuel - 3, by omega⟩
    obtain ⟨j, hj⟩ : ∃ j, m = j + 2 := ⟨m - 2, by omega⟩
    have hrun := hN m (by omega)
    dsimp only at hrun
    have hf : dynType_findType m (refHeap (pointerHeap hB h.length) hB.length) hB.length n =
        some (some (h.length + 1)) := by
      rw [hj, dynType_findType_parent (j + 1) _ hB.length h.length n
        (scopeScan_none _ _ _ (by rw [hXsub]; rfl)) (by rw [hXsub]; rfl) (by rw [hXsub])]
      apply dynType_findType_nested
      · exact scopeScan_none _ _ _ (by rw [hXroot]; rfl)
      · rw [hXroot]
        simp [findType_scan, hXe, hBname]
    have hnf : NulFree ('T' :: (n ++ '=' :: (b ++ ';' :: 'L' :: (n ++ [';'])))) :=
      NulFree.cons (by decide) ((isIdent_nulFree hn).append (NulFree.cons (by decide)
        (hnul.append (NulFree.cons (by decide) (NulFree.cons (by decide)
          ((isIdent_nulFree hn).append (NulFree.cons (by decide) NulFree.nil)))))))
    dsimp only
    rw [dynType_parseWithStr_unfold, cstr_nulFree _ hnf, dynType_parseWithStream_unfold,
      dynType_parseAny_T, dynType_parseNestedType_ident _ n _ _ _ hn, hlen, hrun]
    simp only [fgetc, if_true]
    rw [dynType_parseAny_L, dynType_parseReference_unfold,
      dynType_parseRefByValue_resolved _ n [] _ _ _ hn hf]
    rfl
  · simp [dynType_type, Heap.at_upd, n1, hXroot]
  · simp [dynType_typedPointer_getTypedType, Heap.at_upd, n1, hXroot, hXsub, refHeap_length,
      pointerHeap_length]
  · rw [Heap.at_upd, if_neg (by simp [n2]), hXe]
  · rw [Heap.at_upd, if_neg (by simp [n2]), hXe, hBname]

/-- Witness of C3: `Tperson={ssi age weight height};Lperson;` is a pointer to
the Complex `person` with the fields `age : u16`, `weight : u16` and
`height : u32`; the index of `weight` is 1, the offsets of `weight` and `height`
are 2 and 4, and the size of the Complex is 8. -/
theorem C3_pointer_to_declaration_witness :
    isIdent "person".toList = true ∧ NulFree "\x7bssi age weight height\x7d".toList ∧
    Returns (fun fuel => dynType_parseAny fuel
        ("\x7bssi age weight height\x7d".toList ++ ';' :: 'L' :: ("person".toList ++ [';']))
        (([] : Heap).length + 1) (declHeap (rootHeap [] none none none) ([] : Heap).length
          "person".toList))
      (Status.OK, ';' :: 'L' :: ("person".toList ++ [';']), personBodyHeap) ∧
    (∃ h', Returns (fun fuel => dynType_parseWithStr fuel
          ('T' :: ("person".toList ++ '=' :: ("\x7bssi age weight height\x7d".toList ++
            ';' :: 'L' :: ("person".toList ++ [';'])))) none none none [])
        (Status.OK, some ([] : Heap).length, h') ∧
      dynType_type h' ([] : Heap).length = DynKind.TYPED_POINTER ∧
      dynType_typedPointer_getTypedType h' ([] : Heap).length =
        some (some (([] : Heap).length + 1)) ∧
      h'.at (([] : Heap).length + 1) = personBodyHeap.at (([] : Heap).length + 1) ∧
      (h'.at (([] : Heap).length + 1)).name = some "person".toList) ∧
    Returns (fun fuel => dynType_parseWithStr fuel
        "Tperson=\x7bssi age weight height\x7d;Lperson;".toList none none none [])
      (Status.OK, some 0, personHeap) ∧
    dynType_type personHeap 1 = DynKind.COMPLEX ∧
    (personHeap.at 1).complex_entriesHead =
      [⟨2, some "age".toList⟩, ⟨3, some "weight".toList⟩, ⟨4, some "height".toList⟩] ∧
    (personHeap.at 2).ffiType = some ffi_type_uint16 ∧
    (personHeap.at 3).ffiType = some ffi_type_uint16 ∧
    (personHeap.at 4).ffiType = some ffi_type_uint32 ∧
    dynType_complex_indexForName personHeap 1 "weight".toList = some 1 ∧
    dynType_getOffset personHeap 1 1 = some 2 ∧ dynType_getOffset personHeap 1 2 = some 4 ∧
    dynType_size personHeap 1 = some 8 :=
  ⟨by decide, by decide, dynType_parseAny_returns (by decide : dynType_parseAny 10 _ _ _ = _),
    C3_pointer_to_declaration "person".toList (by decide) "\x7bssi age weight height\x7d".toList
      (by decide) none none [] personBodyHeap
      (dynType_parseAny_returns (by decide : dynType_parseAny 10 _ _ _ = _)),
    dynType_parseWithStr_returns (by decide : dynType_parseWithStr 20 _ _ _ _ _ = _),
    by decide, by decide, by decide, by decide, by decide, by decide, by decide, by decide,
    by decide⟩

/-- C4 fails as stated: with the scope `node={IP children next}`, in
`*Tnode=I;lnode;` the reference is made from the pointee (address 4), which
declares a type `node` itself (address 5); it resolves to that declaration, not
to the entry of the external scope (address 0). -/
theorem C4_nested_declaration_found_first :
    ScopeEntry scopeNodeHeap [0] "node".toList 0 ∧
    ∃ r, Returns (fun fuel => dynType_parseWithStr fuel "*Tnode=I;lnode;".toList none (some [0])
        none scopeNodeHeap) r ∧
      r.1 = Status.OK ∧ (r.2.2.at 4).type = DynKind.REF ∧ (r.2.2.at 4).nestedTypesHead = [5] ∧
      (r.2.2.at 5).name = some "node".toList ∧ (r.2.2.at 4).ref_ref = some 5 ∧
      (r.2.2.at 4).ref_ref ≠ some 0 := by
  refine ⟨⟨[], [], rfl, fun _ hq => absurd hq (List.not_mem_nil _), by decide⟩, ?_⟩
  obtain ⟨r, hr, hp⟩ := dynType_parseWithStr_check 10 "*Tnode=I;lnode;".toList none (some [0])
    none scopeNodeHeap
    (fun r => decide (r.1 = Status.OK ∧ (r.2.2.at 4).type = DynKind.REF ∧
      (r.2.2.at 4).nestedTypesHead = [5] ∧ (r.2.2.at 5).name = some "node".toList ∧
      (r.2.2.at 4).ref_ref = some 5 ∧ (r.2.2.at 4).ref_ref ≠ some 0)) (by decide)
  exact ⟨r, hr, by simpa using hp⟩

/-- C4, amended: the external scope is held by the root, where it is consulted
before the nested declarations of the root.  A reference to a name `n` of the
scope made from a node `x` resolves to the scope's entry for `n`, also when the
root declares `n`, provided no node on the parent chain from `x` up to, but
excluding, the root declares `n`. -/
theorem C4_scope_first_at_root (h : Heap) (n : List Char) (root : Ptr) (refs : List Ptr)
    (t : Ptr) (hroot : (h.at root).referenceTypes = some refs) (ht : ScopeEntry h refs n t)
    (ps : List Ptr) (x : Ptr) (hx : ChainToRoot h n root x ps) (fuel : Nat)
    (hfuel : ps.length < fuel) : dynType_findType fuel h x n = some (some t) := by
  induction ps generalizing x fuel with
  | nil =>
    obtain ⟨k, rfl⟩ : ∃ k, fuel = k + 1 := ⟨fuel - 1, by omega⟩
    have hxr : x = root := hx
    subst hxr
    apply dynType_findType_scope
    unfold scopeScan
    rw [hroot]
    exact findType_scan_scopeEntry h n refs t ht
  | cons y ys ih =>
    obtain ⟨k, rfl⟩ : ∃ k, fuel = k + 1 := ⟨fuel - 1, by omega⟩
    obtain ⟨h1, h2, h3, h4⟩ := hx
    rw [dynType_findType_parent k h x y n (scopeScan_none h x n h1)
      (findType_scan_notDeclared h n _ h2) h3]
    exact ih y h4 k (by simpa using hfuel)

/-- Witness of the amended C4: in `Tnode=I;*lnode;` the root declares `node`,
and the reference made from the pointee still resolves to the scope's `node`. -/
theorem C4_scope_first_at_root_witness :
    (shadowHeap.at 3).referenceTypes = some [0] ∧ ScopeEntry shadowHeap [0] "node".toList 0 ∧
    ChainToRoot shadowHeap "node".toList 3 5 [3] ∧ [3].length < 2 ∧
    dynType_findType 2 shadowHeap 5 "node".toList = some (some 0) ∧
    (shadowHeap.at 3).nestedTypesHead = [4] ∧ (shadowHeap.at 4).name = some "node".toList ∧
    (shadowHeap.at 5).ref_ref = some 0 :=
  ⟨by decide, ⟨[], [], rfl, fun _ hq => absurd hq (List.not_mem_nil _), by decide⟩,
    ⟨by decide, notDeclared_of_nil _ _ _ (by decide), by decide, rfl⟩, by decide,
    C4_scope_first_at_root shadowHeap "node".toList 3 [0] 0 (by decide)
      ⟨[], [], rfl, fun _ hq => absurd hq (List.not_mem_nil _), by decide⟩ [3] 5
      ⟨by decide, notDeclared_of_nil _ _ _ (by decide), by decide, rfl⟩ 2 (by decide),
    by decide, by decide, by decide⟩

/-- C5: with an external scope whose type named `n` is `t`, the descriptor
`l n ;` gives a Reference with target `t`, and `* l n ;` gives a typed pointer
whose target type, as `dynType_typedPointer_getTypedType` reports it, is `t`:
the scope of the root is reached from the child through the parent chain.  The
scope itself is left as it was. -/
theorem C5_scope_reference (n : List Char) (hn : isIdent n = true) (name : Option (List Char))
    (result : Option Ptr) (h : Heap) (refs : List Ptr) (t : Ptr)
    (ht : ScopeEntry h refs n t) (hv : ∀ q ∈ refs, q < h.length) :
    (∃ h', Returns (fun fuel => dynType_parseWithStr fuel ('l' :: n ++ [';']) name (some refs)
        result h) (Status.OK, some h.length, h') ∧
      dynType_type h' h.length = DynKind.REF ∧ (h'.at h.length).ref_ref = some t ∧ Ext h h') ∧
    (∃ h', Returns (fun fuel => dynType_parseWithStr fuel ('*' :: 'l' :: n ++ [';']) name
        (some refs) result h) (Status.OK, some h.length, h') ∧
      dynType_type h' h.length = DynKind.TYPED_POINTER ∧
      dynType_typedPointer_getTypedType h' h.length = some (some t) ∧ Ext h h') := by
  have hnf : NulFree (n ++ [';']) :=
    (isIdent_nulFree hn).append (NulFree.cons (by decide) NulFree.nil)
  have hl1 : h.length < h.length + 1 + 1 := by omega
  have hroot := rootHeap_at h name none (some refs)
  have hlen := rootHeap_length h name none (some refs)
  have hext := rootHeap_ext h name none (some refs)
  constructor
  · have hE : Ext h (refHeap (rootHeap h name none (some refs)) h.length) :=
      ext_refHeap_fresh hext _ (Nat.le_refl _)
    have hat : ((refHeap (rootHeap h name none (some refs)) h.length).at h.length).referenceTypes =
        some refs := by
      simp [refHeap, Heap.at_upd, hlen, hroot]
    refine ⟨(refHeap (rootHeap h name none (some refs)) h.length).upd h.length fun x =>
      { x with ref_ref := some t }, ⟨3, ?_⟩, ?_, ?_, ?_⟩
    · intro fuel hle
      obtain ⟨k, rfl⟩ : ∃ k, fuel = k + 3 := ⟨fuel - 3, by omega⟩
      have hf : dynType_findType (k + 1) (refHeap (rootHeap h name none (some refs)) h.length)
          h.length n = some (some t) :=
        dynType_findType_scope _ _ _ _ _ (scopeScan_scopeEntry h _ _ n refs t hE hat ht hv)
      dsimp only
      rw [dynType_parseWithStr_unfold, List.cons_append,
        cstr_nulFree _ (NulFree.cons (by decide) hnf),
        dynType_parseWithStream_unfold, dynType_parseAny_l,
        dynType_parseRefByValue_resolved _ n [] _ _ t hn hf]
      rfl
    · simp [dynType_type, refHeap, Heap.at_upd, Heap.length_upd, hlen]
    · simp [refHeap, Heap.at_upd, Heap.length_upd, hlen]
    · exact hE.ext_upd_fresh _ (Nat.le_refl _) _
  · have hE0 : Ext h (pointerStart (rootHeap h name none (some refs)) h.length) :=
      hext.ext_upd_fresh _ (Nat.le_refl _) _
    have hlen0 : (pointerStart (rootHeap h name none (some refs)) h.length).length = h.length + 1 := by
      rw [pointerStart, Heap.length_upd, hlen]
    have hE1 := hE0.ext_trans (rootHeap_ext _ none (some h.length) none)
    have hE2 : Ext h (refHeap (rootHeap (pointerStart (rootHeap h name none (some refs)) h.length) none (some h.length) none) (h.length + 1)) :=
      ext_refHeap_fresh hE1 _ (Nat.le_succ _)
    have hchild := rootHeap_at (pointerStart (rootHeap h name none (some refs)) h.length) none (some h.length) none
    have hlenc := rootHeap_length (pointerStart (rootHeap h name none (some refs)) h.length) none (some h.length) none
    rw [hlen0] at hchild hlenc
    have hrc := (rootHeap_ext (pointerStart (rootHeap h name none (some refs)) h.length) none (some h.length) none).2 h.length
      (by rw [hlen0]; exact Nat.lt_succ_self _)
    have hps : (pointerStart (rootHeap h name none (some refs)) h.length).at h.length =
        { dyn_type.zero with name := name, referenceTypes := some refs,
                             type := DynKind.TYPED_POINTER, descriptor := some '*',
                             ffiType := some ffi_type_pointer } := by
      simp [pointerStart, Heap.at_upd, hlen, hroot, dyn_type.zero]
    have hsub : (refHeap (rootHeap (pointerStart (rootHeap h name none (some refs)) h.length) none (some h.length) none)
          (h.length + 1)).at (h.length + 1) =
        { dyn_type.zero with parent := some h.length, type := DynKind.REF,
                             descriptor := some 'l' } := by
      simp [refHeap, Heap.at_upd, hlenc, hchild, dyn_type.zero]
    have hat : ((refHeap (rootHeap (pointerStart (rootHeap h name none (some refs)) h.length) none (some h.length) none)
          (h.length + 1)).at h.length).referenceTypes = some refs := by
      simp [refHeap, Heap.at_upd, hrc, hps]
    refine ⟨((refHeap (rootHeap (pointerStart (rootHeap h name none (some refs)) h.length) none
        (some h.length) none) (h.length + 1)).upd (h.length + 1) fun x =>
          { x with ref_ref := some t }).upd h.length fun x =>
            { x with typedPointer_typedType := some (h.length + 1) }, ⟨7, ?_⟩, ?_, ?_, ?_⟩
    · intro fuel hle
      obtain ⟨k, rfl⟩ : ∃ k, fuel = k + 7 := ⟨fuel - 7, by omega⟩
      have hf : dynType_findType (k + 2) _ (h.length + 1) n = some (some t) :=
        (dynType_findType_parent (k + 1) _ (h.length + 1) h.length n
          (scopeScan_none _ _ _ (by rw [hsub]; rfl)) (by rw [hsub]; rfl) (by rw [hsub])).trans
        (dynType_findType_scope _ _ _ _ _ (scopeScan_scopeEntry h _ _ n refs t hE2 hat ht hv))
      dsimp only
      rw [dynType_parseWithStr_unfold, List.cons_append, List.cons_append,
        cstr_nulFree _ (NulFree.cons (by decide) (NulFree.cons (by decide) hnf)),
        dynType_parseWithStream_unfold, dynType_parseAny_pointer,
        dynType_parseTypedPointer_unfold, dynType_parseWithStream_unfold, hlen0,
        dynType_parseAny_l, dynType_parseRefByValue_resolved _ n [] _ _ t hn hf]
      rfl
    · simp [dynType_type, refHeap, Heap.at_upd, Heap.length_upd, hlenc, hrc, hl1, hps]
    · simp [dynType_typedPointer_getTypedType, refHeap, Heap.at_upd, Heap.length_upd, hlenc,
        hrc, hl1, hps, hchild]
    · exact (hE2.ext_upd_fresh _ (Nat.le_succ _) _).ext_upd_fresh _ (Nat.le_refl _) _

/-- Witness of C5: the scope holds `node={IP children next}`; `lnode;` and
`*lnode;` resolve to it, a Complex whose first field is the `i32` parsed from
`I`. -/
theorem C5_scope_reference_witness :
    isIdent "node".toList = true ∧ ScopeEntry scopeNodeHeap [0] "node".toList 0 ∧
    (∀ q ∈ [0], q < scopeNodeHeap.length) ∧
    ((∃ h', Returns (fun fuel => dynType_parseWithStr fuel ('l' :: "node".toList ++ [';']) none
        (some [0]) none scopeNodeHeap) (Status.OK, some scopeNodeHeap.length, h') ∧
      dynType_type h' scopeNodeHeap.length = DynKind.REF ∧
      (h'.at scopeNodeHeap.length).ref_ref = some 0 ∧ Ext scopeNodeHeap h') ∧
    (∃ h', Returns (fun fuel => dynType_parseWithStr fuel ('*' :: 'l' :: "node".toList ++ [';'])
        none (some [0]) none scopeNodeHeap) (Status.OK, some scopeNodeHeap.length, h') ∧
      dynType_type h' scopeNodeHeap.length = DynKind.TYPED_POINTER ∧
      dynType_typedPointer_getTypedType h' scopeNodeHeap.length = some (some 0) ∧
      Ext scopeNodeHeap h')) ∧
    dynType_type scopeNodeHeap 0 = DynKind.COMPLEX ∧
    dynType_complex_dynTypeAt scopeNodeHeap 0 0 = some (some 1) ∧
    dynType_descriptorType scopeNodeHeap 1 = some 'I' ∧
    (scopeNodeHeap.at 1).ffiType = some ffi_type_sint32 :=
  ⟨by decide, ⟨[], [], rfl, fun _ hq => absurd hq (List.not_mem_nil _), by decide⟩, by decide,
    C5_scope_reference "node".toList (by decide) none none scopeNodeHeap [0] 0
      ⟨[], [], rfl, fun _ hq => absurd hq (List.not_mem_nil _), by decide⟩ (by decide),
    by decide, by decide, by decide, by decide⟩

/-- C6: a descriptor whose first character is neither a simple letter nor one
of `T L l { [ * t`, the empty descriptor included, is a parse error; the out
parameter keeps its content. -/
theorem C6_unknown_first_character (descriptor : List Char) (name : Option (List Char))
    (refTypes : Option (List Ptr)) (result : Option Ptr) (h : Heap)
    (hc : ∀ c, descriptor.head? = some c →
      c ∉ simpleTable.map Prod.fst ∧ c ∉ dispatchChars) :
    Returns (fun fuel => dynType_parseWithStr fuel descriptor name refTypes result h)
      (Status.PARSE_ERROR, result, rootHeap h name none refTypes) := by
  refine ⟨2, ?_⟩
  intro fuel hle
  obtain ⟨n, rfl⟩ : ∃ n, fuel = n + 2 := ⟨fuel - 2, by omega⟩
  dsimp only
  rw [dynType_parseWithStr_unfold, dynType_parseWithStream_unfold]
  cases descriptor with
  | nil => rw [cstr_nil, dynType_parseAny_eof]; rfl
  | cons c cs =>
    rw [cstr_cons]
    by_cases h0 : c = Char.ofNat 0
    · rw [if_pos h0, dynType_parseAny_eof]; rfl
    · obtain ⟨h1, h2⟩ := hc c rfl
      rw [if_neg h0, dynType_parseAny_default _ _ _ _ _ h2]
      simp [dynType_parseSimple, dynType_ffiTypeFor_none c h1]

/-- Witness of C6 at the descriptor `Q`. -/
theorem C6_unknown_first_character_witness :
    Returns (fun fuel => dynType_parseWithStr fuel "Q".toList none none none [])
      (Status.PARSE_ERROR, none, rootHeap [] none none none) :=
  C6_unknown_first_character "Q".toList none none none [] (by
    intro c hc
    simp only [String.toList, List.head?_cons, Option.some.injEq] at hc
    subst hc
    decide)

/-- C7 fails on the code: the descriptor `{Ii a`, a Complex with two field
bodies, one name and no closing brace, is accepted with status `OK`; the second
field is left without a name. -/
theorem C7_unterminated_complex_accepted :
    ∃ r, Returns (fun fuel => dynType_parseWithStr fuel "\x7bIi a".toList none none none []) r ∧
      r.1 = Status.OK ∧ r.2.1 = some 0 ∧
      (r.2.2.at 0).complex_entriesHead = [⟨1, some "a".toList⟩, ⟨2, none⟩] := by
  obtain ⟨r, hr, hp⟩ := dynType_parseWithStr_check 10 "\x7bIi a".toList none none none []
    (fun r => decide (r.1 = Status.OK ∧ r.2.1 = some 0 ∧
      (r.2.2.at 0).complex_entriesHead = [⟨1, some "a".toList⟩, ⟨2, none⟩])) (by decide)
  exact ⟨r, hr, by simpa using hp⟩

/-- C8: an identifier `n` that no type of the external scope bears, referred to
by `l n ;` or by `L n ;` in a descriptor that declares nothing, is a parse
error, and the out parameter keeps its content. -/
theorem C8_unresolved_reference (n : List Char) (hn : isIdent n = true)
    (name : Option (List Char)) (refTypes : Option (List Ptr)) (result : Option Ptr) (h : Heap)
    (hscope : ∀ refs, refTypes = some refs → NotDeclared h refs n ∧ ∀ q ∈ refs, q < h.length) :
    (∃ h', Returns (fun fuel => dynType_parseWithStr fuel ('l' :: n ++ [';']) name refTypes
      result h) (Status.PARSE_ERROR, result, h')) ∧
    (∃ h', Returns (fun fuel => dynType_parseWithStr fuel ('L' :: n ++ [';']) name refTypes
      result h) (Status.PARSE_ERROR, result, h')) := by
  have hnf : NulFree (n ++ [';']) :=
    (isIdent_nulFree hn).append (NulFree.cons (by decide) NulFree.nil)
  have hl1 : h.length < h.length + 1 + 1 := by omega
  have hroot := rootHeap_at h name none refTypes
  have hlen := rootHeap_length h name none refTypes
  have hext := rootHeap_ext h name none refTypes
  constructor
  · refine ⟨refHeap (rootHeap h name none refTypes) h.length, 3, ?_⟩
    intro fuel hle
    obtain ⟨k, rfl⟩ : ∃ k, fuel = k + 3 := ⟨fuel - 3, by omega⟩
    have hat : (refHeap (rootHeap h name none refTypes) h.length).at h.length =
        { dyn_type.zero with name := name, referenceTypes := refTypes, type := DynKind.REF,
                             descriptor := some 'l' } := by
      simp [refHeap, Heap.at_upd, hlen, hroot, dyn_type.zero]
    have hf : dynType_findType (k + 1) (refHeap (rootHeap h name none refTypes) h.length)
        h.length n = some none := by
      apply dynType_findType_none
      · exact rootHeap_scopeScan h refTypes n _ (ext_refHeap_fresh hext _ (Nat.le_refl _))
          (by rw [hat]) hscope
      · rw [hat]; rfl
      · rw [hat]; rfl
    dsimp only
    rw [dynType_parseWithStr_unfold, List.cons_append,
      cstr_nulFree _ (NulFree.cons (by decide) hnf),
      dynType_parseWithStream_unfold, dynType_parseAny_l,
      dynType_parseRefByValue_unresolved _ n ';' [] _ _ hn (by decide) hf]
    rfl
  · refine ⟨refHeap (pointerHeap (rootHeap h name none refTypes) h.length) (h.length + 1), 4, ?_⟩
    intro fuel hle
    obtain ⟨k, rfl⟩ : ∃ k, fuel = k + 4 := ⟨fuel - 4, by omega⟩
    have hsub : (refHeap (pointerHeap (rootHeap h name none refTypes) h.length)
        (h.length + 1)).at (h.length + 1) =
        { dyn_type.zero with parent := some h.length, type := DynKind.REF,
                             descriptor := some 'l' } := by
      simp [refHeap, pointerHeap, Heap.at_upd, Heap.at_append_singleton, Heap.length_upd, hlen,
        hl1, dyn_type.zero]
    have hat : (refHeap (pointerHeap (rootHeap h name none refTypes) h.length)
        (h.length + 1)).at h.length =
        { dyn_type.zero with name := name, referenceTypes := refTypes,
                             type := DynKind.TYPED_POINTER, descriptor := some '*',
                             ffiType := some ffi_type_pointer,
                             typedPointer_typedType := some (h.length + 1) } := by
      simp [refHeap, pointerHeap, Heap.at_upd, Heap.at_append_singleton, Heap.length_upd, hlen,
        hl1, hroot, dyn_type.zero]
    have hE : Ext h (refHeap (pointerHeap (rootHeap h name none refTypes) h.length)
        (h.length + 1)) :=
      ext_refHeap_fresh (ext_pointerHeap_fresh hext _ (Nat.le_refl _)) _ (Nat.le_succ _)
    have hf : dynType_findType (k + 2) (refHeap (pointerHeap (rootHeap h name none refTypes)
        h.length) (h.length + 1)) (h.length + 1) n = some none := by
      rw [dynType_findType_parent (k + 1) _ (h.length + 1) h.length n
        (scopeScan_none _ _ _ (by rw [hsub]; rfl)) (by rw [hsub]; rfl) (by rw [hsub])]
      apply dynType_findType_none
      · exact rootHeap_scopeScan h refTypes n _ hE (by rw [hat]) hscope
      · rw [hat]; rfl
      · rw [hat]; rfl
    dsimp only
    rw [dynType_parseWithStr_unfold, List.cons_append,
      cstr_nulFree _ (NulFree.cons (by decide) hnf),
      dynType_parseWithStream_unfold, dynType_parseAny_L, dynType_parseReference_unfold, hlen,
      dynType_parseRefByValue_unresolved _ n ';' [] _ _ hn (by decide) hf]
    rfl

/-- Witness of C8: the descriptor `llmissing;`, a reference to the name
`lmissing`, with no external scope. -/
theorem C8_unresolved_reference_witness :
    isIdent "lmissing".toList = true ∧
    (∀ refs, (none : Option (List Ptr)) = some refs →
      NotDeclared [] refs "lmissing".toList ∧ ∀ q ∈ refs, q < ([] : Heap).length) ∧
    (∃ h', Returns (fun fuel => dynType_parseWithStr fuel ('l' :: "lmissing".toList ++ [';'])
      none none none []) (Status.PARSE_ERROR, none, h')) ∧
    (∃ h', Returns (fun fuel => dynType_parseWithStr fuel ('L' :: "lmissing".toList ++ [';'])
      none none none []) (Status.PARSE_ERROR, none, h')) :=
  ⟨by decide, fun _ hr => absurd hr (by simp),
    C8_unresolved_reference "lmissing".toList (by decide) none none none []
      (fun _ hr => absurd hr (by simp))⟩

/-- C9: when the stream parser returns `OK` on the descriptor `p ++ r` having
read exactly `p`, the string entry returns `OK` if `r` is empty or starts with
a NUL byte, and a parse error if `r` starts with any other character. -/
theorem C9_trailing_characters (p r : List Char) (name : Option (List Char))
    (refTypes : Option (List Ptr)) (result res : Option Ptr) (h h' : Heap) (hp : NulFree p)
    (hs : Returns (fun fuel => dynType_parseWithStream fuel (p ++ cstr r) name none refTypes
      result h) (Status.OK, res, cstr r, h')) :
    Returns (fun fuel => dynType_parseWithStr fuel (p ++ r) name refTypes result h)
      (if r = [] ∨ r.head? = some (Char.ofNat 0) then Status.OK else Status.PARSE_ERROR,
        res, h') := by
  obtain ⟨N, hN⟩ := hs
  refine ⟨N, ?_⟩
  intro fuel hle
  have hrun := hN fuel hle
  dsimp only at hrun ⊢
  rw [dynType_parseWithStr_unfold, cstr_append p r hp, hrun]
  cases r with
  | nil => simp [cstr_nil, fgetc]
  | cons c cs =>
    rw [cstr_cons]
    by_cases h0 : c = Char.ofNat 0
    · simp [h0, fgetc]
    · simp [h0, fgetc]

/-- Witness of C9: `II` is a parse error (the first `I` parses, the second is
left over) and `I` is accepted. -/
theorem C9_trailing_characters_witness :
    NulFree ['I'] ∧
    Returns (fun fuel => dynType_parseWithStr fuel (['I'] ++ ['I']) none none none [])
      (if ['I'] = [] ∨ ['I'].head? = some (Char.ofNat 0) then Status.OK
        else Status.PARSE_ERROR, some 0,
        [{ dyn_type.zero with type := DynKind.SIMPLE, descriptor := some 'I',
                              ffiType := some ffi_type_sint32 }]) ∧
    Returns (fun fuel => dynType_parseWithStr fuel (['I'] ++ []) none none none [])
      (if ([] : List Char) = [] ∨ ([] : List Char).head? = some (Char.ofNat 0) then Status.OK
        else Status.PARSE_ERROR, some 0,
        [{ dyn_type.zero with type := DynKind.SIMPLE, descriptor := some 'I',
                              ffiType := some ffi_type_sint32 }]) :=
  ⟨by decide,
    C9_trailing_characters ['I'] ['I'] none none none (some 0) []
      [{ dyn_type.zero with type := DynKind.SIMPLE, descriptor := some 'I',
                            ffiType := some ffi_type_sint32 }]
      (by decide)
      (dynType_parseWithStream_returns (by decide : dynType_parseWithStream 2 _ _ _ _ _ _ = _)),
    C9_trailing_characters ['I'] [] none none none (some 0) []
      [{ dyn_type.zero with type := DynKind.SIMPLE, descriptor := some 'I',
                            ffiType := some ffi_type_sint32 }]
      (by decide)
      (dynType_parseWithStream_returns (by decide : dynType_parseWithStream 2 _ _ _ _ _ _ = _))⟩

/-- C10 fails on the code: in `{Q a}` and in `{QI a b}` the field body `Q` is a
parse error, yet the enclosing Complex, and the whole descriptor, is accepted
with status `OK`; the field parsed from `Q` keeps the invalid kind. -/
theorem C10_field_error_swallowed :
    (∃ r, Returns (fun fuel => dynType_parseWithStr fuel "\x7bQ a\x7d".toList none none none []) r ∧
      r.1 = Status.OK ∧ dynType_type r.2.2 1 = DynKind.INVALID) ∧
    (∃ r, Returns (fun fuel => dynType_parseWithStr fuel "\x7bQI a b\x7d".toList none none none []) r ∧
      r.1 = Status.OK ∧ dynType_type r.2.2 1 = DynKind.INVALID) ∧
    (∀ (fuel : Nat) (rest : FILE) (type : Ptr) (h : Heap),
      dynType_parseAny (fuel + 1) ('Q' :: rest) type h = some (Status.PARSE_ERROR, rest, h)) := by
  refine ⟨?_, ?_, ?_⟩
  rotate_left 2
  · intro fuel rest type h
    rw [dynType_parseAny_default _ _ _ _ _ (by decide)]
    rfl
  · obtain ⟨r, hr, hp⟩ := dynType_parseWithStr_check 10 "\x7bQ a\x7d".toList none none none []
      (fun r => decide (r.1 = Status.OK ∧ dynType_type r.2.2 1 = DynKind.INVALID)) (by decide)
    exact ⟨r, hr, by simpa using hp⟩
  · obtain ⟨r, hr, hp⟩ := dynType_parseWithStr_check 10 "\x7bQI a b\x7d".toList none none none []
      (fun r => decide (r.1 = Status.OK ∧ dynType_type r.2.2 1 = DynKind.INVALID)) (by decide)
    exact ⟨r, hr, by simpa using hp⟩


/-- C11 fails on the code: on the descriptors `{` and `{I` the parser does not
return, whatever the fuel. -/
theorem C11_complex_loops_at_end_of_input (fuel : Nat) (name : Option (List Char))
    (refTypes : Option (List Ptr)) (result : Option Ptr) (h : Heap) :
    dynType_parseWithStr fuel ['{'] name refTypes result h = none ∧
    dynType_parseWithStr fuel ['{', 'I'] name refTypes result h = none := by
  have h1 : ∀ f s (type : Ptr) (g : Heap), (s = [] ∨ s = ['I']) →
      dynType_parseComplex f s type g = none := by
    intro f s type g hs
    cases f with
    | zero => rw [dynType_parseComplex]
    | succ n =>
      rw [dynType_parseComplex_unfold]
      rcases hs with rfl | rfl
      · simp [fgetc, parseComplex_entries_eof]
      · simp [fgetc, parseComplex_entries_last _ 'I' _ _ _ (by decide) (by decide)]
  have h2 : ∀ f s (type : Ptr) (g : Heap), (s = [] ∨ s = ['I']) →
      dynType_parseAny f ('{' :: s) type g = none := by
    intro f s type g hs
    cases f with
    | zero => rw [dynType_parseAny]
    | succ n => rw [dynType_parseAny_complex, h1 _ _ _ _ hs]
  have h3 : ∀ f s, (s = [] ∨ s = ['I']) →
      dynType_parseWithStream f ('{' :: s) name none refTypes result h = none := by
    intro f s hs
    cases f with
    | zero => rw [dynType_parseWithStream]
    | succ n => rw [dynType_parseWithStream_unfold, h2 _ _ _ _ hs]
  constructor
  · rw [dynType_parseWithStr_unfold, cstr_nulFree _ (by decide), h3 _ _ (Or.inl rfl)]
  · rw [dynType_parseWithStr_unfold, cstr_nulFree _ (by decide), h3 _ _ (Or.inr rfl)]

/-- C12 fails on the code: `{lx a}` is accepted with status `OK` although no
type is named `x`, and the field is a reference without a target; `{Q a}` is
accepted with a field of the invalid kind. -/
theorem C12_dangling_reference_accepted :
    (∃ r, Returns (fun fuel => dynType_parseWithStr fuel "\x7blx a\x7d".toList none none none []) r ∧
      r.1 = Status.OK ∧ r.2.1 = some 0 ∧
      (r.2.2.at 0).complex_entriesHead = [⟨1, some "a".toList⟩] ∧
      dynType_type r.2.2 1 = DynKind.REF ∧ (r.2.2.at 1).ref_ref = none) ∧
    (∃ r, Returns (fun fuel => dynType_parseWithStr fuel "\x7bQ a\x7d".toList none none none []) r ∧
      r.1 = Status.OK ∧ r.2.1 = some 0 ∧
      (r.2.2.at 0).complex_entriesHead = [⟨1, some "a".toList⟩] ∧
      dynType_type r.2.2 1 = DynKind.INVALID) := by
  constructor
  · obtain ⟨r, hr, hp⟩ := dynType_parseWithStr_check 10 "\x7blx a\x7d".toList none none none []
      (fun r => decide (r.1 = Status.OK ∧ r.2.1 = some 0 ∧
        (r.2.2.at 0).complex_entriesHead = [⟨1, some "a".toList⟩] ∧
        dynType_type r.2.2 1 = DynKind.REF ∧ (r.2.2.at 1).ref_ref = none)) (by decide)
    exact ⟨r, hr, by simpa using hp⟩
  · obtain ⟨r, hr, hp⟩ := dynType_parseWithStr_check 10 "\x7bQ a\x7d".toList none none none []
      (fun r => decide (r.1 = Status.OK ∧ r.2.1 = some 0 ∧
        (r.2.2.at 0).complex_entriesHead = [⟨1, some "a".toList⟩] ∧
        dynType_type r.2.2 1 = DynKind.INVALID)) (by decide)
    exact ⟨r, hr, by simpa using hp⟩

/-- C13 fails on the code: `{II a}`, two field bodies and one name, is accepted
with status `OK`; the second field is left without a name, and the lookup of a
name in the resulting Complex compares it with that missing name. -/
theorem C13_fewer_names_accepted :
    ∃ r, Returns (fun fuel => dynType_parseWithStr fuel "\x7bII a\x7d".toList none none none []) r ∧
      r.1 = Status.OK ∧ r.2.1 = some 0 ∧
      (r.2.2.at 0).complex_entriesHead = [⟨1, some "a".toList⟩, ⟨2, none⟩] ∧
      (r.2.2.at 0).complex_types = some [1, 2] ∧
      dynType_complex_indexForName r.2.2 0 "a".toList = none := by
  obtain ⟨r, hr, hp⟩ := dynType_parseWithStr_check 10 "\x7bII a\x7d".toList none none none []
    (fun r => decide (r.1 = Status.OK ∧ r.2.1 = some 0 ∧
      (r.2.2.at 0).complex_entriesHead = [⟨1, some "a".toList⟩, ⟨2, none⟩] ∧
      (r.2.2.at 0).complex_types = some [1, 2] ∧
      dynType_complex_indexForName r.2.2 0 "a".toList = none)) (by decide)
  exact ⟨r, hr, by simpa using hp⟩

/-- C14 as stated fails: `{II a a}` is accepted with status `OK`, and both
fields of the resulting Complex are named `a`. -/
theorem C14_repeated_name_accepted :
    ∃ r, Returns (fun fuel => dynType_parseWithStr fuel "\x7bII a a\x7d".toList none none none [])
        r ∧
      r.1 = Status.OK ∧ r.2.1 = some 0 ∧
      (r.2.2.at 0).complex_entriesHead = [⟨1, some "a".toList⟩, ⟨2, some "a".toList⟩] ∧
      ¬ ((r.2.2.at 0).complex_entriesHead.map complex_type_entry.name).Nodup := by
  obtain ⟨r, hr, hp⟩ := dynType_parseWithStr_check 10 "\x7bII a a\x7d".toList none none none []
    (fun r => decide (r.1 = Status.OK ∧ r.2.1 = some 0 ∧
      (r.2.2.at 0).complex_entriesHead = [⟨1, some "a".toList⟩, ⟨2, some "a".toList⟩] ∧
      ¬ ((r.2.2.at 0).complex_entriesHead.map complex_type_entry.name).Nodup)) (by decide)
  exact ⟨r, hr, by simpa using hp⟩

/-- C14, amended: the parser does not compare the names of the fields.  For a
well-formed Complex descriptor `{ b1 … bk  n1 … nk }` the names of the entries
of the root are the names written in the descriptor, in their order; they are
pairwise distinct exactly when the names written are. -/
theorem C14_names_as_written (fields : List Field) (hk : 1 ≤ fields.length)
    (hf : ∀ f ∈ fields, f.body ≠ [] ∧ NulFree f.body ∧ isIdent f.name = true)
    (name : Option (List Char)) (refTypes : Option (List Ptr)) (result : Option Ptr) (h : Heap)
    (hp : FieldsParse h.length (namesText fields ++ ['}']) fields
      (complexStart (rootHeap h name none refTypes) h.length)) :
    ∃ h', Returns (fun fuel => dynType_parseWithStr fuel
          ('{' :: (bodiesText fields ++ (namesText fields ++ ['}']))) name refTypes result h)
        (Status.OK, some h.length, h') ∧
      (h'.at h.length).complex_entriesHead.map complex_type_entry.name =
        (fields.map Field.name).map some ∧
      (((h'.at h.length).complex_entriesHead.map complex_type_entry.name).Nodup ↔
        (fields.map Field.name).Nodup) := by
  obtain ⟨h', hr, -, hen, -, -, -, -⟩ :=
    dynType_parseWithStr_complex fields hk hf name refTypes result h hp
  have hnames : (h'.at h.length).complex_entriesHead.map complex_type_entry.name =
      (fields.map Field.name).map some := by
    rw [hen]
    have := namedEntries_names fields (complexStart (rootHeap h name none refTypes) h.length)
    rw [List.map_map]
    exact this
  refine ⟨h', hr, hnames, ?_⟩
  rw [hnames]
  exact List.nodup_map_iff (Option.some_injective _)

/-- Witness of C14: in `{DD a a}` both fields are named `a`, and the descriptor
is accepted. -/
theorem C14_names_as_written_witness :
    1 ≤ (doubleFields 0 2 (complexStart (rootHeap [] none none none) 0)).length ∧
    (∀ f ∈ doubleFields 0 2 (complexStart (rootHeap [] none none none) 0),
      f.body ≠ [] ∧ NulFree f.body ∧ isIdent f.name = true) ∧
    FieldsParse ([] : Heap).length
      (namesText (doubleFields 0 2 (complexStart (rootHeap [] none none none) 0)) ++ ['}'])
      (doubleFields 0 2 (complexStart (rootHeap [] none none none) 0))
      (complexStart (rootHeap [] none none none) ([] : Heap).length) ∧
    (∃ h', Returns (fun fuel => dynType_parseWithStr fuel
          ('{' :: (bodiesText (doubleFields 0 2 (complexStart (rootHeap [] none none none) 0)) ++
            (namesText (doubleFields 0 2 (complexStart (rootHeap [] none none none) 0)) ++
              ['}']))) none none none [])
        (Status.OK, some ([] : Heap).length, h') ∧
      (h'.at ([] : Heap).length).complex_entriesHead.map complex_type_entry.name =
        ((doubleFields 0 2 (complexStart (rootHeap [] none none none) 0)).map Field.name).map
          some ∧
      (((h'.at ([] : Heap).length).complex_entriesHead.map complex_type_entry.name).Nodup ↔
        ((doubleFields 0 2 (complexStart (rootHeap [] none none none) 0)).map
          Field.name).Nodup)) ∧
    '{' :: (bodiesText (doubleFields 0 2 (complexStart (rootHeap [] none none none) 0)) ++
      (namesText (doubleFields 0 2 (complexStart (rootHeap [] none none none) 0)) ++ ['}'])) =
      "\x7bDD a a\x7d".toList ∧
    (doubleFields 0 2 (complexStart (rootHeap [] none none none) 0)).map Field.name =
      ["a".toList, "a".toList] :=
  ⟨by decide,
    fun f hf => by
      obtain ⟨hb, hm⟩ := doubleFields_mem 0 2 _ f hf
      rw [hb, hm]
      exact ⟨by decide, by decide, by decide⟩,
    doubleFields_parse _ _ _ _,
    C14_names_as_written (doubleFields 0 2 (complexStart (rootHeap [] none none none) 0))
      (by decide)
      (fun f hf => by
        obtain ⟨hb, hm⟩ := doubleFields_mem 0 2 _ f hf
        rw [hb, hm]
        exact ⟨by decide, by decide, by decide⟩)
      none none none [] (doubleFields_parse _ _ _ _),
    by decide, by decide⟩

/-- C15 fails on the code: on `II` the string entry returns a parse error, yet
the out parameter, empty before the call, holds the tree of the first `I`
after it. -/
theorem C15_tree_handed_out_on_error :
    ∃ r, Returns (fun fuel => dynType_parseWithStr fuel "II".toList none none none []) r ∧
      r.1 = Status.PARSE_ERROR ∧ r.2.1 = some 0 ∧ r.2.1 ≠ (none : Option Ptr) ∧
      dynType_type r.2.2 0 = DynKind.SIMPLE := by
  obtain ⟨r, hr, hp⟩ := dynType_parseWithStr_check 10 "II".toList none none none []
    (fun r => decide (r.1 = Status.PARSE_ERROR ∧ r.2.1 = some 0 ∧ r.2.1 ≠ (none : Option Ptr) ∧
      dynType_type r.2.2 0 = DynKind.SIMPLE)) (by decide)
  exact ⟨r, hr, by simpa using hp⟩

/-- C16: on a Complex all of whose fields are named, `dynType_complex_indexForName`
returns an index for every string `s`: it is `-1` exactly when no field is named
`s`, and otherwise the position, below the number of fields, of a field named
`s`. -/
theorem C16_index_for_name (h : Heap) (type : Ptr) (s : List Char)
    (hk : dynType_type h type = DynKind.COMPLEX)
    (hnamed : ∀ e ∈ (h.at type).complex_entriesHead, e.name ≠ none) :
    ∃ idx : Int, dynType_complex_indexForName h type s = some idx ∧
      (idx = -1 ↔ ∀ e ∈ (h.at type).complex_entriesHead, e.name ≠ some s) ∧
      (idx ≠ -1 → ∃ i : Nat, idx = i ∧ i < (h.at type).complex_entriesHead.length ∧
        ((h.at type).complex_entriesHead.get? i).map complex_type_entry.name = some (some s)) := by
  obtain ⟨idx, h1, h2⟩ := indexForName_loop_found s (h.at type).complex_entriesHead [] (-1) hnamed
    (Or.inl ⟨rfl, fun _ hx => absurd hx (List.not_mem_nil _)⟩)
  rw [List.nil_append] at h2
  have h0 : dynType_complex_indexForName h type s = some idx := by
    have hk2 : (h.at type).type = DynKind.COMPLEX := hk
    rw [dynType_complex_indexForName, if_pos hk2]
    exact h1
  refine ⟨idx, h0, ?_, ?_⟩
  · constructor
    · intro hi
      rcases h2 with ⟨_, h3⟩ | ⟨j, h3, _⟩
      · exact h3
      · omega
    · intro hno
      rcases h2 with ⟨h3, _⟩ | ⟨j, _, h4⟩
      · exact h3
      · exfalso
        cases hx : (h.at type).complex_entriesHead.get? j with
        | none => rw [hx] at h4; simp at h4
        | some e =>
          rw [hx] at h4
          exact hno e (List.get?_mem hx) (by simpa using h4)
  · intro hi
    rcases h2 with ⟨h3, _⟩ | ⟨j, h3, h4⟩
    · exact absurd h3 hi
    · refine ⟨j, h3, ?_, h4⟩
      by_contra hc
      rw [List.get?_eq_none.2 (Nat.le_of_not_lt hc)] at h4
      simp at h4

/-- Witness of C16: in the Complex `{ssi age weight height}`, at address 1 of
`personHeap`, the name `weight` is at index 1 and the name `length` is absent. -/
theorem C16_index_for_name_witness :
    dynType_type personHeap 1 = DynKind.COMPLEX ∧
    (∀ e ∈ (personHeap.at 1).complex_entriesHead, e.name ≠ none) ∧
    (∃ idx : Int, dynType_complex_indexForName personHeap 1 "weight".toList = some idx ∧
      (idx = -1 ↔ ∀ e ∈ (personHeap.at 1).complex_entriesHead, e.name ≠ some "weight".toList) ∧
      (idx ≠ -1 → ∃ i : Nat, idx = i ∧ i < (personHeap.at 1).complex_entriesHead.length ∧
        ((personHeap.at 1).complex_entriesHead.get? i).map complex_type_entry.name =
          some (some "weight".toList))) ∧
    dynType_complex_indexForName personHeap 1 "weight".toList = some 1 ∧
    dynType_complex_indexForName personHeap 1 "length".toList = some (-1) :=
  ⟨by decide, by decide, C16_index_for_name personHeap 1 "weight".toList (by decide) (by decide),
    by decide, by decide⟩

/-- C17 as stated fails: in the Complex parsed from `{D…D a … a}` with 8193
fields of type double, the packing rule puts the last field at offset 65536,
while `dynType_complex_valLocAt` returns the address of the instance itself,
offset 0. -/
theorem C17_location_wraps_at_65536 :
    ∃ h', Returns (fun fuel => dynType_parseWithStr fuel (wideDescriptor 8193) none none none [])
        (Status.OK, some 0, h') ∧
      (h'.at 0).complex_entriesHead.length = 8193 ∧
      (h'.at 0).complex_elements = some ((List.replicate 8193 ffi_type_double).map some) ∧
      specOffset (List.replicate 8193 ffi_type_double) 8192 = 65536 ∧
      dynType_complex_valLocAt h' 0 ((8192 : Nat) : Int) 0 = some 0 := by
  obtain ⟨h', hr, hty, hlen, -, hel, -⟩ := dynType_parseWithStr_wide 8193 (by decide)
  refine ⟨h', hr, hlen, ?_, ?_, ?_⟩
  · rw [hel, List.map_replicate]
  · rw [specOffset_doubles 8193 8192 (by decide)]
  · rw [dynType_complex_valLocAt, if_pos hty,
      dynType_getOffset_doubles h' 0 8193 8192 hty hel (by decide)]
    rfl

/-- C17, amended: on a Complex whose member array holds a layout for each of
its fields, with alignments from 1 to 65535, `dynType_complex_valLocAt` returns
for the field `i` the address of the instance plus the offset that the packing
rule gives the field, provided that offset is below 65536. -/
theorem C17_field_location (h : Heap) (type : Ptr) (fs : List ffi_type) (i b : Nat)
    (hk : dynType_type h type = DynKind.COMPLEX)
    (hel : (h.at type).complex_elements = some (fs.map some))
    (hal : ∀ t ∈ fs, 0 < t.alignment ∧ t.alignment < 65536) (hi : i < fs.length)
    (hb : specOffset fs i < 65536) :
    dynType_complex_valLocAt h type (i : Int) b = some (b + specOffset fs i) := by
  have hk2 : (h.at type).type = DynKind.COMPLEX := hk
  rw [dynType_complex_valLocAt, if_pos hk2, dynType_getOffset_exact h type fs i hk2 hel hal hi hb]
  rfl

/-- Witness of C17: in `{BDI a b c}` the field `c` is at offset 16. -/
theorem C17_field_location_witness :
    dynType_type mixedHeap 0 = DynKind.COMPLEX ∧
    (mixedHeap.at 0).complex_elements =
      some ([ffi_type_sint8, ffi_type_double, ffi_type_sint32].map some) ∧
    (∀ t ∈ [ffi_type_sint8, ffi_type_double, ffi_type_sint32],
      0 < t.alignment ∧ t.alignment < 65536) ∧
    2 < [ffi_type_sint8, ffi_type_double, ffi_type_sint32].length ∧
    specOffset [ffi_type_sint8, ffi_type_double, ffi_type_sint32] 2 < 65536 ∧
    dynType_complex_valLocAt mixedHeap 0 ((2 : Nat) : Int) 1000 =
      some (1000 + specOffset [ffi_type_sint8, ffi_type_double, ffi_type_sint32] 2) ∧
    specOffset [ffi_type_sint8, ffi_type_double, ffi_type_sint32] 2 = 16 ∧
    Returns (fun fuel => dynType_parseWithStr fuel "\x7bBDI a b c\x7d".toList none none none [])
      (Status.OK, some 0, mixedHeap) :=
  ⟨by decide, by decide, by decide, by decide, by decide,
    C17_field_location mixedHeap 0 [ffi_type_sint8, ffi_type_double, ffi_type_sint32] 2 1000
      (by decide) (by decide) (by decide) (by decide) (by decide),
    by decide, dynType_parseWithStr_returns (by decide : dynType_parseWithStr 10 _ _ _ _ _ = _)⟩

/-- C18 fails on the code: `Tp={II a b};{lp;I x y}` returns `OK` with a Complex
root whose first field is a reference and has no layout, so that the member
array ends before it.  The layout of the root has size 0 and the field `y`, of
size 4, is put at offset 0: it does not lie inside the root. -/
theorem C18_field_outside_complex :
    ∃ r, Returns (fun fuel => dynType_parseWithStr fuel
        "Tp=\x7bII a b\x7d;\x7blp;I x y\x7d".toList none none none []) r ∧
      r.1 = Status.OK ∧ r.2.1 = some 0 ∧ dynType_type r.2.2 0 = DynKind.COMPLEX ∧
      (r.2.2.at 0).complex_types = some [4, 5] ∧
      dynType_type r.2.2 4 = DynKind.REF ∧ (r.2.2.at 4).ffiType = none ∧
      (r.2.2.at 0).complex_elements = some [none, some ffi_type_sint32] ∧
      dynType_getOffset r.2.2 0 1 = some 0 ∧ dynType_size r.2.2 5 = some 4 ∧
      dynType_size r.2.2 0 = some 0 := by
  obtain ⟨r, hr, hp⟩ := dynType_parseWithStr_check 20
    "Tp=\x7bII a b\x7d;\x7blp;I x y\x7d".toList none none none []
    (fun r => decide (r.1 = Status.OK ∧ r.2.1 = some 0 ∧
      dynType_type r.2.2 0 = DynKind.COMPLEX ∧
      (r.2.2.at 0).complex_types = some [4, 5] ∧
      dynType_type r.2.2 4 = DynKind.REF ∧ (r.2.2.at 4).ffiType = none ∧
      (r.2.2.at 0).complex_elements = some [none, some ffi_type_sint32] ∧
      dynType_getOffset r.2.2 0 1 = some 0 ∧ dynType_size r.2.2 5 = some 4 ∧
      dynType_size r.2.2 0 = some 0)) (by decide)
  exact ⟨r, hr, by simpa using hp⟩

/-- C19 as stated fails: in the Complex parsed from `{D…D a … a}` with 8193
fields of type double, the offset computed for the field 8191 is 65528 and the
offset computed for the field 8192 is 0. -/
theorem C19_offsets_fall_at_65536 :
    ∃ h', Returns (fun fuel => dynType_parseWithStr fuel (wideDescriptor 8193) none none none [])
        (Status.OK, some 0, h') ∧
      (h'.at 0).complex_entriesHead.length = 8193 ∧
      dynType_getOffset h' 0 ((8191 : Nat) : Int) = some 65528 ∧
      dynType_getOffset h' 0 ((8192 : Nat) : Int) = some 0 := by
  obtain ⟨h', hr, hty, hlen, -, hel, -⟩ := dynType_parseWithStr_wide 8193 (by decide)
  refine ⟨h', hr, hlen, ?_, ?_⟩
  · rw [dynType_getOffset_doubles h' 0 8193 8191 hty hel (by decide)]
  · rw [dynType_getOffset_doubles h' 0 8193 8192 hty hel (by decide)]

/-- C19, amended: on a Complex whose member array holds a layout for each of
its fields, with alignments from 1 to 65535, and for a field `j` that the
packing rule puts below 65536: the offset computed for field 0 is 0, and for
every `i ≤ j` the offset computed for field `i` is a multiple of the alignment
of field `i` and at most the offset computed for field `j`. -/
theorem C19_offsets_ordered (h : Heap) (type : Ptr) (fs : List ffi_type) (j : Nat)
    (hk : dynType_type h type = DynKind.COMPLEX)
    (hel : (h.at type).complex_elements = some (fs.map some))
    (hal : ∀ t ∈ fs, 0 < t.alignment ∧ t.alignment < 65536) (hj : j < fs.length)
    (hb : specOffset fs j < 65536) :
    dynType_getOffset h type ((0 : Nat) : Int) = some 0 ∧
    ∀ i : Nat, i ≤ j → ∃ oi oj, dynType_getOffset h type (i : Int) = some oi ∧
      dynType_getOffset h type (j : Int) = some oj ∧ oi ≤ oj ∧
      (fs.getD i ⟨0, 0⟩).alignment ∣ oi := by
  have hk2 : (h.at type).type = DynKind.COMPLEX := hk
  have hmono := specOffset_mono fs (fun t ht => (hal t ht).1) j hj
  have hex : ∀ i, i ≤ j → dynType_getOffset h type (i : Int) = some (specOffset fs i) :=
    fun i hi => dynType_getOffset_exact h type fs i hk2 hel hal (by omega)
      (Nat.lt_of_le_of_lt (hmono i hi) hb)
  refine ⟨hex 0 (Nat.zero_le _), ?_⟩
  intro i hi
  exact ⟨_, _, hex i hi, hex j (Nat.le_refl _), hmono i hi, specOffset_dvd fs i⟩

/-- Witness of C19: in `{BDI a b c}` the offsets of the fields are 0, 8 and
16. -/
theorem C19_offsets_ordered_witness :
    dynType_type mixedHeap 0 = DynKind.COMPLEX ∧
    (mixedHeap.at 0).complex_elements =
      some ([ffi_type_sint8, ffi_type_double, ffi_type_sint32].map some) ∧
    (∀ t ∈ [ffi_type_sint8, ffi_type_double, ffi_type_sint32],
      0 < t.alignment ∧ t.alignment < 65536) ∧
    2 < [ffi_type_sint8, ffi_type_double, ffi_type_sint32].length ∧
    specOffset [ffi_type_sint8, ffi_type_double, ffi_type_sint32] 2 < 65536 ∧
    (dynType_getOffset mixedHeap 0 ((0 : Nat) : Int) = some 0 ∧
      ∀ i : Nat, i ≤ 2 → ∃ oi oj, dynType_getOffset mixedHeap 0 (i : Int) = some oi ∧
        dynType_getOffset mixedHeap 0 ((2 : Nat) : Int) = some oj ∧ oi ≤ oj ∧
        ([ffi_type_sint8, ffi_type_double, ffi_type_sint32].getD i ⟨0, 0⟩).alignment ∣ oi) ∧
    dynType_getOffset mixedHeap 0 0 = some 0 ∧ dynType_getOffset mixedHeap 0 1 = some 8 ∧
    dynType_getOffset mixedHeap 0 2 = some 16 :=
  ⟨by decide, by decide, by decide, by decide, by decide,
    C19_offsets_ordered mixedHeap 0 [ffi_type_sint8, ffi_type_double, ffi_type_sint32] 2
      (by decide) (by decide) (by decide) (by decide) (by decide),
    by decide, by decide, by decide⟩

/-- C20: a sequence descriptor `[ e` whose element type `e` parses successfully
where the parser meets it returns `OK` with a Sequence node whose layout is the
composition of the header `{u32, u32, pointer}`: its size is 16 and its
alignment 8, whatever the element type. -/
theorem C20_sequence_size (e : List Char) (hnul : NulFree e) (name : Option (List Char))
    (refTypes : Option (List Ptr)) (result item : Option Ptr) (h hE : Heap)
    (he : Returns (fun fuel => dynType_parseWithStream fuel e none (some h.length) none none
        (sequenceStart (rootHeap h name none refTypes) h.length)) (Status.OK, item, [], hE)) :
    ∃ h', Returns (fun fuel => dynType_parseWithStr fuel ('[' :: e) name refTypes result h)
        (Status.OK, some h.length, h') ∧
      dynType_type h' h.length = DynKind.SEQUENCE ∧
      (h'.at h.length).sequence_itemType = item ∧
      (h'.at h.length).ffiType = some (ffi_prep_struct seq_types) ∧
      ffi_prep_struct seq_types = ⟨16, 8⟩ ∧
      dynType_size h' h.length = some 16 := by
  have hroot := rootHeap_at h name none refTypes
  have hlen := rootHeap_length h name none refTypes
  have hrl : h.length < (rootHeap h name none refTypes).length := by
    rw [hlen]; exact Nat.lt_succ_self _
  have hsl : h.length < (sequenceStart (rootHeap h name none refTypes) h.length).length := by
    rw [sequenceStart, Heap.length_upd]; exact hrl
  have hat0 : ((sequenceStart (rootHeap h name none refTypes) h.length).at
      h.length).sequence_itemType = none := by
    simp [sequenceStart, Heap.at_upd, hlen, hroot, dyn_type.zero]
  obtain ⟨N, hN⟩ := he
  have hext : Ext (sequenceStart (rootHeap h name none refTypes) h.length) hE := by
    have := (frameInv (N + 1)).1 _ _ _ _ _ _ _ (hN (N + 1) (Nat.le_succ _))
    exact this
  have hEl : h.length < hE.length := Nat.lt_of_lt_of_le hsl hext.1
  have hEat : hE.at h.length = (sequenceStart (rootHeap h name none refTypes) h.length).at
      h.length := hext.2 _ hsl
  refine ⟨(hE.upd h.length fun t => { t with sequence_itemType := item }).upd h.length fun t =>
      { t with ffiType := some (dynType_prepCif seq_types) }, ⟨N + 3, ?_⟩, ?_, ?_, ?_, by decide,
    ?_⟩
  · intro fuel hle
    obtain ⟨m, rfl⟩ : ∃ m, fuel = m + 3 := ⟨fuel - 3, by omega⟩
    have hrun := hN m (by omega)
    dsimp only at hrun ⊢
    rw [dynType_parseWithStr_unfold, cstr_nulFree _ (NulFree.cons (by decide) hnul),
      dynType_parseWithStream_unfold, dynType_parseAny_sequence, dynType_parseSequence_unfold,
      hat0, hrun]
    simp [fgetc]
  · simp [dynType_type, Heap.at_upd, Heap.length_upd, hEl, hEat, sequenceStart, hrl]
  · simp [Heap.at_upd, Heap.length_upd, hEl]
  · simp [Heap.at_upd, Heap.length_upd, hEl]
    decide
  · simp [dynType_size, Heap.at_upd, Heap.length_upd, hEl]
    decide

/-- Witness of C20: the sequences `[{DD x y}`, of elements of size 16, and
`[B`, of elements of size 1, both have size 16. -/
theorem C20_sequence_size_witness :
    (NulFree "\x7bDD x y\x7d".toList ∧
      Returns (fun fuel => dynType_parseWithStream fuel "\x7bDD x y\x7d".toList none
        (some ([] : Heap).length) none none
        (sequenceStart (rootHeap [] none none none) ([] : Heap).length))
        (Status.OK, some 1, [], pointSeqHeap) ∧
      dynType_size pointSeqHeap 1 = some 16 ∧
      ∃ h', Returns (fun fuel => dynType_parseWithStr fuel ('[' :: "\x7bDD x y\x7d".toList) none
          none none []) (Status.OK, some ([] : Heap).length, h') ∧
        dynType_type h' ([] : Heap).length = DynKind.SEQUENCE ∧
        (h'.at ([] : Heap).length).sequence_itemType = some 1 ∧
        (h'.at ([] : Heap).length).ffiType = some (ffi_prep_struct seq_types) ∧
        ffi_prep_struct seq_types = ⟨16, 8⟩ ∧
        dynType_size h' ([] : Heap).length = some 16) ∧
    (NulFree ['B'] ∧
      Returns (fun fuel => dynType_parseWithStream fuel ['B'] none (some ([] : Heap).length) none
        none (sequenceStart (rootHeap [] none none none) ([] : Heap).length))
        (Status.OK, some 1, [], byteSeqHeap) ∧
      dynType_size byteSeqHeap 1 = some 1 ∧
      ∃ h', Returns (fun fuel => dynType_parseWithStr fuel ('[' :: ['B']) none none none [])
          (Status.OK, some ([] : Heap).length, h') ∧
        dynType_type h' ([] : Heap).length = DynKind.SEQUENCE ∧
        (h'.at ([] : Heap).length).sequence_itemType = some 1 ∧
        (h'.at ([] : Heap).length).ffiType = some (ffi_prep_struct seq_types) ∧
        ffi_prep_struct seq_types = ⟨16, 8⟩ ∧
        dynType_size h' ([] : Heap).length = some 16) :=
  ⟨⟨by decide,
      dynType_parseWithStream_returns (by decide : dynType_parseWithStream 10 _ _ _ _ _ _ = _),
      by decide,
      C20_sequence_size "\x7bDD x y\x7d".toList (by decide) none none none (some 1) [] pointSeqHeap
        (dynType_parseWithStream_returns
          (by decide : dynType_parseWithStream 10 _ _ _ _ _ _ = _))⟩,
    ⟨by decide,
      dynType_parseWithStream_returns (by decide : dynType_parseWithStream 10 _ _ _ _ _ _ = _),
      by decide,
      C20_sequence_size ['B'] (by decide) none none none (some 1) [] byteSeqHeap
        (dynType_parseWithStream_returns
          (by decide : dynType_parseWithStream 10 _ _ _ _ _ _ = _))⟩⟩

/-- C21: on a sequence whose element type has a layout, with a header and a
capacity `cap ≥ 0`, when the allocator has the memory, `dynType_sequence_alloc`
returns `OK`; the header holds the capacity `cap`, the length 0 and the address
of a fresh block of `cap` times the element size bytes, all zero; the length
read by `dynType_sequence_length` is then 0. -/
theorem C21_sequence_alloc (h : Heap) (type item : Ptr) (t : ffi_type) (seq : generic_sequence)
    (cap : Int) (out : Option Addr) (m : Mem)
    (hk : dynType_type h type = DynKind.SEQUENCE)
    (hi : (h.at type).sequence_itemType = some item) (ht : (h.at item).ffiType = some t)
    (hc0 : 0 ≤ cap) (hc1 : cap < 2147483648) :
    dynType_sequence_alloc h type (some seq) cap true out m =
      some (Status.OK, some ⟨cap.toNat, 0, some ⟨m.length, 0⟩⟩, some ⟨m.length, 0⟩,
        m ++ [List.replicate (cap.toNat * t.size) 0]) ∧
    (m ++ [List.replicate (cap.toNat * t.size) 0]).get? m.length =
      some (List.replicate (cap.toNat * t.size) 0) ∧
    (∀ b ∈ List.replicate (cap.toNat * t.size) 0, b = 0) ∧
    dynType_sequence_length (some ⟨cap.toNat, 0, some ⟨m.length, 0⟩⟩) = some 0 := by
  have hk2 : (h.at type).type = DynKind.SEQUENCE := hk
  have e1 : (cap % 18446744073709551616).toNat = cap.toNat := by omega
  have e2 : toUInt32 cap = cap.toNat := by unfold toUInt32; omega
  refine ⟨?_, ?_, ?_, rfl⟩
  · rw [dynType_sequence_alloc_eq h type item t seq cap true out m hk2 hi ht, if_pos rfl, e1, e2]
  · simp
  · intro b hb
    exact (List.mem_replicate.1 hb).2

/-- Witness of C21: the sequence `[{DD x y}` with capacity 3 gets a buffer of 48
zero bytes. -/
theorem C21_sequence_alloc_witness :
    dynType_type pointsHeap 0 = DynKind.SEQUENCE ∧
    (pointsHeap.at 0).sequence_itemType = some 1 ∧
    (pointsHeap.at 1).ffiType = some ⟨16, 8⟩ ∧ (0 : Int) ≤ 3 ∧ (3 : Int) < 2147483648 ∧
    (dynType_sequence_alloc pointsHeap 0 (some ⟨7, 7, none⟩) 3 true none [] =
        some (Status.OK, some ⟨(3 : Int).toNat, 0, some ⟨([] : Mem).length, 0⟩⟩,
          some ⟨([] : Mem).length, 0⟩,
          [] ++ [List.replicate ((3 : Int).toNat * (⟨16, 8⟩ : ffi_type).size) 0]) ∧
      (([] : Mem) ++ [List.replicate ((3 : Int).toNat * (⟨16, 8⟩ : ffi_type).size) 0]).get?
          ([] : Mem).length =
        some (List.replicate ((3 : Int).toNat * (⟨16, 8⟩ : ffi_type).size) 0) ∧
      (∀ b ∈ List.replicate ((3 : Int).toNat * (⟨16, 8⟩ : ffi_type).size) 0, b = 0) ∧
      dynType_sequence_length (some ⟨(3 : Int).toNat, 0, some ⟨([] : Mem).length, 0⟩⟩) =
        some 0) ∧
    Returns (fun fuel => dynType_parseWithStr fuel "[\x7bDD x y\x7d".toList none none none [])
      (Status.OK, some 0, pointsHeap) :=
  ⟨by decide, by decide, by decide, by decide, by decide,
    C21_sequence_alloc pointsHeap 0 1 ⟨16, 8⟩ ⟨7, 7, none⟩ 3 none [] (by decide) (by decide)
      (by decide) (by decide) (by decide),
    dynType_parseWithStr_returns (by decide : dynType_parseWithStr 10 _ _ _ _ _ = _)⟩

/-- C22: on a sequence whose element type has the size `s`, for a header with
capacity `cap` and an index `0 ≤ i < cap`, `dynType_sequence_locForIndex`
returns `OK` and the address `buf + i * s`, whatever the length; the header and
the memory are left as they were. -/
theorem C22_sequence_location (h : Heap) (type item : Ptr) (t : ffi_type)
    (seq : generic_sequence) (i : Nat) (m : Mem)
    (hk : dynType_type h type = DynKind.SEQUENCE)
    (hi : (h.at type).sequence_itemType = some item) (ht : (h.at item).ffiType = some t)
    (hcap : seq.cap < 4294967296) (hlt : i < seq.cap) (hint : i < 2147483648) :
    dynType_sequence_locForIndex h type (some seq) (i : Int) m =
      some (Status.OK, ptr_add seq.buf (i * t.size), some seq, m) := by
  have hu : toUInt32 (i : Int) = i := by unfold toUInt32; omega
  rw [dynType_sequence_locForIndex_eq h type item t seq i m hk hi ht hcap (by omega) (by omega),
    hu, if_neg (by omega), Nat.min_eq_left (Nat.le_of_lt hlt)]

/-- Witness of C22: in a sequence `[{DD x y}` of capacity 3 and length 0 the
element 2 is at `buf + 32`. -/
theorem C22_sequence_location_witness :
    dynType_type pointsHeap 0 = DynKind.SEQUENCE ∧
    (pointsHeap.at 0).sequence_itemType = some 1 ∧
    (pointsHeap.at 1).ffiType = some ⟨16, 8⟩ ∧
    (⟨3, 0, some ⟨0, 0⟩⟩ : generic_sequence).cap < 4294967296 ∧
    2 < (⟨3, 0, some ⟨0, 0⟩⟩ : generic_sequence).cap ∧ 2 < 2147483648 ∧
    dynType_sequence_locForIndex pointsHeap 0 (some ⟨3, 0, some ⟨0, 0⟩⟩) ((2 : Nat) : Int)
        [List.replicate 48 0] =
      some (Status.OK, ptr_add (⟨3, 0, some ⟨0, 0⟩⟩ : generic_sequence).buf
        (2 * (⟨16, 8⟩ : ffi_type).size), some ⟨3, 0, some ⟨0, 0⟩⟩, [List.replicate 48 0]) ∧
    ptr_add (some ⟨0, 0⟩) (2 * 16) = some ⟨0, 32⟩ :=
  ⟨by decide, by decide, by decide, by decide, by decide, by decide,
    C22_sequence_location pointsHeap 0 1 ⟨16, 8⟩ ⟨3, 0, some ⟨0, 0⟩⟩ 2 [List.replicate 48 0]
      (by decide) (by decide) (by decide) (by decide) (by decide) (by decide),
    by decide⟩

/-- C23 as stated fails: with the capacity 4294967295 the index `-2`, read as
the unsigned value 4294967294, is below the capacity, so the test
`index >= seq->cap` does not fire and the status stays `OK`.  Where the loop
counter wraps past `INT_MAX` the call returns `OK`; read without wrapping the
loop has no result.  Under neither reading does the call return an error
status. -/
theorem C23_negative_index_accepted :
    dynType_type pointsHeap 0 = DynKind.SEQUENCE ∧
    toUInt32 (-2) = 4294967294 ∧
    dynType_sequence_locForIndex pointsHeap 0 (some ⟨4294967295, 0, some ⟨0, 0⟩⟩) (-2) [] =
      some (Status.OK, some ⟨0, 4294967294 * 16⟩, some ⟨4294967295, 0, some ⟨0, 0⟩⟩, []) ∧
    locForIndex_loop_strict (-2) 16 4294967295 0 (some ⟨0, 0⟩) = none := by
  refine ⟨by decide, by decide, ?_, ?_⟩
  · rw [dynType_sequence_locForIndex_eq pointsHeap 0 1 ⟨16, 8⟩ _ (-2) [] (by decide) (by decide)
      (by decide) (by decide) (by decide) (by decide)]
    rfl
  · exact locForIndex_loop_strict_overflow (-2) 16 (by decide) 4294967295 0 (some ⟨0, 0⟩)
      (by decide) (by decide)

/-- C23, amended: on a sequence whose element type has a layout, for a header
whose capacity is at most 2147483647 and every index, an `int`,
`dynType_sequence_locForIndex` returns and leaves the header and the memory as
they were; the status is an error exactly when the index is negative or at
least the capacity.  The loop counter stays within the range of `int`: the
address returned does not depend on how an overflow is read. -/
theorem C23_index_out_of_range (h : Heap) (type item : Ptr) (t : ffi_type)
    (seq : generic_sequence) (index : Int) (m : Mem)
    (hk : dynType_type h type = DynKind.SEQUENCE)
    (hi : (h.at type).sequence_itemType = some item) (ht : (h.at item).ffiType = some t)
    (hcap : seq.cap ≤ 2147483647) (h1 : -2147483648 ≤ index) (h2 : index < 2147483648) :
    ∃ status out, dynType_sequence_locForIndex h type (some seq) index m =
        some (status, out, some seq, m) ∧
      (status ≠ Status.OK ↔ index < 0 ∨ index ≥ seq.cap) ∧
      locForIndex_loop_strict index t.size seq.cap 0 seq.buf = some out := by
  have hk2 : (h.at type).type = DynKind.SEQUENCE := hk
  have hrun : dynType_sequence_locForIndex h type (some seq) index m =
      some (if toUInt32 index ≥ seq.cap then Status.ERROR else Status.OK,
        locForIndex_loop index t.size seq.cap 0 seq.buf, some seq, m) := by
    rw [dynType_sequence_locForIndex, if_pos hk2]
    simp only [hi, ht]
  refine ⟨_, _, hrun, ?_, ?_⟩
  · have hu : toUInt32 index ≥ seq.cap ↔ index < 0 ∨ index ≥ seq.cap := by
      unfold toUInt32
      omega
    rw [← hu]
    by_cases hc : toUInt32 index ≥ seq.cap
    · simp [hc]
    · simp [hc]
  · have := locForIndex_loop_strict_eq index t.size seq.cap 0 seq.buf (by omega)
    rw [Nat.cast_zero] at this
    exact this

/-- Witness of C23: in a sequence `[{DD x y}` of capacity 3 the indices `-1`
and 3 are out of range, and the index 2 is not. -/
theorem C23_index_out_of_range_witness :
    dynType_type pointsHeap 0 = DynKind.SEQUENCE ∧
    (pointsHeap.at 0).sequence_itemType = some 1 ∧
    (pointsHeap.at 1).ffiType = some ⟨16, 8⟩ ∧
    (⟨3, 0, some ⟨0, 0⟩⟩ : generic_sequence).cap ≤ 2147483647 ∧
    (-2147483648 : Int) ≤ -1 ∧ (-1 : Int) < 2147483648 ∧
    (∃ status out, dynType_sequence_locForIndex pointsHeap 0 (some ⟨3, 0, some ⟨0, 0⟩⟩) (-1)
          [List.replicate 48 0] =
        some (status, out, some ⟨3, 0, some ⟨0, 0⟩⟩, [List.replicate 48 0]) ∧
      (status ≠ Status.OK ↔
        (-1 : Int) < 0 ∨ (-1 : Int) ≥ (⟨3, 0, some ⟨0, 0⟩⟩ : generic_sequence).cap) ∧
      locForIndex_loop_strict (-1) (⟨16, 8⟩ : ffi_type).size
        (⟨3, 0, some ⟨0, 0⟩⟩ : generic_sequence).cap 0
        (⟨3, 0, some ⟨0, 0⟩⟩ : generic_sequence).buf = some out) ∧
    dynType_sequence_locForIndex pointsHeap 0 (some ⟨3, 0, some ⟨0, 0⟩⟩) (-1)
        [List.replicate 48 0] =
      some (Status.ERROR, some ⟨0, 48⟩, some ⟨3, 0, some ⟨0, 0⟩⟩, [List.replicate 48 0]) ∧
    dynType_sequence_locForIndex pointsHeap 0 (some ⟨3, 0, some ⟨0, 0⟩⟩) 3
        [List.replicate 48 0] =
      some (Status.ERROR, some ⟨0, 48⟩, some ⟨3, 0, some ⟨0, 0⟩⟩, [List.replicate 48 0]) ∧
    dynType_sequence_locForIndex pointsHeap 0 (some ⟨3, 0, some ⟨0, 0⟩⟩) 2
        [List.replicate 48 0] =
      some (Status.OK, some ⟨0, 32⟩, some ⟨3, 0, some ⟨0, 0⟩⟩, [List.replicate 48 0]) :=
  ⟨by decide, by decide, by decide, by decide, by decide, by decide,
    C23_index_out_of_range pointsHeap 0 1 ⟨16, 8⟩ ⟨3, 0, some ⟨0, 0⟩⟩ (-1) [List.replicate 48 0]
      (by decide) (by decide) (by decide) (by decide) (by decide) (by decide),
    by decide, by decide, by decide⟩

/-- C25: on a sequence, for a header with `len ≥ cap`,
`dynType_sequence_increaseLengthAndReturnLastLoc` returns the status `ERROR`
and leaves the header, the content of `*valLoc` and the memory as they were. -/
theorem C25_push_slot_full (h : Heap) (type : Ptr) (seq : generic_sequence)
    (valLoc : Option Addr) (m : Mem) (hk : dynType_type h type = DynKind.SEQUENCE)
    (hl : seq.cap ≤ seq.len) :
    dynType_sequence_increaseLengthAndReturnLastLoc h type (some seq) valLoc m =
      some (Status.ERROR, valLoc, some seq, m) ∧ Status.ERROR ≠ Status.OK := by
  have hk2 : (h.at type).type = DynKind.SEQUENCE := hk
  refine ⟨?_, by decide⟩
  rw [dynType_sequence_increaseLengthAndReturnLastLoc, if_pos hk2]
  simp only [if_neg (Nat.not_lt.2 hl)]

/-- Witness of C25: a sequence `[{DD x y}` of capacity 3 and length 3. -/
theorem C25_push_slot_full_witness :
    dynType_type pointsHeap 0 = DynKind.SEQUENCE ∧
    (⟨3, 3, some ⟨0, 0⟩⟩ : generic_sequence).cap ≤ (⟨3, 3, some ⟨0, 0⟩⟩ : generic_sequence).len ∧
    dynType_sequence_increaseLengthAndReturnLastLoc pointsHeap 0 (some ⟨3, 3, some ⟨0, 0⟩⟩) none
        [List.replicate 48 0] =
      some (Status.ERROR, none, some ⟨3, 3, some ⟨0, 0⟩⟩, [List.replicate 48 0]) ∧
    Status.ERROR ≠ Status.OK :=
  ⟨by decide, by decide,
    C25_push_slot_full pointsHeap 0 ⟨3, 3, some ⟨0, 0⟩⟩ none [List.replicate 48 0] (by decide)
      (by decide)⟩

/-- C26: on a sequence whose element type has a layout, after
`dynType_sequence_alloc` with a capacity `n`, the allocator having the
memory, a run of `k` calls of `dynType_sequence_increaseLengthAndReturnLastLoc`
returns `OK` for the first `min k n` calls and `ERROR` for the others, and
leaves the length `min k n`, which is at most the capacity `n`. -/
theorem C26_push_run (h : Heap) (type item : Ptr) (t : ffi_type) (seq : generic_sequence)
    (n : Nat) (out : Option Addr) (m : Mem)
    (hk : dynType_type h type = DynKind.SEQUENCE)
    (hi : (h.at type).sequence_itemType = some item) (ht : (h.at item).ffiType = some t)
    (hn : n < 2147483648) :
    ∃ buf m', dynType_sequence_alloc h type (some seq) (n : Int) true out m =
        some (Status.OK, some ⟨n, 0, buf⟩, buf, m') ∧
      ∀ k, push_run h type m' k ⟨n, 0, buf⟩ =
          some (List.replicate (min k n) Status.OK ++ List.replicate (k - n) Status.ERROR,
            ⟨n, min k n, buf⟩) ∧
        min k n ≤ n := by
  have hk2 : (h.at type).type = DynKind.SEQUENCE := hk
  have e2 : toUInt32 (n : Int) = n := by unfold toUInt32; omega
  refine ⟨some ⟨m.length, 0⟩,
    m ++ [List.replicate (((n : Int) % 18446744073709551616).toNat * t.size) 0], ?_, ?_⟩
  · rw [dynType_sequence_alloc_eq h type item t seq n true out m hk2 hi ht, if_pos rfl, e2]
  · intro k
    refine ⟨?_, Nat.min_le_right _ _⟩
    have := push_run_eq h type item t
      (m ++ [List.replicate (((n : Int) % 18446744073709551616).toNat * t.size) 0]) hk2 hi ht k
      ⟨n, 0, some ⟨m.length, 0⟩⟩ (by show n < 4294967296; omega) (Nat.zero_le _)
    simpa using this

/-- Witness of C26: the sequence `[{DD x y}` with capacity 3: of four calls the
first three return `OK`, the fourth returns `ERROR`, and the length stays 3. -/
theorem C26_push_run_witness :
    dynType_type pointsHeap 0 = DynKind.SEQUENCE ∧
    (pointsHeap.at 0).sequence_itemType = some 1 ∧
    (pointsHeap.at 1).ffiType = some ⟨16, 8⟩ ∧ 3 < 2147483648 ∧
    (∃ buf m', dynType_sequence_alloc pointsHeap 0 (some ⟨0, 0, none⟩) ((3 : Nat) : Int) true none
          [] = some (Status.OK, some ⟨3, 0, buf⟩, buf, m') ∧
      ∀ k, push_run pointsHeap 0 m' k ⟨3, 0, buf⟩ =
          some (List.replicate (min k 3) Status.OK ++ List.replicate (k - 3) Status.ERROR,
            ⟨3, min k 3, buf⟩) ∧
        min k 3 ≤ 3) ∧
    push_run pointsHeap 0 [List.replicate 48 0] 4 ⟨3, 0, some ⟨0, 0⟩⟩ =
      some ([Status.OK, Status.OK, Status.OK, Status.ERROR], ⟨3, 3, some ⟨0, 0⟩⟩) :=
  ⟨by decide, by decide, by decide, by decide,
    C26_push_run pointsHeap 0 1 ⟨16, 8⟩ ⟨0, 0, none⟩ 3 none [] (by decide) (by decide)
      (by decide) (by decide),
    by decide⟩

/-- C27 as stated fails: when the allocator has no memory for the buffer,
`dynType_sequence_alloc` on the header `{cap = 3, len = 2, buf}` returns
`MEM_ERROR` and leaves the header `{cap = 0, len = 2, buf = NULL}`. -/
theorem C27_header_reset_on_failure :
    dynType_type pointsHeap 0 = DynKind.SEQUENCE ∧
    dynType_sequence_alloc pointsHeap 0 (some ⟨3, 2, some ⟨0, 0⟩⟩) 5 false none
        [List.replicate 48 0] =
      some (Status.MEM_ERROR, some ⟨0, 2, none⟩, none, [List.replicate 48 0]) ∧
    (⟨0, 2, none⟩ : generic_sequence) ≠ ⟨3, 2, some ⟨0, 0⟩⟩ := by
  decide

/-- C27, amended: on a sequence whose element type has a layout, when the
allocator has no memory for the buffer, `dynType_sequence_alloc` returns
`MEM_ERROR`; the header keeps its length, its capacity is 0 and its buffer
`NULL`; the content of `*out` and the memory are as they were. -/
theorem C27_alloc_failure (h : Heap) (type item : Ptr) (t : ffi_type) (seq : generic_sequence)
    (cap : Int) (out : Option Addr) (m : Mem)
    (hk : dynType_type h type = DynKind.SEQUENCE)
    (hi : (h.at type).sequence_itemType = some item) (ht : (h.at item).ffiType = some t) :
    dynType_sequence_alloc h type (some seq) cap false out m =
      some (Status.MEM_ERROR, some { cap := 0, len := seq.len, buf := none }, out, m) := by
  have hk2 : (h.at type).type = DynKind.SEQUENCE := hk
  rw [dynType_sequence_alloc_eq h type item t seq cap false out m hk2 hi ht]
  rfl

/-- Witness of C27: the sequence `[{DD x y}` and the header
`{cap = 3, len = 2, buf}`. -/
theorem C27_alloc_failure_witness :
    dynType_type pointsHeap 0 = DynKind.SEQUENCE ∧
    (pointsHeap.at 0).sequence_itemType = some 1 ∧
    (pointsHeap.at 1).ffiType = some ⟨16, 8⟩ ∧
    dynType_sequence_alloc pointsHeap 0 (some ⟨3, 2, some ⟨0, 0⟩⟩) 5 false none
        [List.replicate 48 0] =
      some (Status.MEM_ERROR,
        some { cap := 0, len := (⟨3, 2, some ⟨0, 0⟩⟩ : generic_sequence).len, buf := none },
        none, [List.replicate 48 0]) :=
  ⟨by decide, by decide, by decide,
    C27_alloc_failure pointsHeap 0 1 ⟨16, 8⟩ ⟨3, 2, some ⟨0, 0⟩⟩ 5 none [List.replicate 48 0]
      (by decide) (by decide) (by decide)⟩

/-- C28 as stated fails: in the Complex parsed from `{D…D a … a}` with 8193
fields of type double, of size 65544, the offset computed for the last field is
0, the offset of the first field.  Writing the last field of an instance filled
with zero bytes from a buffer of eight bytes 1 changes the bytes of the first
field. -/
theorem C28_other_field_overwritten :
    ∃ h', Returns (fun fuel => dynType_parseWithStr fuel (wideDescriptor 8193) none none none [])
        (Status.OK, some 0, h') ∧
      (h'.at 0).complex_entriesHead.length = 8193 ∧ dynType_size h' 0 = some 65544 ∧
      dynType_complex_valLocAt h' 0 ((0 : Nat) : Int) 0 = some 0 ∧
      ∃ nb, dynType_complex_setValueAt h' 0 ((8192 : Nat) : Int) (some ⟨0, 0⟩) (some ⟨1, 0⟩)
            [List.replicate 65544 0, List.replicate 8 1] =
          some ([List.replicate 65544 0, List.replicate 8 1].set 0 nb) ∧
        nb.getD 0 0 = 1 ∧ (List.replicate 65544 0).getD 0 0 = 0 := by
  obtain ⟨h', hr, hty, hlen, -, hel, hff⟩ := dynType_parseWithStr_wide 8193 (by decide)
  refine ⟨h', hr, hlen, ?_, ?_, ?_⟩
  · rw [dynType_size, hff, dynType_prepCif_doubles 8193 (by decide)]
    rfl
  · rw [dynType_complex_valLocAt, if_pos hty,
      dynType_getOffset_doubles h' 0 8193 0 hty hel (by decide)]
    rfl
  · have hset := dynType_complex_setValueAt_eq h' 0 _ 8192 ((8 * 8192) % 65536) ffi_type_double
      (some ⟨0, 0⟩) (some ⟨1, 0⟩) [List.replicate 65544 0, List.replicate 8 1] hty hel
      (by rw [List.get?_eq_getElem?, List.getElem?_replicate]; rfl)
      (dynType_getOffset_doubles h' 0 8193 8192 hty hel (by decide))
    have hcopy := memcpy_blocks [List.replicate 65544 0, List.replicate 8 1] 0 1 0 0 8
      (List.replicate 65544 0) (List.replicate 8 1) rfl rfl (by decide)
      (by rw [List.length_replicate]; decide) (by rw [List.length_replicate])
    refine ⟨List.take 0 (List.replicate 65544 0) ++
      (List.take 8 (List.drop 0 (List.replicate 8 1)) ++
        List.drop (0 + 8) (List.replicate 65544 0)), ?_, ?_, ?_⟩
    · rw [hset]
      exact hcopy
    · rw [List.take_zero, List.nil_append, List.drop_zero,
        List.take_of_length_le (by rw [List.length_replicate])]
      rfl
    · rw [List.getD_eq_getElem?_getD, List.getElem?_replicate]
      rfl

/-- C28, amended: on a Complex whose member array holds a layout for each of
its fields, with alignments from 1 to 65535, whose layout is composed from
these members and whose last field the packing rule puts below offset 65536:
for an instance that is a block of the size of the Complex and a buffer in
another block, of the size of the field `i`, `dynType_complex_setValueAt`
copies the buffer to the location of the field `i`, inside the instance; every
other byte of the instance, so every byte of another field, and every other
block are as they were. -/
theorem C28_set_field (h : Heap) (type : Ptr) (fs : List ffi_type) (i : Nat) (m : Mem)
    (B S : Nat) (db sb : List Nat)
    (hk : dynType_type h type = DynKind.COMPLEX)
    (hel : (h.at type).complex_elements = some (fs.map some))
    (hff : (h.at type).ffiType = some (ffi_prep_struct (fs.map some)))
    (hal : ∀ t ∈ fs, 0 < t.alignment ∧ t.alignment < 65536) (hi : i < fs.length)
    (hb : specOffset fs (fs.length - 1) < 65536)
    (hB : m.get? B = some db) (hlen : dynType_size h type = some db.length)
    (hS : m.get? S = some sb) (hne : B ≠ S) (hsl : sb.length = (fs.getD i ⟨0, 0⟩).size) :
    ∃ nb, dynType_complex_setValueAt h type (i : Int) (some ⟨B, 0⟩) (some ⟨S, 0⟩) m =
        some (m.set B nb) ∧
      nb.length = db.length ∧
      dynType_complex_valLocAt h type (i : Int) 0 = some (0 + specOffset fs i) ∧
      specOffset fs i + (fs.getD i ⟨0, 0⟩).size ≤ db.length ∧
      (nb.drop (specOffset fs i)).take (fs.getD i ⟨0, 0⟩).size = sb ∧
      (∀ a, a < specOffset fs i ∨ specOffset fs i + (fs.getD i ⟨0, 0⟩).size ≤ a →
        nb.getD a 0 = db.getD a 0) ∧
      (∀ j : Nat, j < fs.length → j ≠ i →
        dynType_complex_valLocAt h type (j : Int) 0 = some (0 + specOffset fs j) ∧
        ∀ a, specOffset fs j ≤ a → a < specOffset fs j + (fs.getD j ⟨0, 0⟩).size →
          nb.getD a 0 = db.getD a 0) ∧
      ∀ C, C ≠ B → (m.set B nb).get? C = m.get? C := by
  have hk2 : (h.at type).type = DynKind.COMPLEX := hk
  have halp : ∀ t ∈ fs, 0 < t.alignment := fun t ht => (hal t ht).1
  have hmono := specOffset_mono fs halp (fs.length - 1) (by omega)
  have hoff : ∀ j : Nat, j < fs.length →
      dynType_getOffset h type (j : Int) = some (specOffset fs j) := fun j hj =>
    dynType_getOffset_exact h type fs j hk2 hel hal hj
      (Nat.lt_of_le_of_lt (hmono j (by omega)) hb)
  have hloc : ∀ j : Nat, j < fs.length →
      dynType_complex_valLocAt h type (j : Int) 0 = some (0 + specOffset fs j) := fun j hj => by
    rw [dynType_complex_valLocAt, if_pos hk2, hoff j hj]
    rfl
  have hsize : db.length = (ffi_prep_struct (fs.map some)).size := by
    rw [dynType_size, hff] at hlen
    exact (Option.some.inj hlen).symm
  have hin : specOffset fs i + (fs.getD i ⟨0, 0⟩).size ≤ db.length := by
    rw [hsize]
    exact specOffset_end_le_size fs i hi halp
  have hget : (fs.map some).get? i = some (some (fs.getD i ⟨0, 0⟩)) := by
    rw [List.get?_eq_getElem?, List.getElem?_map, List.getD_eq_getElem?_getD]
    rw [List.getElem?_eq_getElem hi]
    rfl
  have hset := dynType_complex_setValueAt_eq h type _ i (specOffset fs i) (fs.getD i ⟨0, 0⟩)
    (some ⟨B, 0⟩) (some ⟨S, 0⟩) m hk2 hel hget (hoff i hi)
  have hcopy := memcpy_blocks m B S (specOffset fs i) 0 (fs.getD i ⟨0, 0⟩).size db sb hB hS hne
    hin (by omega)
  have hsb : (sb.drop 0).take (fs.getD i ⟨0, 0⟩).size = sb := by
    rw [List.drop_zero, List.take_of_length_le (by omega)]
  rw [hsb] at hcopy
  obtain ⟨p1, p2, p3⟩ := patch_spec db sb (specOffset fs i) (by omega)
  rw [hsl] at p1 p2 p3
  refine ⟨_, ?_, p1, hloc i hi, hin, p2, p3, ?_, ?_⟩
  · rw [hset]
    show memcpy m (some ⟨B, 0 + specOffset fs i⟩) (some ⟨S, 0⟩) _ = _
    rw [Nat.zero_add]
    exact hcopy
  · intro j hj hji
    refine ⟨hloc j hj, ?_⟩
    intro a ha1 ha2
    apply p3
    rcases Nat.lt_or_gt_of_ne hji with hlt | hgt
    · left
      have := specOffset_end_le fs halp j i hlt hi
      omega
    · right
      have := specOffset_end_le fs halp i j hgt hj
      omega
  · intro C hC
    rw [List.get?_eq_getElem?, List.get?_eq_getElem?, List.getElem?_set_ne (Ne.symm hC)]

/-- Witness of C28: in an instance of `{BDI a b c}`, 24 zero bytes, the field
`b` is written from the bytes 1 to 8: they are at the offsets 8 to 15, the
other bytes are zero. -/
theorem C28_set_field_witness :
    dynType_type mixedHeap 0 = DynKind.COMPLEX ∧
    (mixedHeap.at 0).complex_elements =
      some ([ffi_type_sint8, ffi_type_double, ffi_type_sint32].map some) ∧
    (mixedHeap.at 0).ffiType =
      some (ffi_prep_struct ([ffi_type_sint8, ffi_type_double, ffi_type_sint32].map some)) ∧
    (∀ t ∈ [ffi_type_sint8, ffi_type_double, ffi_type_sint32],
      0 < t.alignment ∧ t.alignment < 65536) ∧
    1 < [ffi_type_sint8, ffi_type_double, ffi_type_sint32].length ∧
    specOffset [ffi_type_sint8, ffi_type_double, ffi_type_sint32]
      ([ffi_type_sint8, ffi_type_double, ffi_type_sint32].length - 1) < 65536 ∧
    ([List.replicate 24 0, [1, 2, 3, 4, 5, 6, 7, 8]] : Mem).get? 0 = some (List.replicate 24 0) ∧
    dynType_size mixedHeap 0 = some (List.replicate 24 0).length ∧
    ([List.replicate 24 0, [1, 2, 3, 4, 5, 6, 7, 8]] : Mem).get? 1 =
      some [1, 2, 3, 4, 5, 6, 7, 8] ∧
    0 ≠ 1 ∧
    [1, 2, 3, 4, 5, 6, 7, 8].length =
      ([ffi_type_sint8, ffi_type_double, ffi_type_sint32].getD 1 ⟨0, 0⟩).size ∧
    (∃ nb, dynType_complex_setValueAt mixedHeap 0 ((1 : Nat) : Int) (some ⟨0, 0⟩) (some ⟨1, 0⟩)
          [List.replicate 24 0, [1, 2, 3, 4, 5, 6, 7, 8]] =
        some (([List.replicate 24 0, [1, 2, 3, 4, 5, 6, 7, 8]] : Mem).set 0 nb) ∧
      nb.length = (List.replicate 24 0).length ∧
      dynType_complex_valLocAt mixedHeap 0 ((1 : Nat) : Int) 0 =
        some (0 + specOffset [ffi_type_sint8, ffi_type_double, ffi_type_sint32] 1) ∧
      specOffset [ffi_type_sint8, ffi_type_double, ffi_type_sint32] 1 +
          ([ffi_type_sint8, ffi_type_double, ffi_type_sint32].getD 1 ⟨0, 0⟩).size ≤
        (List.replicate 24 0).length ∧
      (nb.drop (specOffset [ffi_type_sint8, ffi_type_double, ffi_type_sint32] 1)).take
          ([ffi_type_sint8, ffi_type_double, ffi_type_sint32].getD 1 ⟨0, 0⟩).size =
        [1, 2, 3, 4, 5, 6, 7, 8] ∧
      (∀ a, a < specOffset [ffi_type_sint8, ffi_type_double, ffi_type_sint32] 1 ∨
          specOffset [ffi_type_sint8, ffi_type_double, ffi_type_sint32] 1 +
            ([ffi_type_sint8, ffi_type_double, ffi_type_sint32].getD 1 ⟨0, 0⟩).size ≤ a →
        nb.getD a 0 = (List.replicate 24 0).getD a 0) ∧
      (∀ j : Nat, j < [ffi_type_sint8, ffi_type_double, ffi_type_sint32].length → j ≠ 1 →
        dynType_complex_valLocAt mixedHeap 0 (j : Int) 0 =
          some (0 + specOffset [ffi_type_sint8, ffi_type_double, ffi_type_sint32] j) ∧
        ∀ a, specOffset [ffi_type_sint8, ffi_type_double, ffi_type_sint32] j ≤ a →
          a < specOffset [ffi_type_sint8, ffi_type_double, ffi_type_sint32] j +
            ([ffi_type_sint8, ffi_type_double, ffi_type_sint32].getD j ⟨0, 0⟩).size →
          nb.getD a 0 = (List.replicate 24 0).getD a 0) ∧
      ∀ C, C ≠ 0 →
        (([List.replicate 24 0, [1, 2, 3, 4, 5, 6, 7, 8]] : Mem).set 0 nb).get? C =
          ([List.replicate 24 0, [1, 2, 3, 4, 5, 6, 7, 8]] : Mem).get? C) ∧
    dynType_complex_setValueAt mixedHeap 0 1 (some ⟨0, 0⟩) (some ⟨1, 0⟩)
        [List.replicate 24 0, [1, 2, 3, 4, 5, 6, 7, 8]] =
      some [[0, 0, 0, 0, 0, 0, 0, 0, 1, 2, 3, 4, 5, 6, 7, 8, 0, 0, 0, 0, 0, 0, 0, 0],
        [1, 2, 3, 4, 5, 6, 7, 8]] :=
  ⟨by decide, by decide, by decide, by decide, by decide, by decide, by decide, by decide,
    by decide, by decide, by decide,
    C28_set_field mixedHeap 0 [ffi_type_sint8, ffi_type_double, ffi_type_sint32] 1
      [List.replicate 24 0, [1, 2, 3, 4, 5, 6, 7, 8]] 0 1 (List.replicate 24 0)
      [1, 2, 3, 4, 5, 6, 7, 8] (by decide) (by decide) (by decide) (by decide) (by decide)
      (by decide) (by decide) (by decide) (by decide) (by decide) (by decide),
    by decide⟩

/-- C29: for a text `v` that ends with a NUL in its block, with the content
`s`, when the allocator has the memory `dynType_text_allocAndInit` returns the
status 0 and stores in the location the address of a fresh block, another block
than that of `v`, whose content read as a C string is `s`; the text at `v` is
as it was. -/
theorem C29_text_init (m : Mem) (v : Addr) (s : List Nat) (loc : Option Addr)
    (hv : cstring_at m (some v) = some s) :
    dynType_text_allocAndInit loc (some v) true m =
      some (Status.OK, some ⟨m.length, 0⟩, m ++ [s ++ [0]]) ∧
    v.block < m.length ∧ (⟨m.length, 0⟩ : Addr).block ≠ v.block ∧
    cstring_at (m ++ [s ++ [0]]) (some ⟨m.length, 0⟩) = some s ∧
    cstring_at (m ++ [s ++ [0]]) (some v) = some s := by
  obtain ⟨blk, hg, hall, hs⟩ := cstring_at_some hv
  obtain ⟨hg2, hlt⟩ := get?_append_old m (s ++ [0]) v.block blk hg
  refine ⟨?_, hlt, fun hc => Nat.lt_irrefl _ (by rw [← hc] at hlt; exact hlt), ?_, ?_⟩
  · show (match strdup m (some v) true with
        | none => none
        | some (some str, m) => some (Status.OK, some str, m)
        | some (none, m) => some (Status.ERROR, loc, m)) = _
    have : strdup m (some v) true = some (some ⟨m.length, 0⟩, m ++ [s ++ [0]]) := by
      simp only [strdup]
      rw [hg]
      dsimp only
      rw [hall, hs]
      rfl
    rw [this]
  · have h1 := cstring_at_of_block (m ++ [s ++ [0]]) ⟨m.length, 0⟩ (s ++ [0])
      (get?_append_fresh m (s ++ [0])) (all_append_nul s)
    rw [h1]
    show some (((s ++ [0])).takeWhile fun b => b ≠ 0) = some s
    rw [← hs, takeWhile_append_nul]
  · have h1 := cstring_at_of_block _ _ _ hg2 hall
    rw [h1, hs]

/-- Witness of C29: the text `hi` at offset 1 of a block of five bytes. -/
theorem C29_text_init_witness :
    cstring_at [[9, 104, 105, 0, 7]] (some ⟨0, 1⟩) = some [104, 105] ∧
    dynType_text_allocAndInit none (some ⟨0, 1⟩) true [[9, 104, 105, 0, 7]] =
      some (Status.OK, some ⟨([[9, 104, 105, 0, 7]] : Mem).length, 0⟩,
        [[9, 104, 105, 0, 7]] ++ [[104, 105] ++ [0]]) ∧
    (⟨0, 1⟩ : Addr).block < ([[9, 104, 105, 0, 7]] : Mem).length ∧
    (⟨([[9, 104, 105, 0, 7]] : Mem).length, 0⟩ : Addr).block ≠ (⟨0, 1⟩ : Addr).block ∧
    cstring_at ([[9, 104, 105, 0, 7]] ++ [[104, 105] ++ [0]])
        (some ⟨([[9, 104, 105, 0, 7]] : Mem).length, 0⟩) = some [104, 105] ∧
    cstring_at ([[9, 104, 105, 0, 7]] ++ [[104, 105] ++ [0]]) (some ⟨0, 1⟩) = some [104, 105] :=
  ⟨by decide, C29_text_init [[9, 104, 105, 0, 7]] ⟨0, 1⟩ [104, 105] none (by decide)⟩

/-- C30 fails on the code: in `Ta=I;Tb=la;;{lb; x}`, `Ta=I;Tb=la;;[lb;` and
`Ta=I;Tb=la;;*lb;` the type `b`, at address 2, is itself a reference, to `a`.
The type reported for the field `x`, for the element of the sequence and for
the target of the pointer is `b`: a node of kind reference. -/
theorem C30_reference_returned :
    (∃ r, Returns (fun fuel => dynType_parseWithStr fuel "Ta=I;Tb=la;;\x7blb; x\x7d".toList none
        none none []) r ∧
      r.1 = Status.OK ∧ r.2.1 = some 0 ∧ dynType_type r.2.2 0 = DynKind.COMPLEX ∧
      dynType_complex_dynTypeAt r.2.2 0 0 = some (some 2) ∧
      dynType_type r.2.2 2 = DynKind.REF ∧ (r.2.2.at 2).ref_ref = some 1 ∧
      dynType_type r.2.2 1 = DynKind.SIMPLE) ∧
    (∃ r, Returns (fun fuel => dynType_parseWithStr fuel "Ta=I;Tb=la;;[lb;".toList none none none
        []) r ∧
      r.1 = Status.OK ∧ r.2.1 = some 0 ∧ dynType_type r.2.2 0 = DynKind.SEQUENCE ∧
      dynType_sequence_itemType r.2.2 0 = some (some 2) ∧
      dynType_type r.2.2 2 = DynKind.REF) ∧
    (∃ r, Returns (fun fuel => dynType_parseWithStr fuel "Ta=I;Tb=la;;*lb;".toList none none none
        []) r ∧
      r.1 = Status.OK ∧ r.2.1 = some 0 ∧ dynType_type r.2.2 0 = DynKind.TYPED_POINTER ∧
      dynType_typedPointer_getTypedType r.2.2 0 = some (some 2) ∧
      dynType_type r.2.2 2 = DynKind.REF) := by
  refine ⟨?_, ?_, ?_⟩
  · obtain ⟨r, hr, hp⟩ := dynType_parseWithStr_check 20 "Ta=I;Tb=la;;\x7blb; x\x7d".toList none
      none none []
      (fun r => decide (r.1 = Status.OK ∧ r.2.1 = some 0 ∧
        dynType_type r.2.2 0 = DynKind.COMPLEX ∧
        dynType_complex_dynTypeAt r.2.2 0 0 = some (some 2) ∧
        dynType_type r.2.2 2 = DynKind.REF ∧ (r.2.2.at 2).ref_ref = some 1 ∧
        dynType_type r.2.2 1 = DynKind.SIMPLE)) (by decide)
    exact ⟨r, hr, by simpa using hp⟩
  · obtain ⟨r, hr, hp⟩ := dynType_parseWithStr_check 20 "Ta=I;Tb=la;;[lb;".toList none none none
      []
      (fun r => decide (r.1 = Status.OK ∧ r.2.1 = some 0 ∧
        dynType_type r.2.2 0 = DynKind.SEQUENCE ∧
        dynType_sequence_itemType r.2.2 0 = some (some 2) ∧
        dynType_type r.2.2 2 = DynKind.REF)) (by decide)
    exact ⟨r, hr, by simpa using hp⟩
  · obtain ⟨r, hr, hp⟩ := dynType_parseWithStr_check 20 "Ta=I;Tb=la;;*lb;".toList none none none
      []
      (fun r => decide (r.1 = Status.OK ∧ r.2.1 = some 0 ∧
        dynType_type r.2.2 0 = DynKind.TYPED_POINTER ∧
        dynType_typedPointer_getTypedType r.2.2 0 = some (some 2) ∧
        dynType_type r.2.2 2 = DynKind.REF)) (by decide)
    exact ⟨r, hr, by simpa using hp⟩

/-- C31 fails on the code: with an external scope that holds the Complex
`node={IP children next}`, at address 0, `lnode;` returns `OK` with a root that
refers to that Complex, and `dynType_type` reports the tag of the root itself,
the reference tag, not the kind of its target.  `dynType_type` returns
`type->type` as it is stored; the accessors that hand out a field type, an
element type or a pointee replace a reference by its target first. -/
theorem C31_reference_tag_reported :
    ScopeEntry scopeNodeHeap [0] "node".toList 0 ∧
    dynType_type scopeNodeHeap 0 = DynKind.COMPLEX ∧
    ∃ r, Returns (fun fuel => dynType_parseWithStr fuel "lnode;".toList none (some [0]) none
        scopeNodeHeap) r ∧
      r.1 = Status.OK ∧ r.2.1 = some 3 ∧ (r.2.2.at 3).ref_ref = some 0 ∧
      dynType_type r.2.2 0 = DynKind.COMPLEX ∧ dynType_type r.2.2 3 = DynKind.REF ∧
      dynType_type r.2.2 3 ≠ DynKind.COMPLEX := by
  refine ⟨⟨[], [], rfl, fun _ hq => absurd hq (List.not_mem_nil _), by decide⟩, by decide, ?_⟩
  obtain ⟨r, hr, hp⟩ := dynType_parseWithStr_check 10 "lnode;".toList none (some [0]) none
    scopeNodeHeap
    (fun r => decide (r.1 = Status.OK ∧ r.2.1 = some 3 ∧ (r.2.2.at 3).ref_ref = some 0 ∧
      dynType_type r.2.2 0 = DynKind.COMPLEX ∧ dynType_type r.2.2 3 = DynKind.REF ∧
      dynType_type r.2.2 3 ≠ DynKind.COMPLEX)) (by decide)
  exact ⟨r, hr, by simpa using hp⟩

/-- C32 fails as stated: with the scope `node={IP children next}`, the
descriptor `Lnode;` returns `OK` with a typed pointer as root, and the
descriptor character of the root is `*`, not the `L` that the parser dispatched
on: `dynType_parseReference` stores `*`.  (The claim fails a second way, which
the amended statement leaves out: `{Q a}` returns `OK` although the parse of
its field, dispatched on `Q`, failed, and that field has no descriptor
character.) -/
theorem C32_named_pointer_descriptor :
    (∃ r, Returns (fun fuel => dynType_parseWithStr fuel "Lnode;".toList none (some [0]) none
        scopeNodeHeap) r ∧
      r.1 = Status.OK ∧ r.2.1 = some 3 ∧ dynType_type r.2.2 3 = DynKind.TYPED_POINTER ∧
      dynType_typedPointer_getTypedType r.2.2 3 = some (some 0) ∧
      dynType_descriptorType r.2.2 3 = some '*' ∧ dynType_descriptorType r.2.2 3 ≠ some 'L') ∧
    (∃ r, Returns (fun fuel => dynType_parseWithStr fuel "\x7bQ a\x7d".toList none none none
        []) r ∧
      r.1 = Status.OK ∧ r.2.1 = some 0 ∧ (r.2.2.at 0).complex_entriesHead.map
        complex_type_entry.type = [1] ∧
      dynType_type r.2.2 1 = DynKind.INVALID ∧ dynType_descriptorType r.2.2 1 = none) := by
  refine ⟨?_, ?_⟩
  · obtain ⟨r, hr, hp⟩ := dynType_parseWithStr_check 10 "Lnode;".toList none (some [0]) none
      scopeNodeHeap
      (fun r => decide (r.1 = Status.OK ∧ r.2.1 = some 3 ∧
        dynType_type r.2.2 3 = DynKind.TYPED_POINTER ∧
        dynType_typedPointer_getTypedType r.2.2 3 = some (some 0) ∧
        dynType_descriptorType r.2.2 3 = some '*' ∧ dynType_descriptorType r.2.2 3 ≠ some 'L'))
      (by decide)
    exact ⟨r, hr, by simpa using hp⟩
  · obtain ⟨r, hr, hp⟩ := dynType_parseWithStr_check 10 "\x7bQ a\x7d".toList none none none []
      (fun r => decide (r.1 = Status.OK ∧ r.2.1 = some 0 ∧
        (r.2.2.at 0).complex_entriesHead.map complex_type_entry.type = [1] ∧
        dynType_type r.2.2 1 = DynKind.INVALID ∧ dynType_descriptorType r.2.2 1 = none))
      (by decide)
    exact ⟨r, hr, by simpa using hp⟩

/-- C32, amended: in the tree that a parse leaves, every node at which the
parser dispatched on a descriptor character and returned `OK` is a node created
by this parse, and its descriptor character is the character dispatched on,
except that it is `*` for a typed pointer written as `L name ;`.  The dispatches
are those of the whole parse: of the root, after its nested declarations, of
the bodies of the declarations, and of every field, element type and pointee
below. -/
theorem C32_descriptor_of_node (fuel : Nat) (descriptor : List Char)
    (name : Option (List Char)) (refTypes : Option (List Ptr)) (result : Option Ptr) (h : Heap)
    (r : Status × Option Ptr × Heap)
    (hr : dynType_parseWithStr fuel descriptor name refTypes result h = some r) :
    ∀ d ∈ dispatches_parseWithStr fuel descriptor name refTypes h,
      h.length ≤ d.1 ∧ d.1 < r.2.2.length ∧
      dynType_descriptorType r.2.2 d.1 = some (if d.2 = 'L' then '*' else d.2) := by
  intro d hd
  unfold dynType_parseWithStr at hr
  unfold dispatches_parseWithStr at hd
  simp only at hr
  cases hs : dynType_parseWithStream fuel (descriptor.takeWhile fun c => c ≠ Char.ofNat 0) name
      none refTypes result h with
  | none => rw [hs] at hr; simp at hr
  | some rs =>
    obtain ⟨a, b⟩ := (dispatchInv fuel).1 _ _ _ _ _ _ _ hs d hd
    obtain ⟨st, res, s2, h2⟩ := rs
    have b2 : Dispatched h2 d := b
    rw [hs] at hr
    simp only at hr
    have hh : r.2.2 = h2 := by
      split at hr
      · split at hr
        · cases hr; rfl
        · split at hr <;> cases hr <;> rfl
      · cases hr; rfl
    rw [hh]
    exact ⟨a, b2.1, b2.2⟩

/-- Witness of the amended C32: in `Tnode={ILnode; value next};Lnode;` the
parser dispatches on `I` at the field `value`, on `L` at the field `next`, on
`{` at the declaration `node` and, after the declaration, on `L` at the root;
the descriptor characters of these nodes are `I`, `*`, `{` and `*`. -/
theorem C32_descriptor_of_node_witness :
    dynType_parseWithStr 20 "Tnode=\x7bILnode; value next\x7d;Lnode;".toList none none none [] =
      some (Status.OK, some 0, listNodeHeap) ∧
    (∀ d ∈ dispatches_parseWithStr 20 "Tnode=\x7bILnode; value next\x7d;Lnode;".toList none none
        [],
      ([] : Heap).length ≤ d.1 ∧ d.1 < (Status.OK, some 0, listNodeHeap).2.2.length ∧
      dynType_descriptorType (Status.OK, some 0, listNodeHeap).2.2 d.1 =
        some (if d.2 = 'L' then '*' else d.2)) ∧
    dispatches_parseWithStr 20 "Tnode=\x7bILnode; value next\x7d;Lnode;".toList none none [] =
      [(2, 'I'), (3, 'L'), (1, '\x7b'), (0, 'L')] ∧
    dynType_descriptorType listNodeHeap 2 = some 'I' ∧
    dynType_descriptorType listNodeHeap 3 = some '*' ∧
    dynType_descriptorType listNodeHeap 1 = some '\x7b' ∧
    dynType_descriptorType listNodeHeap 0 = some '*' :=
  ⟨by decide,
    C32_descriptor_of_node 20 "Tnode=\x7bILnode; value next\x7d;Lnode;".toList none none none []
      (Status.OK, some 0, listNodeHeap) (by decide),
    by decide, by decide, by decide, by decide, by decide⟩

/-- C33 fails on the code: `{}` returns `OK` with a Complex that has no field,
but the layout left in it has size 0 and alignment 0, not alignment 1:
`initialize_aggregate` finds no member and fails, and `dynType_prepCif` drops
the failure.  In `{{}I a b}` the empty Complex is the first member of the root;
a member of size zero makes `initialize_aggregate` stop at once, so the root
keeps size 0 and alignment 0, not size 4, and `dynType_getOffset` does not
return for any field of the root: it divides by the alignment of the first
member, which is zero. -/
theorem C33_empty_complex_unaligned :
    (∃ r, Returns (fun fuel => dynType_parseWithStr fuel "\x7b\x7d".toList none none none []) r ∧
      r.1 = Status.OK ∧ r.2.1 = some 0 ∧ dynType_type r.2.2 0 = DynKind.COMPLEX ∧
      (r.2.2.at 0).complex_entriesHead = [] ∧ (r.2.2.at 0).complex_elements = some [] ∧
      (r.2.2.at 0).ffiType = some ⟨0, 0⟩ ∧ (r.2.2.at 0).ffiType ≠ some ⟨0, 1⟩) ∧
    (∃ r, Returns (fun fuel => dynType_parseWithStr fuel "\x7b\x7b\x7dI a b\x7d".toList none none
        none []) r ∧
      r.1 = Status.OK ∧ r.2.1 = some 0 ∧ dynType_type r.2.2 0 = DynKind.COMPLEX ∧
      (r.2.2.at 0).complex_types = some [1, 2] ∧
      dynType_type r.2.2 1 = DynKind.COMPLEX ∧ (r.2.2.at 1).complex_entriesHead = [] ∧
      (r.2.2.at 0).complex_elements = some [some ⟨0, 0⟩, some ffi_type_sint32] ∧
      (r.2.2.at 0).ffiType = some ⟨0, 0⟩ ∧ dynType_size r.2.2 0 = some 0 ∧
      dynType_size r.2.2 0 ≠ some 4 ∧
      dynType_getOffset r.2.2 0 0 = none ∧ dynType_getOffset r.2.2 0 1 = none ∧
      dynType_complex_valLocAt r.2.2 0 1 0 = none) := by
  refine ⟨?_, ?_⟩
  · obtain ⟨r, hr, hp⟩ := dynType_parseWithStr_check 10 "\x7b\x7d".toList none none none []
      (fun r => decide (r.1 = Status.OK ∧ r.2.1 = some 0 ∧
        dynType_type r.2.2 0 = DynKind.COMPLEX ∧
        (r.2.2.at 0).complex_entriesHead = [] ∧ (r.2.2.at 0).complex_elements = some [] ∧
        (r.2.2.at 0).ffiType = some ⟨0, 0⟩ ∧ (r.2.2.at 0).ffiType ≠ some ⟨0, 1⟩)) (by decide)
    exact ⟨r, hr, by simpa using hp⟩
  · obtain ⟨r, hr, hp⟩ := dynType_parseWithStr_check 10 "\x7b\x7b\x7dI a b\x7d".toList none none
      none []
      (fun r => decide (r.1 = Status.OK ∧ r.2.1 = some 0 ∧
        dynType_type r.2.2 0 = DynKind.COMPLEX ∧
        (r.2.2.at 0).complex_types = some [1, 2] ∧
        dynType_type r.2.2 1 = DynKind.COMPLEX ∧ (r.2.2.at 1).complex_entriesHead = [] ∧
        (r.2.2.at 0).complex_elements = some [some ⟨0, 0⟩, some ffi_type_sint32] ∧
        (r.2.2.at 0).ffiType = some ⟨0, 0⟩ ∧ dynType_size r.2.2 0 = some 0 ∧
        dynType_size r.2.2 0 ≠ some 4 ∧
        dynType_getOffset r.2.2 0 0 = none ∧ dynType_getOffset r.2.2 0 1 = none ∧
        dynType_complex_valLocAt r.2.2 0 1 0 = none)) (by decide)
    exact ⟨r, hr, by simpa using hp⟩

/-- C34 fails on the code: a reference node has no layout of its own and none
is taken from its target.  In `Tp={II a b};{lp;I x y}` the type `p`, at address
1, has size 8, while `dynType_size` on the reference field, at address 4, reads
through a `NULL` layout; the root gets size 0, not 12, and the field `y` offset
0, not 8.  In `Tp={II a b};[lp;` the element type, at address 4, is a reference
to `p`, and `dynType_sequence_alloc` does not return: it asks the reference for
the element size. -/
theorem C34_reference_without_layout :
    (∃ r, Returns (fun fuel => dynType_parseWithStr fuel
        "Tp=\x7bII a b\x7d;\x7blp;I x y\x7d".toList none none none []) r ∧
      r.1 = Status.OK ∧ r.2.1 = some 0 ∧ dynType_type r.2.2 4 = DynKind.REF ∧
      (r.2.2.at 4).ref_ref = some 1 ∧ dynType_size r.2.2 1 = some 8 ∧
      dynType_size r.2.2 4 = none ∧ dynType_size r.2.2 0 = some 0 ∧
      dynType_size r.2.2 0 ≠ some 12 ∧ dynType_getOffset r.2.2 0 1 = some 0 ∧
      dynType_getOffset r.2.2 0 1 ≠ some 8) ∧
    (∃ r, Returns (fun fuel => dynType_parseWithStr fuel
        "Tp=\x7bII a b\x7d;[lp;".toList none none none []) r ∧
      r.1 = Status.OK ∧ r.2.1 = some 0 ∧ dynType_type r.2.2 0 = DynKind.SEQUENCE ∧
      (r.2.2.at 0).sequence_itemType = some 4 ∧ dynType_type r.2.2 4 = DynKind.REF ∧
      (r.2.2.at 4).ref_ref = some 1 ∧ dynType_size r.2.2 1 = some 8 ∧
      dynType_size r.2.2 4 = none ∧
      dynType_sequence_alloc r.2.2 0 (some ⟨0, 0, none⟩) 3 true none [] = none) := by
  refine ⟨?_, ?_⟩
  · obtain ⟨r, hr, hp⟩ := dynType_parseWithStr_check 20
      "Tp=\x7bII a b\x7d;\x7blp;I x y\x7d".toList none none none []
      (fun r => decide (r.1 = Status.OK ∧ r.2.1 = some 0 ∧ dynType_type r.2.2 4 = DynKind.REF ∧
        (r.2.2.at 4).ref_ref = some 1 ∧ dynType_size r.2.2 1 = some 8 ∧
        dynType_size r.2.2 4 = none ∧ dynType_size r.2.2 0 = some 0 ∧
        dynType_size r.2.2 0 ≠ some 12 ∧ dynType_getOffset r.2.2 0 1 = some 0 ∧
        dynType_getOffset r.2.2 0 1 ≠ some 8)) (by decide)
    exact ⟨r, hr, by simpa using hp⟩
  · obtain ⟨r, hr, hp⟩ := dynType_parseWithStr_check 20
      "Tp=\x7bII a b\x7d;[lp;".toList none none none []
      (fun r => decide (r.1 = Status.OK ∧ r.2.1 = some 0 ∧
        dynType_type r.2.2 0 = DynKind.SEQUENCE ∧
        (r.2.2.at 0).sequence_itemType = some 4 ∧ dynType_type r.2.2 4 = DynKind.REF ∧
        (r.2.2.at 4).ref_ref = some 1 ∧ dynType_size r.2.2 1 = some 8 ∧
        dynType_size r.2.2 4 = none ∧
        dynType_sequence_alloc r.2.2 0 (some ⟨0, 0, none⟩) 3 true none [] = none)) (by decide)
    exact ⟨r, hr, by simpa using hp⟩

/-- C35 fails on the code: `Tnode=[lnode;;lnode;` and `Tn=*ln;;ln;` are parsed
with status `OK`, and `dynType_print` returns on neither tree, whatever the fuel
and without dereferencing `NULL`.  `dynType_printAny` replaces a reference by
its target, and `dynType_printSequence` and `dynType_printTypedPointer` descend
into the element type and the pointee without looking at the name of the node,
so the descent comes back to the declaration it started from.  Only
`dynType_printComplex` stops at a named node: the recursive Complex of
`Tnode={ILnode; value next};Lnode;` is printed. -/
theorem C35_print_follows_cycle :
    (∃ r, Returns (fun fuel => dynType_parseWithStr fuel "Tnode=[lnode;;lnode;".toList none none
        none []) r ∧ r.1 = Status.OK ∧ r.2.1 = some 0 ∧ r.2.2 = seqCycleHeap) ∧
    (∀ fuel, dynType_print fuel seqCycleHeap (some 0) [] = PrintRun.more) ∧
    (∃ r, Returns (fun fuel => dynType_parseWithStr fuel "Tn=*ln;;ln;".toList none none
        none []) r ∧ r.1 = Status.OK ∧ r.2.1 = some 0 ∧ r.2.2 = ptrCycleHeap) ∧
    (∀ fuel, dynType_print fuel ptrCycleHeap (some 0) [] = PrintRun.more) ∧
    dynType_print 20 listNodeHeap (some 0) [] ≠ PrintRun.more ∧
    dynType_print 20 listNodeHeap (some 0) [] ≠ PrintRun.fault := by
  refine ⟨?_, ?_, ?_, ?_, by decide, by decide⟩
  · obtain ⟨r, hr, hp⟩ := dynType_parseWithStr_check 10 "Tnode=[lnode;;lnode;".toList none none
      none [] (fun r => decide (r.1 = Status.OK ∧ r.2.1 = some 0 ∧ r.2.2 = seqCycleHeap))
      (by decide)
    exact ⟨r, hr, by simpa using hp⟩
  · intro fuel
    apply dynType_print_more
    · match fuel with
      | 0 => decide
      | 1 => decide
      | k + 2 =>
        have hk : dynType_printTypes (k + 2) seqCycleHeap (some 0) [] =
            PrintRun.printed [PrintLine.todoPrintType] := rfl
        rw [hk]
        exact fun hc => PrintRun.noConfusion hc
    · intro name depth out
      cases fuel with
      | zero => rfl
      | succ n =>
        rw [dynType_printAny]
        have h0 : (seqCycleHeap.at 0).type = DynKind.REF := by decide
        have h1 : (seqCycleHeap.at 0).ref_ref = some 1 := by decide
        have h2 : (seqCycleHeap.at 1).type = DynKind.SEQUENCE := by decide
        simp only [h0, h1, h2, if_true]
        simp only [reduceCtorEq, if_false]
        exact (dynType_printSequence_cycle seqCycleHeap 1 2 ⟨16, 8⟩ (by decide) (by decide)
          (by decide) (by decide) (by decide) n name depth out).1
  · obtain ⟨r, hr, hp⟩ := dynType_parseWithStr_check 10 "Tn=*ln;;ln;".toList none none
      none [] (fun r => decide (r.1 = Status.OK ∧ r.2.1 = some 0 ∧ r.2.2 = ptrCycleHeap))
      (by decide)
    exact ⟨r, hr, by simpa using hp⟩
  · intro fuel
    apply dynType_print_more
    · match fuel with
      | 0 => decide
      | 1 => decide
      | k + 2 =>
        have hk : dynType_printTypes (k + 2) ptrCycleHeap (some 0) [] =
            PrintRun.printed [PrintLine.todoPrintType] := rfl
        rw [hk]
        exact fun hc => PrintRun.noConfusion hc
    · intro name depth out
      cases fuel with
      | zero => rfl
      | succ n =>
        rw [dynType_printAny]
        have h0 : (ptrCycleHeap.at 0).type = DynKind.REF := by decide
        have h1 : (ptrCycleHeap.at 0).ref_ref = some 1 := by decide
        have h2 : (ptrCycleHeap.at 1).type = DynKind.TYPED_POINTER := by decide
        simp only [h0, h1, h2, if_true]
        simp only [reduceCtorEq, if_false]
        exact (dynType_printTypedPointer_cycle ptrCycleHeap 1 2 ⟨8, 8⟩ (by decide) (by decide)
          (by decide) (by decide) (by decide) n name depth out).1

/-- C36: from a node `x` whose parent chain holds no external scope entry,
`dynType_findType` returns, with enough fuel, the first declaration named `n` in
the nested declarations of the nearest node of the chain `x`, parent of `x`, …
that declares `n`, and `NULL` when no node of the chain declares `n`. -/
theorem C36_nearest_declaration (h : Heap) (n : List Char) (ps : List Ptr) (x : Ptr)
    (hx : PlainChain h x ps) (fuel : Nat) (hfuel : ps.length < fuel) :
    dynType_findType fuel h x n = some (nearestDeclaration h n (x :: ps)) := by
  induction ps generalizing x fuel with
  | nil =>
    obtain ⟨k, rfl⟩ : ∃ k, fuel = k + 1 := ⟨fuel - 1, by omega⟩
    obtain ⟨h1, h2⟩ := hx
    rw [dynType_findType_plainNode k h x n h1, h2]
    simp only [nearestDeclaration]
    cases firstNamed h n (h.at x).nestedTypesHead <;> rfl
  | cons y ys ih =>
    obtain ⟨k, rfl⟩ : ∃ k, fuel = k + 1 := ⟨fuel - 1, by omega⟩
    obtain ⟨h1, h2, h3⟩ := hx
    rw [dynType_findType_plainNode k h x n h1, h2]
    have := ih y h3 k (by simpa using hfuel)
    rw [nearestDeclaration]
    cases firstNamed h n (h.at x).nestedTypesHead with
    | some t => rfl
    | none => exact this

/-- Witness of C36.  In `{Tfoo=I;lfoo;lfoo; a b}` the name `foo` is declared
inside the first field: it resolves from the first field and not from the
second, whose reference is left without a target.  In
`Tn=I;Tn=D;{Tn=B;ln;ln; a b}` the first field declares `n` itself and resolves
it to its own declaration; from the second field `n` resolves to the first of
the two declarations of the root. -/
theorem C36_nearest_declaration_witness :
    PlainChain siblingHeap 3 [0] ∧ [0].length < 2 ∧
    dynType_findType 2 siblingHeap 3 "foo".toList =
      some (nearestDeclaration siblingHeap "foo".toList [3, 0]) ∧
    nearestDeclaration siblingHeap "foo".toList [3, 0] = none ∧
    dynType_type siblingHeap 3 = DynKind.REF ∧ (siblingHeap.at 3).ref_ref = none ∧
    dynType_findType 2 siblingHeap 1 "foo".toList =
      some (nearestDeclaration siblingHeap "foo".toList [1, 0]) ∧
    nearestDeclaration siblingHeap "foo".toList [1, 0] = some 2 ∧
    (siblingHeap.at 1).ref_ref = some 2 ∧
    (redeclareHeap.at 0).nestedTypesHead = [1, 2] ∧ (redeclareHeap.at 3).nestedTypesHead = [4] ∧
    (redeclareHeap.at 1).name = some "n".toList ∧ (redeclareHeap.at 2).name = some "n".toList ∧
    (redeclareHeap.at 4).name = some "n".toList ∧
    dynType_findType 2 redeclareHeap 3 "n".toList =
      some (nearestDeclaration redeclareHeap "n".toList [3, 0]) ∧
    nearestDeclaration redeclareHeap "n".toList [3, 0] = some 4 ∧
    (redeclareHeap.at 3).ref_ref = some 4 ∧
    dynType_findType 2 redeclareHeap 5 "n".toList =
      some (nearestDeclaration redeclareHeap "n".toList [5, 0]) ∧
    nearestDeclaration redeclareHeap "n".toList [5, 0] = some 1 ∧
    (redeclareHeap.at 5).ref_ref = some 1 :=
  ⟨⟨⟨by decide, by decide⟩, by decide, ⟨by decide, by decide⟩, by decide⟩, by decide,
    C36_nearest_declaration siblingHeap "foo".toList [0] 3
      ⟨⟨by decide, by decide⟩, by decide, ⟨by decide, by decide⟩, by decide⟩ 2 (by decide),
    by decide, by decide, by decide,
    C36_nearest_declaration siblingHeap "foo".toList [0] 1
      ⟨⟨by decide, by decide⟩, by decide, ⟨by decide, by decide⟩, by decide⟩ 2 (by decide),
    by decide, by decide, by decide, by decide, by decide, by decide, by decide,
    C36_nearest_declaration redeclareHeap "n".toList [0] 3
      ⟨⟨by decide, by decide⟩, by decide, ⟨by decide, by decide⟩, by decide⟩ 2 (by decide),
    by decide, by decide,
    C36_nearest_declaration redeclareHeap "n".toList [0] 5
      ⟨⟨by decide, by decide⟩, by decide, ⟨by decide, by decide⟩, by decide⟩ 2 (by decide),
    by decide, by decide⟩

/-- C37 fails as stated: in `Tn=I;Tn={ILn; value next};Ln;` the root declares
`n` twice, at the addresses 1 and 2.  The reference `Ln;` inside the body of the
second declaration, at address 5 under the field at 4, resolves to the first
declaration: no external scope and no inner declaration of `n` is involved, yet
the target is not the declaration being defined. -/
theorem C37_earlier_declaration_found :
    ∃ r, Returns (fun fuel => dynType_parseWithStr fuel
        "Tn=I;Tn=\x7bILn; value next\x7d;Ln;".toList none none none []) r ∧
      r.1 = Status.OK ∧ r.2.1 = some 0 ∧ (r.2.2.at 0).referenceTypes = none ∧
      (r.2.2.at 0).nestedTypesHead = [1, 2] ∧ (r.2.2.at 1).name = some "n".toList ∧
      (r.2.2.at 2).name = some "n".toList ∧ dynType_type r.2.2 2 = DynKind.COMPLEX ∧
      (r.2.2.at 2).complex_types = some [3, 4] ∧ (r.2.2.at 2).nestedTypesHead = [] ∧
      (r.2.2.at 4).typedPointer_typedType = some 5 ∧ (r.2.2.at 4).nestedTypesHead = [] ∧
      (r.2.2.at 5).nestedTypesHead = [] ∧ dynType_type r.2.2 5 = DynKind.REF ∧
      (r.2.2.at 5).ref_ref = some 1 ∧ (r.2.2.at 5).ref_ref ≠ some 2 := by
  obtain ⟨r, hr, hp⟩ := dynType_parseWithStr_check 20
    "Tn=I;Tn=\x7bILn; value next\x7d;Ln;".toList none none none []
    (fun r => decide (r.1 = Status.OK ∧ r.2.1 = some 0 ∧ (r.2.2.at 0).referenceTypes = none ∧
      (r.2.2.at 0).nestedTypesHead = [1, 2] ∧ (r.2.2.at 1).name = some "n".toList ∧
      (r.2.2.at 2).name = some "n".toList ∧ dynType_type r.2.2 2 = DynKind.COMPLEX ∧
      (r.2.2.at 2).complex_types = some [3, 4] ∧ (r.2.2.at 2).nestedTypesHead = [] ∧
      (r.2.2.at 4).typedPointer_typedType = some 5 ∧ (r.2.2.at 4).nestedTypesHead = [] ∧
      (r.2.2.at 5).nestedTypesHead = [] ∧ dynType_type r.2.2 5 = DynKind.REF ∧
      (r.2.2.at 5).ref_ref = some 1 ∧ (r.2.2.at 5).ref_ref ≠ some 2)) (by decide)
  exact ⟨r, hr, by simpa using hp⟩

/-- C37, amended: let the node `d` declare `e` under the name `n`, no earlier
declaration of `d` and no entry of the external scope of `d` bearing that name.
From every node `x` below `d`, in particular from every node of the body of
`e`, the name `n` resolves to `e`, provided no node on the parent chain from
`x` up to, but excluding, `d` declares `n`. -/
theorem C37_own_declaration_found (h : Heap) (n : List Char) (d e : Ptr)
    (hd : ∀ refs, (h.at d).referenceTypes = some refs → NotDeclared h refs n)
    (he : ScopeEntry h (h.at d).nestedTypesHead n e)
    (ps : List Ptr) (x : Ptr) (hx : ChainToRoot h n d x ps) (fuel : Nat)
    (hfuel : ps.length < fuel) : dynType_findType fuel h x n = some (some e) := by
  induction ps generalizing x fuel with
  | nil =>
    obtain ⟨k, rfl⟩ : ∃ k, fuel = k + 1 := ⟨fuel - 1, by omega⟩
    have hxr : x = d := hx
    subst hxr
    apply dynType_findType_nested
    · unfold scopeScan
      cases hr : (h.at x).referenceTypes with
      | none => rfl
      | some refs => exact findType_scan_notDeclared h n refs (hd refs hr)
    · exact findType_scan_scopeEntry h n _ e he
  | cons y ys ih =>
    obtain ⟨k, rfl⟩ : ∃ k, fuel = k + 1 := ⟨fuel - 1, by omega⟩
    obtain ⟨h1, h2, h3, h4⟩ := hx
    rw [dynType_findType_parent k h x y n (scopeScan_none h x n h1)
      (findType_scan_notDeclared h n _ h2) h3]
    exact ih y h4 k (by simpa using hfuel)

/-- Witness of the amended C37: `Tnode={ILnode; value next};Lnode;` returns
`OK`; the reference inside the body of `node`, at address 4 under the field
`next` at 3, resolves to the declaration `node` itself, at address 1, and the
type of the field `next` is a typed pointer whose target is that declaration. -/
theorem C37_own_declaration_found_witness :
    (∀ refs, (listNodeHeap.at 0).referenceTypes = some refs →
      NotDeclared listNodeHeap refs "node".toList) ∧
    ScopeEntry listNodeHeap (listNodeHeap.at 0).nestedTypesHead "node".toList 1 ∧
    ChainToRoot listNodeHeap "node".toList 0 4 [3, 1, 0] ∧ [3, 1, 0].length < 4 ∧
    dynType_findType 4 listNodeHeap 4 "node".toList = some (some 1) ∧
    (∃ r, Returns (fun fuel => dynType_parseWithStr fuel
        "Tnode=\x7bILnode; value next\x7d;Lnode;".toList none none none []) r ∧
      r.1 = Status.OK ∧ r.2.1 = some 0 ∧ r.2.2 = listNodeHeap) ∧
    (listNodeHeap.at 1).complex_entriesHead =
      [⟨2, some "value".toList⟩, ⟨3, some "next".toList⟩] ∧
    dynType_complex_dynTypeAt listNodeHeap 1 1 = some (some 3) ∧
    dynType_type listNodeHeap 3 = DynKind.TYPED_POINTER ∧
    (listNodeHeap.at 3).typedPointer_typedType = some 4 ∧ (listNodeHeap.at 4).ref_ref = some 1 ∧
    dynType_typedPointer_getTypedType listNodeHeap 3 = some (some 1) :=
  ⟨fun refs hr => by
      rw [show (listNodeHeap.at 0).referenceTypes = none by decide] at hr
      exact absurd hr (by simp),
    ⟨[], [], by decide, fun _ hq => absurd hq (List.not_mem_nil _), by decide⟩,
    ⟨by decide, notDeclared_of_nil _ _ _ (by decide), by decide,
      by decide, notDeclared_of_nil _ _ _ (by decide), by decide,
      by decide, notDeclared_of_nil _ _ _ (by decide), by decide, rfl⟩, by decide,
    C37_own_declaration_found listNodeHeap "node".toList 0 1
      (fun refs hr => by
        rw [show (listNodeHeap.at 0).referenceTypes = none by decide] at hr
        exact absurd hr (by simp))
      ⟨[], [], by decide, fun _ hq => absurd hq (List.not_mem_nil _), by decide⟩ [3, 1, 0] 4
      ⟨by decide, notDeclared_of_nil _ _ _ (by decide), by decide,
        by decide, notDeclared_of_nil _ _ _ (by decide), by decide,
        by decide, notDeclared_of_nil _ _ _ (by decide), by decide, rfl⟩ 4 (by decide),
    (dynType_parseWithStr_check 20 "Tnode=\x7bILnode; value next\x7d;Lnode;".toList none none
      none [] (fun r => decide (r.1 = Status.OK ∧ r.2.1 = some 0 ∧ r.2.2 = listNodeHeap))
      (by decide)).imp fun r hr => ⟨hr.1, by simpa using hr.2⟩,
    by decide, by decide, by decide, by decide, by decide, by decide⟩

/-- C38: on a Complex all of whose fields are named, for a string `s` that at
least one field bears, `dynType_complex_indexForName` returns the greatest index
of a field named `s`: the field at that index is named `s` and no field after
it is. -/
theorem C38_last_match (h : Heap) (type : Ptr) (s : List Char)
    (hk : dynType_type h type = DynKind.COMPLEX)
    (hnamed : ∀ e ∈ (h.at type).complex_entriesHead, e.name ≠ none)
    (hs : ∃ e ∈ (h.at type).complex_entriesHead, e.name = some s) :
    ∃ i : Nat, dynType_complex_indexForName h type s = some (i : Int) ∧
      i < (h.at type).complex_entriesHead.length ∧
      ((h.at type).complex_entriesHead.get? i).map complex_type_entry.name = some (some s) ∧
      ∀ k, i < k →
        ((h.at type).complex_entriesHead.get? k).map complex_type_entry.name ≠ some (some s) := by
  obtain ⟨idx, h1, h2⟩ := indexForName_loop_last s (h.at type).complex_entriesHead [] (-1) hnamed
    (Or.inl ⟨rfl, fun _ hx => absurd hx (List.not_mem_nil _)⟩)
  rw [List.nil_append] at h2
  have hk2 : (h.at type).type = DynKind.COMPLEX := hk
  rcases h2 with ⟨_, h3⟩ | ⟨j, h3, h4, h5⟩
  · obtain ⟨e, he, hes⟩ := hs
    exact absurd hes (h3 e he)
  · subst h3
    refine ⟨j, ?_, ?_, h4, h5⟩
    · rw [dynType_complex_indexForName, if_pos hk2]
      exact h1
    · by_contra hc
      rw [List.get?_eq_none.2 (Nat.le_of_not_lt hc)] at h4
      simp at h4

/-- Witness of C38: in `{III a b a}` the fields 0 and 2 are named `a`, and the
index returned for `a` is 2. -/
theorem C38_last_match_witness :
    dynType_type repeatHeap 0 = DynKind.COMPLEX ∧
    (∀ e ∈ (repeatHeap.at 0).complex_entriesHead, e.name ≠ none) ∧
    (∃ e ∈ (repeatHeap.at 0).complex_entriesHead, e.name = some "a".toList) ∧
    (∃ i : Nat, dynType_complex_indexForName repeatHeap 0 "a".toList = some (i : Int) ∧
      i < (repeatHeap.at 0).complex_entriesHead.length ∧
      ((repeatHeap.at 0).complex_entriesHead.get? i).map complex_type_entry.name =
        some (some "a".toList) ∧
      ∀ k, i < k → ((repeatHeap.at 0).complex_entriesHead.get? k).map complex_type_entry.name ≠
        some (some "a".toList)) ∧
    ((repeatHeap.at 0).complex_entriesHead.get? 0).map complex_type_entry.name =
      some (some "a".toList) ∧
    dynType_complex_indexForName repeatHeap 0 "a".toList = some 2 :=
  ⟨by decide, by decide, by decide,
    C38_last_match repeatHeap 0 "a".toList (by decide) (by decide) (by decide),
    by decide, by decide⟩

/-- C39: on a Complex whose member array holds a layout for each of its fields,
with alignments that are powers of two in the range of an `unsigned short`, the
offset that `dynType_getOffset` returns for a field `i` is the offset of the C
packing rule modulo 65536.  It is that offset itself when the offset is below
65536, and it is smaller than that offset when the offset is 65536 or more. -/
theorem C39_offset_modulo (h : Heap) (type : Ptr) (fs : List ffi_type) (i : Nat)
    (hk : dynType_type h type = DynKind.COMPLEX)
    (hel : (h.at type).complex_elements = some (fs.map some))
    (hal : ∀ t ∈ fs, ∃ k, k < 16 ∧ t.alignment = 2 ^ k) (hi : i < fs.length) :
    dynType_getOffset h type (i : Int) = some (specOffset fs i % 65536) ∧
    (specOffset fs i < 65536 → dynType_getOffset h type (i : Int) = some (specOffset fs i)) ∧
    (65536 ≤ specOffset fs i →
      ∃ o, dynType_getOffset h type (i : Int) = some o ∧ o < specOffset fs i) := by
  have hk2 : (h.at type).type = DynKind.COMPLEX := hk
  have hal2 : ∀ t ∈ fs, 0 < t.alignment ∧ t.alignment < 65536 ∧ t.alignment ∣ 65536 := by
    intro t ht
    obtain ⟨k, hk16, hpow⟩ := hal t ht
    exact pow_two_layout t.alignment k hk16 hpow
  have hm := dynType_getOffset_mod h type fs i hk2 hel hal2 hi
  refine ⟨hm, ?_, ?_⟩
  · intro hlt
    rw [hm, Nat.mod_eq_of_lt hlt]
  · intro hge
    exact ⟨_, hm, Nat.lt_of_lt_of_le (Nat.mod_lt _ (by decide)) hge⟩

/-- Witness of C39: in `{BDI a b c}` the offset of the field 2 is 16, as the
packing rule has it; in the Complex parsed from `{D…D a … a}` with 8193 fields
of type double the packing rule puts the field 8192 at 65536 and the offset
returned is 0. -/
theorem C39_offset_modulo_witness :
    (dynType_type mixedHeap 0 = DynKind.COMPLEX ∧
      (mixedHeap.at 0).complex_elements =
        some ([ffi_type_sint8, ffi_type_double, ffi_type_sint32].map some) ∧
      (∀ t ∈ [ffi_type_sint8, ffi_type_double, ffi_type_sint32],
        ∃ k, k < 16 ∧ t.alignment = 2 ^ k) ∧
      2 < [ffi_type_sint8, ffi_type_double, ffi_type_sint32].length ∧
      specOffset [ffi_type_sint8, ffi_type_double, ffi_type_sint32] 2 = 16 ∧
      dynType_getOffset mixedHeap 0 ((2 : Nat) : Int) = some 16) ∧
    ∃ h', Returns (fun fuel => dynType_parseWithStr fuel (wideDescriptor 8193) none none none [])
        (Status.OK, some 0, h') ∧
      dynType_type h' 0 = DynKind.COMPLEX ∧
      (h'.at 0).complex_elements = some ((List.replicate 8193 ffi_type_double).map some) ∧
      specOffset (List.replicate 8193 ffi_type_double) 8192 = 65536 ∧
      dynType_getOffset h' 0 ((8192 : Nat) : Int) = some 0 := by
  refine ⟨⟨by decide, by decide, by decide, by decide, by decide, ?_⟩, ?_⟩
  · exact ((C39_offset_modulo mixedHeap 0 [ffi_type_sint8, ffi_type_double, ffi_type_sint32] 2
      (by decide) (by decide) (by decide) (by decide)).2.1 (by decide))
  · obtain ⟨h', hr, hty, -, -, hel, -⟩ := dynType_parseWithStr_wide 8193 (by decide)
    have hel2 : (h'.at 0).complex_elements =
        some ((List.replicate 8193 ffi_type_double).map some) := by
      rw [hel, List.map_replicate]
    have hs : specOffset (List.replicate 8193 ffi_type_double) 8192 = 65536 :=
      specOffset_doubles 8193 8192 (by decide)
    have hc := (C39_offset_modulo h' 0 (List.replicate 8193 ffi_type_double) 8192 hty hel2
      (fun t ht => by
        rw [(List.mem_replicate.1 ht).2]
        exact ⟨3, by decide, rfl⟩)
      (by rw [List.length_replicate]; decide)).1
    rw [hs] at hc
    exact ⟨h', hr, hty, hel2, hs, hc⟩

/-- C40: `psa_zmq_checkVersion` returns true exactly when the version is not
`NULL`, the major byte of the header equals the major number of the version
modulo 256, and the minor byte of the header is at least the minor number of
the version modulo 256; the static `checkVersion` of the UDP topic subscription
returns the same on every input. -/
theorem C40_check_version (msgVersion : Option version) (hdr : pubsub_msg_header) :
    (psa_zmq_checkVersion msgVersion hdr = true ↔
      ∃ v, msgVersion = some v ∧ (hdr.major : Int) = v.major % 256 ∧
        v.minor % 256 ≤ (hdr.minor : Int)) ∧
    checkVersion msgVersion hdr = psa_zmq_checkVersion msgVersion hdr := by
  refine ⟨?_, rfl⟩
  cases msgVersion with
  | none => simp [psa_zmq_checkVersion]
  | some v =>
    have h1 : (0 : Int) ≤ v.major % 256 := Int.emod_nonneg _ (by decide)
    have h2 : (0 : Int) ≤ v.minor % 256 := Int.emod_nonneg _ (by decide)
    simp only [psa_zmq_checkVersion, version_getMajor, version_getMinor, toUChar,
      Option.some.injEq, exists_eq_left']
    constructor
    · intro hc
      split_ifs at hc with hm
      refine ⟨by omega, ?_⟩
      have := of_decide_eq_true hc
      omega
    · rintro ⟨ha, hb⟩
      have hm : hdr.major = (v.major % 256).toNat := by omega
      rw [if_pos hm]
      exact decide_eq_true (by omega)

end Celix
